import Mathlib

set_option autoImplicit false

/-!
Verification development for the reverse proxy (`proxy`, `internal/blocker`,
`internal/masker`).

Go values are embedded as follows.

* `[]byte` and the contents of a `string` that the code indexes or scans are
  lists of bytes, one natural number per byte (`Bytes`).
* Strings that the code only compares, stores or logs (methods, header names,
  unit names, error texts) are Lean strings.
* An `error` is `Option GoError`; `none` is `nil`.
* A Go `map` is an association list; the code only looks keys up or ranges
  over a map to find some entry, so the order plays no part.
* Interfaces (`Blocker`, `Masker`) are records of their methods.
* The handler threads one record, `Run`, that holds everything observable of
  one request: the response writer, the log, and the calls made to blockers,
  to the upstream and to maskers.
* `http.ResponseWriter` is an interface and the handler is followed on two
  writers: a recording one (`ResponseRecorder`), which takes every write, and
  the one of `http.Server` (`response`), which holds the handler to the
  `Content-Length` it declared (namespace `Server`).
* A run-time panic is a result of its own: `none` for a function that
  dereferences a nil `r.URL`, `Logged.panic` for the logging goroutine.
* What a goroutine does is a function of what it waits for: the result of
  `ListenAndServe` is an argument of `Start`.
-/

namespace GoProxy

/-! ## Bytes and strings -/

/-- Byte sequences: Go `[]byte`, and `string` where the code works on bytes. -/
abbrev Bytes := List Nat

/-- UTF-8 encoding of one code point (`utf8.AppendRune` on a valid rune). -/
def encodeRune (r : Nat) : Bytes :=
  if r < 0x80 then [r]
  else if r < 0x800 then [0xC0 + r / 64, 0x80 + r % 64]
  else if r < 0x10000 then [0xE0 + r / 4096, 0x80 + r / 64 % 64, 0x80 + r % 64]
  else [0xF0 + r / 262144, 0x80 + r / 4096 % 64, 0x80 + r / 64 % 64, 0x80 + r % 64]

/-- The bytes of a string literal: `[]byte("...")`. -/
def bytesOf (s : String) : Bytes :=
  s.toList.flatMap (fun c => encodeRune c.toNat)

/-! ## Errors -/

/-- The dynamic type of an error value, as far as the error handler tells
types apart: `*net.OpError`, `*url.Error`, anything else. -/
inductive ErrorType where
  | netOpError
  | urlError
  | other
  deriving DecidableEq, Repr

/-- A non-nil Go `error`: its dynamic type and the text `err.Error()` returns. -/
structure GoError where
  dynType : ErrorType
  text : String
  deriving DecidableEq, Repr

/-! ## HTTP headers (`net/http`, `net/textproto`) -/

/-- The bytes `textproto` accepts in a header field name (`validHeaderFieldByte`):
the token characters of RFC 7230. -/
def validHeaderFieldByte (c : Char) : Bool :=
  c.isAlphanum ||
    [33, 35, 36, 37, 38, 39, 42, 43, 45, 46, 94, 95, 96, 124, 126].contains c.toNat

/-- The canonicalising loop of `textproto.canonicalMIMEHeaderKey`: upper case
for the first letter and for each letter after a hyphen, lower case for the
other letters; `upper` says whether the next byte starts a word. -/
def canonicalLoop : Bool → List Char → List Char
  | _, [] => []
  | upper, c :: cs =>
    let c1 := if upper && c.isLower then c.toUpper
              else if !upper && c.isUpper then c.toLower else c
    c1 :: canonicalLoop (c1 == '-') cs

/-- Model of `textproto.CanonicalMIMEHeaderKey`: a key that holds a byte
which is not a header field byte is returned unchanged, any other key is put
in canonical form. -/
def CanonicalMIMEHeaderKey (s : String) : String :=
  if s.toList.all validHeaderFieldByte then String.mk (canonicalLoop true s.toList) else s

/-- Go `http.Header`, a `map[string][]string`. -/
structure Header where
  entries : List (String × List String)
  deriving DecidableEq, Repr

namespace Header

/-- The empty (or nil) header map. -/
def empty : Header := ⟨[]⟩

/-- Map lookup `h[key]`: the values stored under exactly `key`, `[]` when the
key is absent. -/
def values (h : Header) (key : String) : List String :=
  (h.entries.lookup key).getD []

/-- Model of `Header.Get`: the first value stored under the canonical form of
`key`, and `""` when there is none. -/
def Get (h : Header) (key : String) : String :=
  (h.values (CanonicalMIMEHeaderKey key)).headD ""

/-- Model of `Header.Set`: the canonical key now holds the single value. -/
def Set (h : Header) (key value : String) : Header :=
  let k := CanonicalMIMEHeaderKey key
  ⟨(k, [value]) :: h.entries.filter (fun e => e.1 != k)⟩

/-- Model of `Header.Add`: appends the value to those of the canonical key. -/
def Add (h : Header) (key value : String) : Header :=
  let k := CanonicalMIMEHeaderKey key
  ⟨(k, h.values k ++ [value]) :: h.entries.filter (fun e => e.1 != k)⟩

/-- Model of `Header.Del`. -/
def Del (h : Header) (key : String) : Header :=
  let k := CanonicalMIMEHeaderKey key
  ⟨h.entries.filter (fun e => e.1 != k)⟩

end Header

/-- Model of `httputil`'s `copyHeader(dst, src)`: every value of `src` is added
to `dst`. -/
def copyHeader (dst src : Header) : Header :=
  src.entries.foldl (fun d e => e.2.foldl (fun d v => d.Add e.1 v) d) dst

/-! ## Requests and responses -/

/-- Go `url.URL`, the fields the program reads. -/
structure URL where
  Path : String
  RawQuery : String
  deriving DecidableEq, Repr

/-- Go `http.Request`, the fields the program reads. `URL` is a pointer and
may be nil. -/
structure Request where
  Method : String
  URL : Option URL
  Header : Header
  Host : String
  RemoteAddr : String
  Body : Bytes
  deriving DecidableEq, Repr

/-- A response body stream (`io.ReadCloser`): the bytes it yields, and the
error reading ends with (`none` is a clean EOF). -/
structure Body where
  data : Bytes
  err : Option GoError
  deriving DecidableEq, Repr

/-- Go `http.Response` as the upstream returns it. The request it answers
(`r.Request`) is passed next to it. -/
structure Response where
  StatusCode : Nat
  Header : Header
  Body : Body
  deriving DecidableEq, Repr

/-- `http.MethodGet`. -/
def MethodGet : String := "GET"

/-- `http.StatusForbidden`. -/
def StatusForbidden : Nat := 403

/-- `http.StatusInternalServerError`. -/
def StatusInternalServerError : Nat := 500

/-- `http.StatusBadGateway`. -/
def StatusBadGateway : Nat := 502

/-! ## Response writers -/

/-- The client side of a response, as `httptest.ResponseRecorder` records it:
the header map, the status code of the first `WriteHeader`, and the bytes of
all `Write` calls in order. -/
structure ResponseRecorder where
  HeaderMap : Header
  wroteHeader : Bool
  Code : Nat
  Body : Bytes
  deriving DecidableEq, Repr

namespace ResponseRecorder

/-- A writer on which nothing was written yet. -/
def new : ResponseRecorder := ⟨Header.empty, false, 200, []⟩

/-- `WriteHeader(code)`: only the first call sets the status. -/
def WriteHeader (rw : ResponseRecorder) (code : Nat) : ResponseRecorder :=
  if rw.wroteHeader then rw else { rw with wroteHeader := true, Code := code }

/-- `Write(b)`: sends status 200 when no status was sent, then appends `b`. -/
def Write (rw : ResponseRecorder) (b : Bytes) : ResponseRecorder :=
  let rw1 := if rw.wroteHeader then rw else rw.WriteHeader 200
  { rw1 with Body := rw1.Body ++ b }

end ResponseRecorder

/-- The `loggingResponseWriter` of `reverseproxy.go`: the embedded writer,
the last status code, and `body`, which is nil (`none`) or a reader over the
slice of one `Write`. -/
structure loggingResponseWriter where
  ResponseWriter : ResponseRecorder
  statusCode : Nat
  body : Option Bytes
  deriving DecidableEq, Repr

namespace loggingResponseWriter

/-- `&loggingResponseWriter{rw, 0, nil}`. -/
def new (rw : ResponseRecorder) : loggingResponseWriter := ⟨rw, 0, none⟩

/-- `loggingResponseWriter.WriteHeader`. -/
def WriteHeader (lrw : loggingResponseWriter) (code : Nat) : loggingResponseWriter :=
  { lrw with statusCode := code, ResponseWriter := lrw.ResponseWriter.WriteHeader code }

/-- `loggingResponseWriter.Write`. -/
def Write (lrw : loggingResponseWriter) (b : Bytes) : loggingResponseWriter :=
  { lrw with body := some b, ResponseWriter := lrw.ResponseWriter.Write b }

/-- `loggingResponseWriter.Header`, read access. -/
def Header (lrw : loggingResponseWriter) : Header := lrw.ResponseWriter.HeaderMap

/-- An update of the map `Header()` returns. -/
def mapHeader (lrw : loggingResponseWriter) (f : GoProxy.Header → GoProxy.Header) :
    loggingResponseWriter :=
  { lrw with ResponseWriter :=
      { lrw.ResponseWriter with HeaderMap := f lrw.ResponseWriter.HeaderMap } }

end loggingResponseWriter

/-- Model of `http.Error(w, error, code)`: sets the content type headers,
writes the status, then prints the message with `fmt.Fprintln`, that is the
message followed by a newline, in one `Write`. -/
def httpError (w : loggingResponseWriter) (error : String) (code : Nat) :
    loggingResponseWriter :=
  let w1 := w.mapHeader (fun h =>
    ((h.Del "Content-Length").Set "Content-Type" "text/plain; charset=utf-8").Set
      "X-Content-Type-Options" "nosniff")
  (w1.WriteHeader code).Write (bytesOf error ++ [10])

/-! ## The proxy: blockers, maskers, handler -/

/-- The `Blocker` interface. `Block` returns `(bool, error)`. -/
structure Blocker where
  Name : String
  Block : Request → Bool × Option GoError

/-- The `Masker` interface. `Mask` returns `([]byte, error)`. -/
structure Masker where
  Name : String
  Mask : Bytes → Bytes × Option GoError

/-- One log event: level, message, and the string fields attached to it. -/
structure LogEntry where
  level : String
  msg : String
  fields : List (String × String)
  deriving DecidableEq, Repr

/-- The `ReverseProxy` struct of `reverseproxy.go`. `TargetHost` is the host
of the parsed target URL; `Transport` stands for one round trip to the
upstream through `rp.proxy.Transport`, which returns a response or an error. -/
structure ReverseProxy where
  TargetHost : String
  Port : Nat
  Blockers : List Blocker
  Maskers : List Masker
  Transport : Request → Except GoError Response

/-- Everything observable of the handling of one request. -/
structure Run where
  w : loggingResponseWriter
  log : List LogEntry
  blockerCalls : List Blocker
  upstreamCalls : List Request
  maskerCalls : List (Masker × Bytes)

/-- The state before the handler runs, on a response writer `w`. -/
def Run.start (w : loggingResponseWriter) : Run := ⟨w, [], [], [], []⟩

/-- The function assigned to `rp.proxy.ErrorHandler` in `New`. -/
def ErrorHandler (st : Run) (_r : Request) (err : GoError) : Run :=
  let st := { st with log := st.log ++ [LogEntry.mk "error" "proxy handler error" [("error", err.text)]] }
  if err.dynType = ErrorType.netOpError then
    { st with w := (st.w.WriteHeader StatusBadGateway).Write [] }
  else if err.dynType = ErrorType.urlError then
    { st with w := (st.w.WriteHeader StatusBadGateway).Write [] }
  else
    { st with w := (st.w.WriteHeader StatusInternalServerError).Write [] }

/-- The masker loop of `ModifyResponse`: `masked, err = m.Mask(ctx, masked)`
for each masker in order, returning at the first error. The result is the
state, the last value of `masked`, and the error returned. -/
def maskLoop : List Masker → Run → Bytes → Run × Bytes × Option GoError
  | [], st, masked => (st, masked, none)
  | m :: ms, st, masked =>
    let st := { st with maskerCalls := st.maskerCalls ++ [(m, masked)] }
    match m.Mask masked with
    | (out, some err) =>
      ({ st with log := st.log ++
          [LogEntry.mk "error" "masker error" [("error", err.text), ("masker_name", m.Name)]] },
        out, some err)
    | (out, none) => maskLoop ms st out

/-- The function assigned to `rp.proxy.ModifyResponse` in `New`; `req` is
`r.Request`. It returns the state, the response as it leaves it, and the
error it returns. -/
def ModifyResponse (rp : ReverseProxy) (st : Run) (req : Request) (r : Response) :
    Run × Response × Option GoError :=
  if req.Method = MethodGet then
    -- resBody, err := io.ReadAll(r.Body)
    match r.Body.err with
    | some err => (st, { r with Body := ⟨[], some err⟩ }, some err)
    | none =>
      match maskLoop rp.Maskers st r.Body.data with
      | (st, _, some err) => (st, { r with Body := ⟨[], none⟩ }, some err)
      | (st, masked, none) => (st, { r with Body := ⟨masked, none⟩ }, none)
  else (st, r, none)

/-- Model of the copy loop of `httputil` (`copyBuffer`, 32 KiB buffer): each
non-empty read from the body is one `Write`; `n` bounds the number of reads. -/
def copyBuffer : Nat → loggingResponseWriter → Bytes → loggingResponseWriter
  | 0, w, _ => w
  | n + 1, w, data =>
    if data = [] then w
    else copyBuffer n (w.Write (data.take 32768)) (data.drop 32768)

/-- Model of `httputil.ReverseProxy.ServeHTTP` with the hooks `New` installs:
one round trip to the upstream; a transport error goes to the error handler;
otherwise `ModifyResponse` runs, its error goes to the error handler, and on
success the headers, the status and the body of the response are written.
Protocol upgrades, 1xx responses and trailers are not modelled. -/
def ServeHTTP (rp : ReverseProxy) (st : Run) (r : Request) : Run :=
  let st := { st with upstreamCalls := st.upstreamCalls ++ [r] }
  match rp.Transport r with
  | .error err => ErrorHandler st r err
  | .ok res =>
    match ModifyResponse rp st r res with
    | (st, _, some err) => ErrorHandler st r err
    | (st, res, none) =>
      let w := (st.w.mapHeader (fun h => copyHeader h res.Header)).WriteHeader res.StatusCode
      { st with w := copyBuffer res.Body.data.length w res.Body.data }

/-- The blocker loop of the handler `New` builds, followed by `p.ServeHTTP`
when no blocker fires. -/
def blockerLoop (rp : ReverseProxy) : List Blocker → Run → Request → Run
  | [], st, r => ServeHTTP rp st r
  | b :: bs, st, r =>
    let st := { st with blockerCalls := st.blockerCalls ++ [b] }
    match b.Block r with
    | (_, some err) =>
      { st with
        log := st.log ++ [LogEntry.mk "info" "blocker error"
          [("error", err.text), ("blocker_name", b.Name)]]
        w := httpError st.w err.text StatusInternalServerError }
    | (true, none) =>
      { st with
        log := st.log ++ [LogEntry.mk "info" "request blocked" [("blocker_name", b.Name)]]
        w := httpError st.w "blocked" StatusForbidden }
    | (false, none) => blockerLoop rp bs st r

/-- The handler `rp.proxyHandlerFunc(rp.proxy)` built by `New`. -/
def proxyHandlerFunc (rp : ReverseProxy) (w : loggingResponseWriter) (r : Request) : Run :=
  let r := { r with Host := rp.TargetHost }
  blockerLoop rp rp.Blockers (Run.start w) r

/-- The handler run on a fresh response writer, as the server calls it. -/
def handle (rp : ReverseProxy) (r : Request) : Run :=
  proxyHandlerFunc rp (loggingResponseWriter.new ResponseRecorder.new) r

/-- The status code the client receives. -/
def Run.status (st : Run) : Nat := st.w.ResponseWriter.Code

/-- The body the client receives. -/
def Run.clientBody (st : Run) : Bytes := st.w.ResponseWriter.Body

/-- Whether `Block` of `b` fires on `r`: it returns an error or `true`. -/
def Blocker.fires (b : Blocker) (r : Request) : Bool :=
  (b.Block r).2.isSome || (b.Block r).1

/-! ## Blockers (`internal/blocker`) -/

/-- The `HeaderBlocker` struct. -/
structure HeaderBlocker where
  HeaderMap : List (String × String)

/-- The loop of `HeaderBlocker.Block` over the entries of `HeaderMap`. -/
def HeaderBlocker.blockLoop (r : Request) : List (String × String) → Bool × Option GoError
  | [] => (false, none)
  | (k, v) :: rest =>
    if r.Header.Get k = v then (true, none) else HeaderBlocker.blockLoop r rest

/-- `HeaderBlocker.Block`. -/
def HeaderBlocker.Block (hb : HeaderBlocker) (r : Request) : Bool × Option GoError :=
  HeaderBlocker.blockLoop r hb.HeaderMap

/-- `HeaderBlocker.Name`. -/
def HeaderBlocker.Name (_hb : HeaderBlocker) : String := "Header Blocker"

/-! ## Runes and regular expressions (`unicode/utf8`, `regexp`) -/

/-- `utf8.RuneError`. -/
def RuneError : Nat := 0xFFFD

/-- A UTF-8 continuation byte. -/
def isCont (b : Nat) : Bool := 0x80 ≤ b && b ≤ 0xBF

/-- Model of `utf8.DecodeRuneInString`: the first rune of `s` and its width in
bytes; `(RuneError, 0)` on the empty string and `(RuneError, 1)` on a byte
that starts no valid encoding. -/
def decodeRune : Bytes → Nat × Nat
  | [] => (RuneError, 0)
  | b0 :: rest =>
    if b0 < 0x80 then (b0, 1)
    else if 0xC2 ≤ b0 ∧ b0 ≤ 0xDF then
      match rest with
      | b1 :: _ =>
        if isCont b1 then ((b0 - 0xC0) * 64 + (b1 - 0x80), 2) else (RuneError, 1)
      | _ => (RuneError, 1)
    else if 0xE0 ≤ b0 ∧ b0 ≤ 0xEF then
      match rest with
      | b1 :: b2 :: _ =>
        let lo := if b0 = 0xE0 then 0xA0 else 0x80
        let hi := if b0 = 0xED then 0x9F else 0xBF
        if lo ≤ b1 ∧ b1 ≤ hi ∧ isCont b2 then
          ((b0 - 0xE0) * 4096 + (b1 - 0x80) * 64 + (b2 - 0x80), 3)
        else (RuneError, 1)
      | _ => (RuneError, 1)
    else if 0xF0 ≤ b0 ∧ b0 ≤ 0xF4 then
      match rest with
      | b1 :: b2 :: b3 :: _ =>
        let lo := if b0 = 0xF0 then 0x90 else 0x80
        let hi := if b0 = 0xF4 then 0x8F else 0xBF
        if lo ≤ b1 ∧ b1 ≤ hi ∧ isCont b2 ∧ isCont b3 then
          ((b0 - 0xF0) * 262144 + (b1 - 0x80) * 4096 + (b2 - 0x80) * 64 + (b3 - 0x80), 4)
        else (RuneError, 1)
      | _ => (RuneError, 1)
    else (RuneError, 1)

/-- The runes of a string in order, as `for _, r := range s` yields them;
`n` bounds the number of runes. -/
def runes : Nat → Bytes → List Nat
  | 0, _ => []
  | n + 1, s =>
    match decodeRune s with
    | (_, 0) => []
    | (r, w) => r :: runes n (s.drop w)

/-- Regular expressions, the operators the two patterns of `internal/masker`
use. A class is given by its membership test on runes. -/
inductive Regex where
  | empty
  | cls (p : Nat → Bool)
  | cat (a b : Regex)
  | quest (a : Regex)
  | star (a : Regex)
  | lazyStar (a : Regex)

namespace Regex

/-- The pattern `a+`. -/
def plus (a : Regex) : Regex := cat a (star a)

/-- The pattern `a{n}` followed by `tail`. -/
def power (a : Regex) : Nat → Regex → Regex
  | 0, tail => tail
  | n + 1, tail => cat a (power a n tail)

/-- The pattern `(?:a(?:a ... )?)?` with `k` nested copies of `a`. -/
def nest (a : Regex) : Nat → Regex
  | 0 => empty
  | k + 1 => quest (cat a (nest a k))

/-- The pattern `a{min,max}`, as `regexp/syntax` simplifies it: `min` copies of
`a`, then `max - min` nested optional copies. -/
def repeatRange (a : Regex) (min max : Nat) : Regex :=
  power a min (nest a (max - min))

/-- Greedy iteration: one more round of `step` is preferred to stopping. -/
def starLoop (step : Bytes → List Bytes) : Nat → Bytes → List Bytes
  | 0, s => [s]
  | n + 1, s => (step s).flatMap (fun t => starLoop step n t) ++ [s]

/-- Lazy iteration: stopping is preferred to one more round of `step`. -/
def lazyStarLoop (step : Bytes → List Bytes) : Nat → Bytes → List Bytes
  | 0, s => [s]
  | n + 1, s => s :: (step s).flatMap (fun t => lazyStarLoop step n t)

/-- Backtracking semantics of a pattern at the start of `s`: the remainders of
`s` after each way the pattern can match a prefix of `s`, in the order of
preference of `regexp` (leftmost-first, as in Perl). The patterns of this
package repeat only expressions that consume a rune, so the number of rounds
of a repetition is bounded by the length of `s`. -/
def run : Regex → Bytes → List Bytes
  | empty, s => [s]
  | cls p, s =>
    match decodeRune s with
    | (_, 0) => []
    | (r, w) => if p r then [s.drop w] else []
  | cat a b, s => (run a s).flatMap (fun t => run b t)
  | quest a, s => run a s ++ [s]
  | star a, s => starLoop (fun t => run a t) s.length s
  | lazyStar a, s => lazyStarLoop (fun t => run a t) s.length s

/-- The match `regexp` reports at the start of `s`, as the remainder of `s`
after it: the first in the order of preference. -/
def matchAt (re : Regex) (s : Bytes) : Option Bytes := (run re s).head?

end Regex

/-- Model of `Regexp.ReplaceAllStringFunc(src, repl)` for a pattern that
matches no empty string: the leftmost match is replaced by `repl` of it and
the scan goes on after the match; where the pattern does not match, one rune
is copied. `n` bounds the number of steps. -/
def ReplaceAllStringFunc (re : Regex) (repl : Bytes → Bytes) : Nat → Bytes → Bytes
  | 0, src => src
  | n + 1, src =>
    match re.matchAt src with
    | some rest =>
      if rest.length < src.length then
        repl (src.take (src.length - rest.length)) ++ ReplaceAllStringFunc re repl n rest
      else
        match decodeRune src with
        | (_, 0) => []
        | (_, w) => src.take w ++ ReplaceAllStringFunc re repl n (src.drop w)
    | none =>
      match decodeRune src with
      | (_, 0) => []
      | (_, w) => src.take w ++ ReplaceAllStringFunc re repl n (src.drop w)

/-- The orbit of a rune under `unicode.SimpleFold`, which `(?i)` closes a
class under. Only the orbits that meet ASCII are listed (the letters, with
the Kelvin sign U+212A next to `k` and the long s U+017F next to `s`); the
orbit of any other rune holds no ASCII rune and is given as the rune alone. -/
def foldOrbit (r : Nat) : List Nat :=
  if r = 75 ∨ r = 107 ∨ r = 0x212A then [75, 107, 0x212A]
  else if r = 83 ∨ r = 115 ∨ r = 0x17F then [83, 115, 0x17F]
  else if 65 ≤ r ∧ r ≤ 90 then [r, r + 32]
  else if 97 ≤ r ∧ r ≤ 122 then [r - 32, r]
  else [r]

/-- A class under the flag `(?i)`. -/
def foldCase (p : Nat → Bool) (r : Nat) : Bool := (foldOrbit r).any p

/-! ## Credit card masker (`internal/masker/credit_card_masker.go`) -/

/-- The class `\d`: the ASCII digits. -/
def isDigit (r : Nat) : Bool := 48 ≤ r && r ≤ 57

/-- The class `[ -]`: space and hyphen. -/
def isSeparator (r : Nat) : Bool := r == 32 || r == 45

/-- The pattern `creditCardBasePattern`, `(?:\d[ -]*?){13,16}`. -/
def creditCardBaseRegexp : Regex :=
  Regex.repeatRange (.cat (.cls isDigit) (.lazyStar (.cls isSeparator))) 13 16

/-- The conversion `strconv.Atoi(string(s[i]))` with its error dropped, as
`luhn` uses it: the value of a digit, and 0 for any other byte. -/
def atoiByte (b : Nat) : Nat := if 48 ≤ b ∧ b ≤ 57 then b - 48 else 0

/-- The loop of `luhn`; the first argument is `i + 1`, so the loop ends when
it is 0 (`i > -1` fails). -/
def luhnLoop (s : Bytes) : Nat → Bool → Nat → Nat
  | 0, _, sum => sum
  | i + 1, alternate, sum =>
    let mod := atoiByte (s.getD i 0)
    let mod := if alternate then (if mod * 2 > 9 then (mod * 2) % 10 + 1 else mod * 2) else mod
    luhnLoop s i (!alternate) (sum + mod)

/-- The function `luhn`. -/
def luhn (s : Bytes) : Bool :=
  let numberLen := s.length
  if numberLen < 13 ∨ numberLen > 19 then false
  else luhnLoop s numberLen false 0 % 10 == 0

/-- The function `maskCreditCard`: a byte that is no digit is appended as
`string(cc[i])`, the encoding of the rune with that value; a digit gives `*`. -/
def maskCreditCard (cc : Bytes) : Bytes :=
  cc.flatMap (fun b => if b < 48 ∨ b > 57 then encodeRune b else [42])

/-- The digits collected in `onlyDigits` by the callback of `Mask`. -/
def onlyDigits (cc : Bytes) : Bytes :=
  ((runes cc.length cc).filter isDigit).flatMap encodeRune

/-- The callback `Mask` passes to `ReplaceAllStringFunc`. -/
def maskCandidate (cc : Bytes) : Bytes :=
  if luhn (onlyDigits cc) then maskCreditCard cc else cc

/-- `CreditCardMasker.Mask`. -/
def CreditCardMasker.Mask (text : Bytes) : Bytes × Option GoError :=
  (ReplaceAllStringFunc creditCardBaseRegexp maskCandidate text.length text, none)

/-- `CreditCardMasker.Name`. -/
def CreditCardMasker.Name : String := "Credit Card Masker"

/-! ## Email masker (`internal/masker/email_masker.go`) -/

/-- The class of the local part, `[A-Za-z0-9!#$%&'*+\/=?^_{|.}~-]`. -/
def isLocalRune (r : Nat) : Bool :=
  (65 ≤ r && r ≤ 90) || (97 ≤ r && r ≤ 122) || (48 ≤ r && r ≤ 57) ||
    [33, 35, 36, 37, 38, 39, 42, 43, 47, 61, 63, 94, 95, 123, 124, 46, 125, 126, 45].contains r

/-- The class `[a-z0-9]`. -/
def isLowerAlnum (r : Nat) : Bool := (97 ≤ r && r ≤ 122) || (48 ≤ r && r ≤ 57)

/-- The class `[a-z0-9-]`. -/
def isLowerAlnumHyphen (r : Nat) : Bool := isLowerAlnum r || r == 45

/-- The class of the local part under `(?i)`. -/
def localRegexp : Regex := .cls (foldCase isLocalRune)

/-- The literal `@` under `(?i)`. -/
def atRegexp : Regex := .cls (foldCase (fun r => r == 64))

/-- The literal `\.` under `(?i)`. -/
def dotRegexp : Regex := .cls (foldCase (fun r => r == 46))

/-- The class `[a-z0-9]` under `(?i)`. -/
def edgeRegexp : Regex := .cls (foldCase isLowerAlnum)

/-- The class `[a-z0-9-]` under `(?i)`. -/
def innerRegexp : Regex := .cls (foldCase isLowerAlnumHyphen)

/-- One label of the domain, `[a-z0-9](?:[a-z0-9-]*[a-z0-9])?` under `(?i)`. -/
def labelRegexp : Regex :=
  .cat edgeRegexp (.quest (.cat (.star innerRegexp) edgeRegexp))

/-- The domain, `(?:label\.)+label`: one or more labels each followed by a
dot, and a last label. -/
def domainRegexp : Regex :=
  .cat (Regex.plus (.cat labelRegexp dotRegexp)) labelRegexp

/-- The pattern `emailPattern`: under `(?i)`, a local part of one or more
runes of its class, `@`, and the domain. -/
def emailRegexp : Regex :=
  .cat (Regex.plus localRegexp) (.cat atRegexp domainRegexp)

/-- The loop of `getDomainFromEmail`: the byte index of the first rune `@`;
`i` is the index of the first byte of `s` and `n` bounds the number of runes. -/
def indexOfAt : Nat → Bytes → Nat → Option Nat
  | 0, _, _ => none
  | n + 1, s, i =>
    match decodeRune s with
    | (_, 0) => none
    | (c, w) => if c = 64 then some i else indexOfAt n (s.drop w) (i + w)

/-- The function `getDomainFromEmail`; `none` of the loop is `atIndex == -1`. -/
def getDomainFromEmail (email : Bytes) : Bytes :=
  match indexOfAt email.length email 0 with
  | none => []
  | some atIndex => if atIndex + 1 = email.length then [] else email.drop (atIndex + 1)

/-- The function `maskEmail`. -/
def maskEmail (email : Bytes) : Bytes := bytesOf "****@" ++ getDomainFromEmail email

/-- `EmailMasker.Mask`. -/
def EmailMasker.Mask (text : Bytes) : Bytes × Option GoError :=
  (ReplaceAllStringFunc emailRegexp maskEmail text.length text, none)

/-- `EmailMasker.Name`. -/
def EmailMasker.Name : String := "Email Masker"

/-! ## Fixtures and notions used in the statements -/

/-- The `MockMasker` of `reverseproxy_test.go`. -/
def MockMasker (fn : Bytes → Bytes × Option GoError) : Masker := ⟨"Test Masker", fn⟩

/-- The `MockBlocker` of `reverseproxy_test.go`. -/
def MockBlocker (fn : Bool × Option GoError) : Blocker := ⟨"Test Blocker", fun _ => fn⟩

/-- `NewEmailMasker()` as a `Masker`. -/
def NewEmailMasker : Masker := ⟨EmailMasker.Name, EmailMasker.Mask⟩

/-- `NewCreditCardMasker()` as a `Masker`. -/
def NewCreditCardMasker : Masker := ⟨CreditCardMasker.Name, CreditCardMasker.Mask⟩

/-- The maskers applied by hand, one after the other in declared order, each
to the output of the one before: `mn(...m2(m1(b))...)`. -/
def chain (ms : List Masker) (b : Bytes) : Bytes :=
  ms.foldl (fun acc m => (m.Mask acc).1) b

/-- The input each masker of the list gets when they are applied by hand in
declared order starting from `b`. -/
def chainInputs : List Masker → Bytes → List Bytes
  | [], _ => []
  | m :: ms, b => b :: chainInputs ms (m.Mask b).1

/-- No masker of the list returns an error when they are applied by hand in
declared order starting from `b`. -/
def chainPasses : List Masker → Bytes → Bool
  | [], _ => true
  | m :: ms, b => (m.Mask b).2.isNone && chainPasses ms (m.Mask b).1

/-- The request the handler works on: the incoming request with `Host` set to
the target's host. -/
def forwarded (rp : ReverseProxy) (r : Request) : Request := { r with Host := rp.TargetHost }

/-- A response writer on which no status and no body was written. -/
def unwritten (h : Header) (code statusCode : Nat) (body : Option Bytes) :
    loggingResponseWriter :=
  ⟨⟨h, false, code, []⟩, statusCode, body⟩

/-- The status the error handler answers an error with. -/
def errorStatus (err : GoError) : Nat :=
  if err.dynType = ErrorType.netOpError ∨ err.dynType = ErrorType.urlError then 502 else 500

/-- The target server of `TestReverseProxy`: it answers every request with
status 200 and the body `Hello World`. -/
def targetServer : Request → Except GoError Response :=
  fun _ => .ok ⟨200, Header.empty, ⟨bytesOf "Hello World", none⟩⟩

/-- A proxy in front of `targetServer`, as `TestReverseProxy` builds it. -/
def testProxy (m : List Masker) (b : List Blocker) : ReverseProxy :=
  ⟨"127.0.0.1:9000", 8080, b, m, targetServer⟩

/-- A request with the given method, as `http.NewRequest` builds it for
`http://localhost:8080`. -/
def newRequest (method : String) : Request :=
  ⟨method, some ⟨"", ""⟩, Header.empty, "localhost:8080", "", []⟩

/-- One term of the Luhn sum as the specification words it: `pos` counts the
digits from the right, starting at 0 for the rightmost; every second digit is
doubled, and 9 is subtracted from a doubled value that exceeds 9. -/
def specLuhnTerm (pos d : Nat) : Nat :=
  if pos % 2 = 1 then (if 2 * d > 9 then 2 * d - 9 else 2 * d) else d

/-- The Luhn sum of a string of decimal digits as the specification words it:
the digits are taken from right to left and their terms are added. -/
def specLuhnSum (s : Bytes) : Nat :=
  (s.reverse.enum.map (fun p => specLuhnTerm p.1 (p.2 - 48))).sum

/-- The text is one candidate span: it starts and ends with a digit, every
byte is a digit, a space or a hyphen, and it holds 13 to 16 digits. -/
def isCandidateSpan (text : Bytes) : Bool :=
  (text.head?.any isDigit) && (text.getLast?.any isDigit) &&
    text.all (fun b => isDigit b || isSeparator b) &&
    decide (13 ≤ (text.filter isDigit).length) && decide ((text.filter isDigit).length ≤ 16)

/-- What follows the `n`-th digit of the text. -/
def afterDigits : Nat → Bytes → Bytes
  | 0, s => s
  | _ + 1, [] => []
  | n + 1, b :: s => if isDigit b then afterDigits n s else afterDigits (n + 1) s

/-- The text with every digit replaced by `*` and every other byte kept. -/
def starDigits (text : Bytes) : Bytes := text.map (fun b => if isDigit b then 42 else b)

/-- The text after `k` groups, a group being a digit and the separators that
follow it; `none` when the text does not start with `k` groups. -/
def afterGroups : Nat → Bytes → Option Bytes
  | 0, s => some s
  | _ + 1, [] => none
  | k + 1, d :: s => if isDigit d then afterGroups k (s.dropWhile isSeparator) else none

/-- An ASCII letter. -/
def isLetter (b : Nat) : Bool := (65 ≤ b && b ≤ 90) || (97 ≤ b && b ≤ 122)

/-- A byte a local part may hold: a letter, a digit, or one of the
punctuation characters of the class of the pattern. -/
def isLocalByte (b : Nat) : Bool :=
  isLetter b || isDigit b || (bytesOf "!#$%&'*+/=?^_\x7b|.\x7d~-").contains b

/-- A byte a label may begin and end with: a letter or a digit. -/
def isLabelEdge (b : Nat) : Bool := isLetter b || isDigit b

/-- A byte a label may hold: a letter, a digit or a hyphen. -/
def isLabelByte (b : Nat) : Bool := isLabelEdge b || b == 45

/-- A label of a domain: a non-empty string of letters, digits and hyphens
that begins and ends with a letter or a digit. -/
def isLabel (l : Bytes) : Bool :=
  l.head?.any isLabelEdge && l.getLast?.any isLabelEdge && l.all isLabelByte

/-- The labels joined by dots. -/
def joinDots : List Bytes → Bytes
  | [] => []
  | [l] => l
  | l :: ls => l ++ 46 :: joinDots ls

/-! ## Method, path and query blockers (`internal/blocker`, `net/url`) -/

/-- The `MethodBlocker` struct. -/
structure MethodBlocker where
  Method : List String

/-- The loop of `MethodBlocker.Block` over the configured methods. -/
def MethodBlocker.blockLoop (r : Request) : List String → Bool × Option GoError
  | [] => (false, none)
  | m :: rest => if r.Method = m then (true, none) else MethodBlocker.blockLoop r rest

/-- `MethodBlocker.Block`. -/
def MethodBlocker.Block (mb : MethodBlocker) (r : Request) : Bool × Option GoError :=
  MethodBlocker.blockLoop r mb.Method

/-- `MethodBlocker.Name`. -/
def MethodBlocker.Name (_mb : MethodBlocker) : String := "Method Blocker"

/-- The `PathBlocker` struct. -/
structure PathBlocker where
  Path : List String

/-- The loop of `PathBlocker.Block` over the configured paths. The result
`none` stands for the run-time panic of `r.URL.Path` on a nil `r.URL`. -/
def PathBlocker.blockLoop (r : Request) : List String → Option (Bool × Option GoError)
  | [] => some (false, none)
  | p :: rest =>
    match r.URL with
    | none => none
    | some u => if u.Path = p then some (true, none) else PathBlocker.blockLoop r rest

/-- `PathBlocker.Block`; `none` is a run-time panic. -/
def PathBlocker.Block (pb : PathBlocker) (r : Request) : Option (Bool × Option GoError) :=
  PathBlocker.blockLoop r pb.Path

/-- `PathBlocker.Name`. -/
def PathBlocker.Name (_pb : PathBlocker) : String := "Path Blocker"

/-- Model of `strings.Cut(s, sep)` for a one-byte separator: the text before
the first `sep` and the text after it; the whole of `s` and the empty text
when `sep` does not occur. -/
def cut (sep : Nat) : Bytes → Bytes × Bytes
  | [] => ([], [])
  | b :: s => if b = sep then ([], s) else ((cut sep s).1.cons b, (cut sep s).2)

/-- A hexadecimal digit (`ishex` of `net/url`). -/
def ishex (c : Nat) : Bool :=
  (48 ≤ c && c ≤ 57) || (97 ≤ c && c ≤ 102) || (65 ≤ c && c ≤ 70)

/-- The value of a hexadecimal digit (`unhex` of `net/url`). -/
def unhex (c : Nat) : Nat :=
  if 48 ≤ c ∧ c ≤ 57 then c - 48
  else if 97 ≤ c ∧ c ≤ 102 then c - 97 + 10
  else if 65 ≤ c ∧ c ≤ 70 then c - 65 + 10
  else 0

/-- Model of `url.QueryUnescape`: `%XX` becomes the byte `XX`, `+` becomes a
space; `none` is the error returned for a `%` that two hexadecimal digits do
not follow. -/
def QueryUnescape : Bytes → Option Bytes
  | [] => some []
  | 37 :: a :: b :: s =>
    if ishex a && ishex b then (QueryUnescape s).map (fun t => (unhex a * 16 + unhex b) :: t)
    else none
  | 37 :: _ => none
  | 43 :: s => (QueryUnescape s).map (fun t => 32 :: t)
  | c :: s => (QueryUnescape s).map (fun t => c :: t)

/-- One round of the loop of `url.parseQuery` on the text between two `&`:
the pair it appends, if any. A text that holds a semicolon, an empty text and
a text with a bad escape are skipped. -/
def parsePair (key : Bytes) : Option (Bytes × Bytes) :=
  if key.contains 59 then none
  else if key = [] then none
  else
    match QueryUnescape (cut 61 key).1, QueryUnescape (cut 61 key).2 with
    | some k, some v => some (k, v)
    | _, _ => none

/-- The loop of `url.parseQuery`: the pairs of the query in order; `n` bounds
the number of rounds. -/
def parseQueryLoop : Nat → Bytes → List (Bytes × Bytes)
  | 0, _ => []
  | n + 1, query =>
    if query = [] then []
    else (parsePair (cut 38 query).1).toList ++ parseQueryLoop n (cut 38 query).2

/-- Go `url.Values`, as the pairs of name and value in the order of the query:
the values of a name are the values of its pairs in that order. -/
abbrev Values := List (Bytes × Bytes)

/-- Model of `URL.Query`: the query parsed, the parse error dropped. -/
def URL.Query (u : URL) : Values :=
  parseQueryLoop (bytesOf u.RawQuery).length (bytesOf u.RawQuery)

/-- Model of `Values.Get`: the first value of the name, `""` when the query
has no value for it. -/
def Values.Get (v : Values) (key : Bytes) : Bytes := (v.lookup key).getD []

/-- The `QueryParamBlocker` struct. -/
structure QueryParamBlocker where
  ParamsMap : List (String × String)

/-- The loop of `QueryParamBlocker.Block` over the entries of `ParamsMap`. The
result `none` stands for the run-time panic of `r.URL.Query()` on a nil
`r.URL`. -/
def QueryParamBlocker.blockLoop (r : Request) :
    List (String × String) → Option (Bool × Option GoError)
  | [] => some (false, none)
  | (k, v) :: rest =>
    match r.URL with
    | none => none
    | some u =>
      if Values.Get u.Query (bytesOf k) = bytesOf v then some (true, none)
      else QueryParamBlocker.blockLoop r rest

/-- `QueryParamBlocker.Block`; `none` is a run-time panic. -/
def QueryParamBlocker.Block (qpb : QueryParamBlocker) (r : Request) :
    Option (Bool × Option GoError) :=
  QueryParamBlocker.blockLoop r qpb.ParamsMap

/-- `QueryParamBlocker.Name`. -/
def QueryParamBlocker.Name (_qpb : QueryParamBlocker) : String := "Query Param Blocker"

/-! ## The logging handler and `Start` (`proxy/reverseproxy.go`) -/

/-- The fields of the event `request received` that `withLoggingHandlerFunc`
logs; the duration is left out. -/
structure LogRecord where
  status : Nat
  method : String
  path : String
  host : String
  remote_addr : String
  user_agent : String
  response_headers : Header
  request_headers : Header
  request_body : Bytes
  response_body : Bytes
  deriving DecidableEq, Repr

/-- How the goroutine that `loggingFn` starts ends: it emits one record, or it
stops in a run-time panic. -/
inductive Logged where
  | record (rec : LogRecord)
  | panic (msg : String)
  deriving DecidableEq, Repr

/-- The response body of the record, when one was emitted. -/
def Logged.responseBody : Logged → Option Bytes
  | .record rec => some rec.response_body
  | .panic _ => none

/-- The body of the goroutine of `loggingFn`. It runs after the handler, on the
response writer and the request as the handler left them; `reqBodyBuffer` is
what the tee reader copied of the request body. `defer lrw.body.Close()`
evaluates a method of `lrw.body`, which panics when `lrw.body` is nil, and so
does `req.URL.Path` when `req.URL` is nil. -/
def logGoroutine (lrw : loggingResponseWriter) (req : Request) (reqBodyBuffer : Bytes) :
    Logged :=
  match lrw.body with
  | none => .panic "invalid memory address or nil pointer dereference"
  | some resBody =>
    match req.URL with
    | none => .panic "invalid memory address or nil pointer dereference"
    | some u =>
      .record
        { status := lrw.statusCode
          method := req.Method
          path := u.Path
          host := req.Host
          remote_addr := req.RemoteAddr
          user_agent := req.Header.Get "User-Agent"
          response_headers := lrw.Header
          request_headers := req.Header
          request_body := reqBodyBuffer
          response_body := resBody }

/-- The handler `withLoggingHandlerFunc(rp.log, rp.proxyHandlerFunc(rp.proxy))`
that `Start` registers: the proxy handler runs on a new
`loggingResponseWriter` over `rw`, then the goroutine logs. The handler has
set `req.Host`, so the goroutine reads the forwarded request. -/
def loggingFn (rp : ReverseProxy) (rw : ResponseRecorder) (req : Request)
    (reqBodyBuffer : Bytes) : Run × Logged :=
  let run := proxyHandlerFunc rp (loggingResponseWriter.new rw) req
  (run, logGoroutine run.w (forwarded rp req) reqBodyBuffer)

/-- `http.ErrServerClosed`. -/
def ErrServerClosed : GoError := ⟨ErrorType.other, "http: Server closed"⟩

/-- The goroutine of `Start` that runs `srv.ListenAndServe()`; `err` is what
`ListenAndServe` returns. The result is what the goroutine logs, and whether
`Fatal` ends the process. -/
def serveGoroutine (err : Option GoError) : List LogEntry × Bool :=
  match err with
  | none => ([], false)
  | some e =>
    if e ≠ ErrServerClosed then
      ([LogEntry.mk "fatal" "server error" [("error", e.text)]], true)
    else ([], false)

/-- What `Start` returns and sets going: the error it returns, what the
serving goroutine logs, and whether that goroutine ends the process. -/
structure Started where
  err : Option GoError
  serverLog : List LogEntry
  exits : Bool
  deriving DecidableEq, Repr

/-- `ReverseProxy.Start`; `listenErr` is what `srv.ListenAndServe()` returns in
the goroutine `Start` launches. `Start` itself ends with `return cancel, nil`. -/
def Start (_rp : ReverseProxy) (listenErr : Option GoError) : Started :=
  ⟨none, (serveGoroutine listenErr).1, (serveGoroutine listenErr).2⟩

/-- Every class of the pattern holds only of runes of the class `q`. -/
def Regex.classesIn (q : Nat → Bool) : Regex → Prop
  | .empty => True
  | .cls p => ∀ r, p r = true → q r = true
  | .cat a b => Regex.classesIn q a ∧ Regex.classesIn q b
  | .quest a => Regex.classesIn q a
  | .star a => Regex.classesIn q a
  | .lazyStar a => Regex.classesIn q a

/-- The text `out` is the text `src` with some of its digits replaced by `*`:
the two have the same length, and at each position `out` holds the byte of
`src`, or `*` where `src` holds a digit. -/
def maskedFrom (src out : Bytes) : Prop :=
  List.Forall₂ (fun a b => b = a ∨ (isDigit a = true ∧ b = 42)) src out

/-- A rune the pattern takes as the first of a label: under `(?i)` the class
`[a-z0-9]` holds of the ASCII letters and digits and of the two runes that
case folding puts with a letter, U+017F (long s) and U+212A (Kelvin sign). -/
def isEdgeRune (r : Nat) : Bool := isLetter r || isDigit r || r == 0x17F || r == 0x212A

/-- Some `@` of the text is immediately followed by a rune of the class `p`. -/
def atBeforeRune (p : Nat → Bool) : Bytes → Bool
  | [] => false
  | b :: rest => (b == 64 && p (decodeRune rest).1) || atBeforeRune p rest

/-! ## Construction and shutdown (`proxy/reverseproxy.go`) -/

/-- Go `tls.Config`, the field `New` sets. -/
structure TLSConfig where
  InsecureSkipVerify : Bool
  deriving DecidableEq, Repr

/-- Go `http.Transport`, the fields `New` sets. `TLSClientConfig` is a pointer
and may be nil. -/
structure HTTPTransport where
  TLSClientConfig : Option TLSConfig
  DisableCompression : Bool
  deriving DecidableEq, Repr

/-- `http.DefaultTransport` before `New` changes it. -/
def DefaultTransport : HTTPTransport := ⟨none, false⟩

/-- Whether a transport verifies the certificate of the upstream: it does
unless its TLS configuration sets `InsecureSkipVerify`. -/
def HTTPTransport.verifiesCertificates (t : HTTPTransport) : Bool :=
  match t.TLSClientConfig with
  | none => true
  | some c => !c.InsecureSkipVerify

/-- The function `New`. `parse` stands for `url.Parse` followed by the host of
the result, `upstream` for the network behind the transport. The result is the
error of `url.Parse`, or the proxy and the transport it is given. -/
def New (targetURL : String) (reverseProxyPort : Nat) (m : List Masker) (b : List Blocker)
    (parse : String → Except GoError String)
    (upstream : Request → Except GoError Response) :
    Except GoError (ReverseProxy × HTTPTransport) :=
  match parse targetURL with
  | .error err => .error err
  | .ok host =>
    .ok (⟨host, reverseProxyPort, b, m, upstream⟩,
      { DefaultTransport with
        TLSClientConfig := some ⟨true⟩
        DisableCompression := true })

/-- How a call ends for its caller: it returns, or it blocks for ever. -/
inductive Call where
  | returned
  | blocked
  deriving DecidableEq, Repr

/-- The goroutine of `Start` that waits on the channel `q`: whether it still
stands at its one receive `<-q`, and how many times it has called
`srv.Shutdown`. -/
structure ShutdownGoroutine where
  receiving : Bool
  shutdowns : Nat
  deriving DecidableEq, Repr

/-- The goroutine as `Start` launches it. -/
def ShutdownGoroutine.started : ShutdownGoroutine := ⟨true, 0⟩

/-- The function `cancel` that `Start` returns, `q <- struct{}{}` on the
unbuffered channel `q`: the send completes when the goroutine receives, and
the goroutine then goes on to `srv.Shutdown`; with no receiver left the send
never completes. -/
def cancel (g : ShutdownGoroutine) : Call × ShutdownGoroutine :=
  if g.receiving then (Call.returned, ⟨false, g.shutdowns + 1⟩) else (Call.blocked, g)

/-- `n` calls of `cancel`, one after the other (a blocked call keeps its
goroutine, so a later call comes from another one). -/
def cancelTimes : Nat → ShutdownGoroutine → List Call × ShutdownGoroutine
  | 0, g => ([], g)
  | n + 1, g => ((cancel g).1 :: (cancelTimes n (cancel g).2).1, (cancelTimes n (cancel g).2).2)

/-- The spans on which `ReplaceAllStringFunc` calls its callback: the same
scan as `ReplaceAllStringFunc`, keeping each match instead of replacing it. -/
def matchedSpans (re : Regex) : Nat → Bytes → List Bytes
  | 0, _ => []
  | n + 1, src =>
    match re.matchAt src with
    | some rest =>
      if rest.length < src.length then
        src.take (src.length - rest.length) :: matchedSpans re n rest
      else
        match decodeRune src with
        | (_, 0) => []
        | (_, w) => matchedSpans re n (src.drop w)
    | none =>
      match decodeRune src with
      | (_, 0) => []
      | (_, w) => matchedSpans re n (src.drop w)

/-! ## The handler on the response writer of `http.Server` -/

/-- Model of `strconv.ParseInt(s, 10, 64)` as `response.WriteHeader` uses it
on a `Content-Length` value: `some v` when the call returns a nil error and
`v >= 0`. The text is an optional sign followed by one or more decimal
digits, and the value fits 63 bits. -/
def parseContentLength (s : String) : Option Nat :=
  let signed : Bool × List Char :=
    match s.toList with
    | '+' :: t => (false, t)
    | '-' :: t => (true, t)
    | cs => (false, cs)
  if signed.2 = [] then none
  else if !signed.2.all Char.isDigit then none
  else
    let v : Nat := signed.2.foldl (fun n c => 10 * n + (c.toNat - 48)) 0
    if signed.1 then (if v = 0 then some 0 else none)
    else if v < 2 ^ 63 then some v else none

/-- `bodyAllowedForStatus` of `net/http`. -/
def bodyAllowedForStatus (status : Nat) : Bool :=
  if 100 ≤ status ∧ status ≤ 199 then false
  else if status = 204 then false
  else if status = 304 then false
  else true

/-- `checkWriteHeaderCode` of `net/http`: `WriteHeader` panics on a code for
which this is false. -/
def checkWriteHeaderCode (code : Nat) : Bool := 100 ≤ code && code ≤ 999

/-- `http.ErrContentLength`. -/
def ErrContentLength : GoError :=
  ⟨ErrorType.other, "http: wrote more than the declared Content-Length"⟩

/-- `http.ErrBodyNotAllowed`. -/
def ErrBodyNotAllowed : GoError :=
  ⟨ErrorType.other, "http: request method or response status code does not allow body"⟩

/-- The `response` of `net/http` (`server.go`), the writer an `http.Server`
hands to its handler: the method of the request, the header map of the
handler, whether the status was written, the status, the content length
declared by the header at that moment (`none` is `-1`, none declared), the
number of bytes the handler tried to write, and the body bytes the writer
accepted and passed on to the connection. -/
structure response where
  reqMethod : String
  handlerHeader : Header
  wroteHeader : Bool
  status : Nat
  contentLength : Option Nat
  written : Nat
  body : Bytes
  deriving DecidableEq, Repr

namespace response

/-- The writer of a new request. -/
def new (reqMethod : String) : response := ⟨reqMethod, Header.empty, false, 0, none, 0, []⟩

/-- Model of `response.WriteHeader` for the code of a final response (the
informational codes 100 to 199 and the panic of `checkWriteHeaderCode` are
not modelled here): only the first call counts; it fixes the status and reads
the declared length from the first `Content-Length` value of the handler's
header map, deleting a value that does not parse. -/
def WriteHeader (w : response) (code : Nat) : response :=
  if w.wroteHeader then w
  else
    let w := { w with wroteHeader := true, status := code }
    let cl := (w.handlerHeader.values "Content-Length").headD ""
    if cl = "" then w
    else
      match parseContentLength cl with
      | some v => { w with contentLength := some v }
      | none => { w with handlerHeader := w.handlerHeader.Del "Content-Length" }

/-- Model of `response.Write`: status 200 is written when none was; an empty
write does nothing more; a status without a body refuses the write; `written`
grows by the length of the data also when the write is refused; a write that
takes `written` past the declared length is refused as a whole with
`ErrContentLength`; otherwise the data goes to the connection (for a HEAD
request it is counted and dropped). -/
def Write (w : response) (data : Bytes) : response × Option GoError :=
  let w := if w.wroteHeader then w else w.WriteHeader 200
  if data = [] then (w, none)
  else if !bodyAllowedForStatus w.status then (w, some ErrBodyNotAllowed)
  else
    let w := { w with written := w.written + data.length }
    let over := match w.contentLength with
      | some n => decide (n < w.written)
      | none => false
    if over then (w, some ErrContentLength)
    else if w.reqMethod = "HEAD" then (w, none)
    else ({ w with body := w.body ++ data }, none)

end response

/-- How the call of the handler ends on the server: it returns; or it panics
with `http.ErrAbortHandler`, on which the server closes the connection
without completing the response; or it panics otherwise. -/
inductive Outcome where
  | returned
  | aborted
  | panicked
  deriving DecidableEq, Repr

/-- The writer as the handler leaves it on the server, and how the handler
ended. -/
structure Served where
  rw : response
  outcome : Outcome
  deriving DecidableEq, Repr

/-- A record of a run in which nothing was logged and no call was made. The
functions below follow the writer of the server only and run the steps that
do not touch the writer on this record. -/
def Run.blank : Run := Run.start (loggingResponseWriter.new ResponseRecorder.new)

namespace Server

/-- The calls of `http.Error(w, error, code)` on the writer of the server;
`loggingResponseWriter` passes `Header`, `WriteHeader` and `Write` on to the
writer it embeds and returns what that writer returns. -/
def httpError (w : response) (error : String) (code : Nat) : response :=
  let w1 := { w with handlerHeader :=
    ((w.handlerHeader.Del "Content-Length").Set "Content-Type"
      "text/plain; charset=utf-8").Set "X-Content-Type-Options" "nosniff" }
  ((w1.WriteHeader code).Write (bytesOf error ++ [10])).1

/-- The calls of the function assigned to `rp.proxy.ErrorHandler` on the
writer of the server. -/
def ErrorHandler (w : response) (err : GoError) : response :=
  if err.dynType = ErrorType.netOpError then
    ((w.WriteHeader StatusBadGateway).Write []).1
  else if err.dynType = ErrorType.urlError then
    ((w.WriteHeader StatusBadGateway).Write []).1
  else
    ((w.WriteHeader StatusInternalServerError).Write []).1

/-- The copy loop of `httputil` (`copyBuffer`, 32 KiB buffer) on the writer of
the server: each non-empty read from the body is one `Write`, and the loop
returns the error of the first `Write` that fails; `n` bounds the number of
reads. -/
def copyBuffer : Nat → response → Bytes → response × Option GoError
  | 0, w, _ => (w, none)
  | n + 1, w, data =>
    if data = [] then (w, none)
    else
      match w.Write (data.take 32768) with
      | (w1, some err) => (w1, some err)
      | (w1, none) => copyBuffer n w1 (data.drop 32768)

/-- Model of `httputil.ReverseProxy.ServeHTTP` with the hooks `New` installs,
on the writer of the server: as `GoProxy.ServeHTTP`, and when the copy of the
body fails `ServeHTTP` panics with `http.ErrAbortHandler`, because the request
comes from a server (`shouldPanicOnCopyError`). -/
def ServeHTTP (rp : ReverseProxy) (w : response) (r : Request) : Served :=
  match rp.Transport r with
  | .error err => ⟨ErrorHandler w err, Outcome.returned⟩
  | .ok res =>
    match (ModifyResponse rp Run.blank r res).2 with
    | (_, some err) => ⟨ErrorHandler w err, Outcome.returned⟩
    | (res, none) =>
      let w1 := { w with handlerHeader := copyHeader w.handlerHeader res.Header }
      if !checkWriteHeaderCode res.StatusCode then ⟨w1, Outcome.panicked⟩
      else
        match copyBuffer res.Body.data.length (w1.WriteHeader res.StatusCode) res.Body.data with
        | (w2, some _) => ⟨w2, Outcome.aborted⟩
        | (w2, none) => ⟨w2, Outcome.returned⟩

/-- The blocker loop of the handler `New` builds, followed by `p.ServeHTTP`
when no blocker fires, on the writer of the server. -/
def blockerLoop (rp : ReverseProxy) : List Blocker → response → Request → Served
  | [], w, r => ServeHTTP rp w r
  | b :: bs, w, r =>
    match b.Block r with
    | (_, some err) => ⟨httpError w err.text StatusInternalServerError, Outcome.returned⟩
    | (true, none) => ⟨httpError w "blocked" StatusForbidden, Outcome.returned⟩
    | (false, none) => blockerLoop rp bs w r

/-- The handler `Start` registers, run by the server on the writer of a new
request. `loggingFn` wraps that writer in a `loggingResponseWriter`, which
passes every call on to it, so the calls are made on the writer itself. -/
def handle (rp : ReverseProxy) (r : Request) : Served :=
  blockerLoop rp rp.Blockers (response.new r.Method) { r with Host := rp.TargetHost }

end Server

/-- The length the server takes as declared for the response `res` of the
upstream: the first `Content-Length` value among the headers `httputil`
copies to the writer, when it parses; `none` when there is no such value or
it does not parse. -/
def declaredLength (res : Response) : Option Nat :=
  parseContentLength
    (((copyHeader Header.empty res.Header).values "Content-Length").headD "")

/-- Whether a body of `len` bytes fits the declared length: it does when no
length is declared. -/
def fits (limit : Option Nat) (len : Nat) : Bool :=
  match limit with
  | none => true
  | some n => decide (len ≤ n)

/-- An upstream that answers every request with status 200, the header
`Content-Length` with the given value, and the body. -/
def upstreamWith (contentLength : String) (body : Bytes) :
    Request → Except GoError Response :=
  fun _ => .ok ⟨200, ⟨[("Content-Length", [contentLength])]⟩, ⟨body, none⟩⟩

/-! # Theorems -/

/-! ## Response writers -/

theorem httpError_code (w : loggingResponseWriter) (text : String) (code : Nat)
    (h : w.ResponseWriter.wroteHeader = false) :
    (httpError w text code).ResponseWriter.Code = code := by
  simp [httpError, loggingResponseWriter.Write, loggingResponseWriter.WriteHeader,
    loggingResponseWriter.mapHeader, ResponseRecorder.Write, ResponseRecorder.WriteHeader, h]

theorem httpError_body (w : loggingResponseWriter) (text : String) (code : Nat) :
    (httpError w text code).ResponseWriter.Body =
      w.ResponseWriter.Body ++ (bytesOf text ++ [10]) := by
  simp only [httpError, loggingResponseWriter.Write, loggingResponseWriter.WriteHeader,
    loggingResponseWriter.mapHeader, ResponseRecorder.Write, ResponseRecorder.WriteHeader]
  split <;> (try split) <;> simp_all

theorem copyBuffer_body (n : Nat) (w : loggingResponseWriter) (data : Bytes)
    (h : data.length ≤ n) :
    (copyBuffer n w data).ResponseWriter.Body = w.ResponseWriter.Body ++ data := by
  induction n generalizing w data with
  | zero =>
    have : data = [] := List.length_eq_zero.mp (Nat.le_zero.mp h)
    simp [copyBuffer, this]
  | succ n ih =>
    unfold copyBuffer
    by_cases hd : data = []
    · simp [hd]
    · simp only [hd, if_false]
      have hlen : (data.drop 32768).length ≤ n := by
        have : 0 < data.length := List.length_pos.mpr hd
        simp only [List.length_drop]
        omega
      rw [ih _ _ hlen]
      have hw : (w.Write (data.take 32768)).ResponseWriter.Body =
          w.ResponseWriter.Body ++ data.take 32768 := by
        simp only [loggingResponseWriter.Write, ResponseRecorder.Write,
          ResponseRecorder.WriteHeader]
        split <;> simp_all
      rw [hw, List.append_assoc, List.take_append_drop]

theorem copyBuffer_code (n : Nat) (w : loggingResponseWriter) (data : Bytes)
    (h : w.ResponseWriter.wroteHeader = true) :
    (copyBuffer n w data).ResponseWriter.Code = w.ResponseWriter.Code := by
  induction n generalizing w data with
  | zero => simp [copyBuffer]
  | succ n ih =>
    unfold copyBuffer
    by_cases hd : data = []
    · simp [hd]
    · simp only [hd, if_false]
      have hw : (w.Write (data.take 32768)).ResponseWriter.wroteHeader = true ∧
          (w.Write (data.take 32768)).ResponseWriter.Code = w.ResponseWriter.Code := by
        simp [loggingResponseWriter.Write, ResponseRecorder.Write, h]
      rw [ih _ _ hw.1, hw.2]

/-! ## The error handler -/

theorem ErrorHandler_status (st : Run) (r : Request) (err : GoError)
    (h : st.w.ResponseWriter.wroteHeader = false) :
    (ErrorHandler st r err).status = errorStatus err := by
  simp only [ErrorHandler, Run.status, errorStatus]
  rcases err with ⟨t, text⟩
  cases t <;>
    simp [loggingResponseWriter.Write, loggingResponseWriter.WriteHeader,
      ResponseRecorder.Write, ResponseRecorder.WriteHeader, h, StatusBadGateway,
      StatusInternalServerError]

theorem ErrorHandler_body (st : Run) (r : Request) (err : GoError) :
    (ErrorHandler st r err).clientBody = st.clientBody := by
  simp only [ErrorHandler, Run.clientBody]
  split_ifs <;>
    simp only [loggingResponseWriter.Write, loggingResponseWriter.WriteHeader,
      ResponseRecorder.Write, ResponseRecorder.WriteHeader] <;>
    split <;> simp_all

theorem ErrorHandler_calls (st : Run) (r : Request) (err : GoError) :
    (ErrorHandler st r err).upstreamCalls = st.upstreamCalls ∧
    (ErrorHandler st r err).maskerCalls = st.maskerCalls ∧
    (ErrorHandler st r err).blockerCalls = st.blockerCalls := by
  simp only [ErrorHandler]
  split_ifs <;> simp

/-! ## The masker loop -/

theorem chain_append (xs ys : List Masker) (b : Bytes) :
    chain (xs ++ ys) b = chain ys (chain xs b) := by
  simp [chain, List.foldl_append]

theorem maskLoop_passes (ms : List Masker) (st : Run) (b : Bytes)
    (h : chainPasses ms b = true) :
    maskLoop ms st b =
      ({ st with maskerCalls := st.maskerCalls ++ ms.zip (chainInputs ms b) }, chain ms b, none) := by
  induction ms generalizing st b with
  | nil => simp [maskLoop, chain, chainInputs]
  | cons m ms ih =>
    simp only [chainPasses, Bool.and_eq_true] at h
    rcases hm : m.Mask b with ⟨out, e⟩
    rw [hm] at h
    cases e with
    | some e => simp at h
    | none =>
      simp only [maskLoop, hm]
      rw [ih _ _ h.2]
      simp [chain, chainInputs, hm]

theorem maskLoop_fails (pre post : List Masker) (m : Masker) (st : Run) (b out : Bytes)
    (err : GoError) (hpre : chainPasses pre b = true)
    (hm : m.Mask (chain pre b) = (out, some err)) :
    maskLoop (pre ++ m :: post) st b =
      ({ st with
          maskerCalls := st.maskerCalls ++ (pre ++ [m]).zip (chainInputs (pre ++ [m]) b)
          log := st.log ++
            [LogEntry.mk "error" "masker error" [("error", err.text), ("masker_name", m.Name)]] },
        out, some err) := by
  induction pre generalizing st b with
  | nil =>
    simp only [chain, List.foldl_nil] at hm
    simp [maskLoop, hm, chainInputs]
  | cons x pre ih =>
    simp only [chainPasses, Bool.and_eq_true] at hpre
    rcases hx : x.Mask b with ⟨o, e⟩
    rw [hx] at hpre
    cases e with
    | some e => simp at hpre
    | none =>
      have hm2 : m.Mask (chain pre o) = (out, some err) := by
        simpa [chain, hx] using hm
      have e := ih { st with maskerCalls := st.maskerCalls ++ [(x, b)] } o hpre.2 hm2
      simp [maskLoop, hx, e, chainInputs]

/-! ## The blocker loop -/

theorem maskLoop_frame (ms : List Masker) (st : Run) (b : Bytes) :
    (maskLoop ms st b).1.w = st.w ∧ (maskLoop ms st b).1.upstreamCalls = st.upstreamCalls ∧
    (maskLoop ms st b).1.blockerCalls = st.blockerCalls := by
  induction ms generalizing st b with
  | nil => simp [maskLoop]
  | cons m ms ih =>
    rcases hm : m.Mask b with ⟨out, e⟩
    cases e with
    | some e => simp [maskLoop, hm]
    | none =>
      simp only [maskLoop, hm]
      have := ih { st with maskerCalls := st.maskerCalls ++ [(m, b)] } out
      simpa using this

theorem ModifyResponse_frame (rp : ReverseProxy) (st : Run) (req : Request) (r : Response) :
    (ModifyResponse rp st req r).1.w = st.w ∧
    (ModifyResponse rp st req r).1.upstreamCalls = st.upstreamCalls ∧
    (ModifyResponse rp st req r).1.blockerCalls = st.blockerCalls := by
  unfold ModifyResponse
  split
  · split
    · simp
    · have := maskLoop_frame rp.Maskers st r.Body.data
      split <;> simp_all
  · simp

theorem ServeHTTP_upstreamCalls (rp : ReverseProxy) (st : Run) (r : Request) :
    (ServeHTTP rp st r).upstreamCalls = st.upstreamCalls ++ [r] := by
  simp only [ServeHTTP]
  split
  · simp [(ErrorHandler_calls _ _ _).1]
  · have hf := ModifyResponse_frame rp
      { st with upstreamCalls := st.upstreamCalls ++ [r] } r ‹Response›
    split
    · rw [(ErrorHandler_calls _ _ _).1]
      simp_all
    · simp_all

/-- The blocker loop, by the first blocker that fires on the request. -/
theorem blockerLoop_spec (rp : ReverseProxy) (bs : List Blocker) (st : Run) (r : Request) :
    match bs.find? (fun b => b.fires r) with
    | none =>
      blockerLoop rp bs st r = ServeHTTP rp { st with blockerCalls := st.blockerCalls ++ bs } r
    | some b =>
      (blockerLoop rp bs st r).upstreamCalls = st.upstreamCalls ∧
      (blockerLoop rp bs st r).maskerCalls = st.maskerCalls ∧
      (blockerLoop rp bs st r).w =
        httpError st.w
          (match (b.Block r).2 with
           | some err => err.text
           | none => "blocked")
          (if (b.Block r).2.isSome then StatusInternalServerError else StatusForbidden) := by
  induction bs generalizing st with
  | nil => simp [blockerLoop]
  | cons b bs ih =>
    rcases hb : b.Block r with ⟨ok, e⟩
    cases e with
    | some e => simp [List.find?, Blocker.fires, hb, blockerLoop]
    | none =>
      cases ok with
      | true => simp [List.find?, Blocker.fires, hb, blockerLoop]
      | false =>
        have := ih { st with blockerCalls := st.blockerCalls ++ [b] }
        simp only [List.find?, Blocker.fires, hb, blockerLoop]
        simpa using this

/-! ## The handler -/

theorem find_none_of_pass (bs : List Blocker) (r : Request)
    (h : ∀ b ∈ bs, b.fires r = false) : bs.find? (fun b => b.fires r) = none := by
  simpa [List.find?_eq_none] using h

theorem handle_pass (rp : ReverseProxy) (r : Request)
    (h : ∀ b ∈ rp.Blockers, b.fires (forwarded rp r) = false) :
    handle rp r =
      ServeHTTP rp
        { Run.start (loggingResponseWriter.new ResponseRecorder.new) with
          blockerCalls := rp.Blockers } (forwarded rp r) := by
  have hs := blockerLoop_spec rp rp.Blockers
    (Run.start (loggingResponseWriter.new ResponseRecorder.new)) (forwarded rp r)
  rw [find_none_of_pass _ _ h] at hs
  simpa [handle, proxyHandlerFunc, forwarded, Run.start] using hs

theorem ServeHTTP_masked (rp : ReverseProxy) (st : Run) (r : Request) (res : Response)
    (hget : r.Method = MethodGet) (hup : rp.Transport r = .ok res)
    (hread : res.Body.err = none) (hmask : chainPasses rp.Maskers res.Body.data = true) :
    (ServeHTTP rp st r).clientBody = st.clientBody ++ chain rp.Maskers res.Body.data ∧
    (ServeHTTP rp st r).maskerCalls =
      st.maskerCalls ++ rp.Maskers.zip (chainInputs rp.Maskers res.Body.data) := by
  simp only [ServeHTTP, hup, ModifyResponse, hget, if_true, hread, maskLoop_passes _ _ _ hmask,
    Run.clientBody]
  simp only [and_true]
  rw [copyBuffer_body _ _ _ (le_refl _)]
  simp only [loggingResponseWriter.WriteHeader, loggingResponseWriter.mapHeader,
    ResponseRecorder.WriteHeader]
  split <;> rfl

theorem ServeHTTP_mask_error (rp : ReverseProxy) (st : Run) (r : Request) (res : Response)
    (pre post : List Masker) (m : Masker) (out : Bytes) (err : GoError)
    (hget : r.Method = MethodGet) (hup : rp.Transport r = .ok res)
    (hread : res.Body.err = none) (hms : rp.Maskers = pre ++ m :: post)
    (hpre : chainPasses pre res.Body.data = true)
    (hm : m.Mask (chain pre res.Body.data) = (out, some err)) :
    ServeHTTP rp st r =
      ErrorHandler
        { st with
          upstreamCalls := st.upstreamCalls ++ [r]
          maskerCalls := st.maskerCalls ++
            (pre ++ [m]).zip (chainInputs (pre ++ [m]) res.Body.data)
          log := st.log ++
            [LogEntry.mk "error" "masker error" [("error", err.text), ("masker_name", m.Name)]] }
        r err := by
  simp only [ServeHTTP, hup, ModifyResponse, hget, if_true, hread, hms,
    maskLoop_fails pre post m _ _ out err hpre hm]

/-- C1: the first blocker, in configured order, whose `Block` returns an error
or `true` decides the request. When there is none, the request (with the
target's host) is sent to the upstream exactly once. When there is one, the
upstream is not called, and the status is 500 if it returned an error
(whatever its boolean) and 403 if it returned `true` with a nil error. -/
theorem C1_first_firing_blocker_decides (rp : ReverseProxy) (r : Request) :
    match rp.Blockers.find? (fun b => b.fires (forwarded rp r)) with
    | none => (handle rp r).upstreamCalls = [forwarded rp r]
    | some b =>
      (handle rp r).upstreamCalls = [] ∧
      (handle rp r).status = if (b.Block (forwarded rp r)).2.isSome then 500 else 403 := by
  have hs := blockerLoop_spec rp rp.Blockers
    (Run.start (loggingResponseWriter.new ResponseRecorder.new)) (forwarded rp r)
  have hh : handle rp r = blockerLoop rp rp.Blockers
      (Run.start (loggingResponseWriter.new ResponseRecorder.new)) (forwarded rp r) := rfl
  split
  · rename_i hnone
    rw [hnone] at hs
    rw [hh, hs, ServeHTTP_upstreamCalls]
    simp [Run.start]
  · rename_i b hsome
    rw [hsome] at hs
    refine ⟨by rw [hh, hs.1]; rfl, ?_⟩
    rw [Run.status, hh, hs.2.2, httpError_code _ _ _ rfl]
    simp [StatusInternalServerError, StatusForbidden]

/-! ## The handler on the writer of the server -/

theorem parseContentLength_empty : parseContentLength "" = none := by
  decide

theorem response_WriteHeader_fresh (m : String) (h : Header) (code : Nat) :
    (response.WriteHeader ⟨m, h, false, 0, none, 0, []⟩ code).wroteHeader = true ∧
    (response.WriteHeader ⟨m, h, false, 0, none, 0, []⟩ code).status = code ∧
    (response.WriteHeader ⟨m, h, false, 0, none, 0, []⟩ code).reqMethod = m ∧
    (response.WriteHeader ⟨m, h, false, 0, none, 0, []⟩ code).written = 0 ∧
    (response.WriteHeader ⟨m, h, false, 0, none, 0, []⟩ code).body = [] ∧
    (response.WriteHeader ⟨m, h, false, 0, none, 0, []⟩ code).contentLength =
      parseContentLength ((h.values "Content-Length").headD "") := by
  simp only [response.WriteHeader, Bool.false_eq_true, if_false]
  generalize (h.values "Content-Length").headD "" = cl
  by_cases hcl : cl = ""
  · subst hcl
    simp only [if_true, parseContentLength_empty, and_self]
  · simp only [hcl, if_false]
    cases hp : parseContentLength cl <;> simp

theorem serverCopyBuffer_fits (n : Nat) :
    ∀ (w : response) (data : Bytes), data.length ≤ n → w.wroteHeader = true →
      bodyAllowedForStatus w.status = true → w.reqMethod ≠ "HEAD" →
      fits w.contentLength (w.written + data.length) = true →
      Server.copyBuffer n w data =
        ({ w with written := w.written + data.length, body := w.body ++ data }, none) := by
  induction n with
  | zero =>
    intro w data hn _ _ _ _
    have : data = [] := List.length_eq_zero.mp (Nat.le_zero.mp hn)
    subst this
    simp [Server.copyBuffer]
  | succ n ih =>
    intro w data hn hw hs hm hfit
    unfold Server.copyBuffer
    by_cases hd : data = []
    · subst hd
      simp
    · have hpos : 0 < data.length := List.length_pos.mpr hd
      have htake : data.take 32768 ≠ [] := by
        intro h
        have := congrArg List.length h
        simp only [List.length_take, List.length_nil] at this
        omega
      have hlen : (data.take 32768).length + (data.drop 32768).length = data.length := by
        simp only [List.length_take, List.length_drop]
        omega
      have hover : (match w.contentLength with
          | some k => decide (k < w.written + (data.take 32768).length)
          | none => false) = false := by
        cases hc : w.contentLength with
        | none => rfl
        | some k =>
          simp only [fits, hc, decide_eq_true_eq] at hfit
          simp only [decide_eq_false_iff_not, not_lt]
          omega
      have hwrite : w.Write (data.take 32768) =
          ({ w with written := w.written + (data.take 32768).length,
                    body := w.body ++ data.take 32768 }, none) := by
        simp only [response.Write, hw, if_true, htake, if_false, hs, Bool.not_true,
          Bool.false_eq_true, hover, hm]
      rw [if_neg hd, hwrite]
      simp only
      have hrec := ih
        { w with written := w.written + (data.take 32768).length,
                 body := w.body ++ data.take 32768 }
        (data.drop 32768) (by simp only [List.length_drop]; omega) hw hs hm
        (by
          simp only
          rw [Nat.add_assoc, hlen]
          exact hfit)
      rw [hrec]
      simp only [Nat.add_assoc, hlen, List.append_assoc, List.take_append_drop]

theorem serverCopyBuffer_over (n : Nat) :
    ∀ (w : response) (data : Bytes), data.length ≤ n → w.wroteHeader = true →
      bodyAllowedForStatus w.status = true → w.reqMethod ≠ "HEAD" →
      fits w.contentLength w.written = true →
      fits w.contentLength (w.written + data.length) = false →
      (Server.copyBuffer n w data).2.isSome = true ∧
      ∃ p : Bytes, (Server.copyBuffer n w data).1.body = w.body ++ p ∧
        p <+: data ∧ p.length < data.length := by
  induction n with
  | zero =>
    intro w data hn _ _ _ hin hout
    have : data = [] := List.length_eq_zero.mp (Nat.le_zero.mp hn)
    subst this
    simp only [List.length_nil, Nat.add_zero] at hout
    rw [hin] at hout
    cases hout
  | succ n ih =>
    intro w data hn hw hs hm hin hout
    unfold Server.copyBuffer
    by_cases hd : data = []
    · subst hd
      simp only [List.length_nil, Nat.add_zero] at hout
      rw [hin] at hout
      cases hout
    · have hpos : 0 < data.length := List.length_pos.mpr hd
      have htake : data.take 32768 ≠ [] := by
        intro h
        have := congrArg List.length h
        simp only [List.length_take, List.length_nil] at this
        omega
      have hlen : (data.take 32768).length + (data.drop 32768).length = data.length := by
        simp only [List.length_take, List.length_drop]
        omega
      rw [if_neg hd]
      by_cases hchunk : fits w.contentLength (w.written + (data.take 32768).length) = true
      · have hover : (match w.contentLength with
            | some k => decide (k < w.written + (data.take 32768).length)
            | none => false) = false := by
          cases hc : w.contentLength with
          | none => rfl
          | some k =>
            simp only [fits, hc, decide_eq_true_eq] at hchunk
            simp only [decide_eq_false_iff_not, not_lt]
            omega
        have hwrite : w.Write (data.take 32768) =
            ({ w with written := w.written + (data.take 32768).length,
                      body := w.body ++ data.take 32768 }, none) := by
          simp only [response.Write, hw, if_true, htake, if_false, hs, Bool.not_true,
            Bool.false_eq_true, hover, hm]
        rw [hwrite]
        simp only
        have hrec := ih
          { w with written := w.written + (data.take 32768).length,
                   body := w.body ++ data.take 32768 }
          (data.drop 32768) (by simp only [List.length_drop]; omega) hw hs hm hchunk
          (by
            simp only
            rw [Nat.add_assoc, hlen]
            exact hout)
        obtain ⟨herr, p, hp, hpre, hplen⟩ := hrec
        refine ⟨herr, data.take 32768 ++ p, ?_, ?_, ?_⟩
        · rw [hp]
          simp only [List.append_assoc]
        · obtain ⟨t, ht⟩ := hpre
          refine ⟨t, ?_⟩
          rw [List.append_assoc, ht, List.take_append_drop]
        · simp only [List.length_append]
          omega
      · have hover : (match w.contentLength with
            | some k => decide (k < w.written + (data.take 32768).length)
            | none => false) = true := by
          cases hc : w.contentLength with
          | none => simp [fits, hc] at hchunk
          | some k =>
            simp only [fits, hc, decide_eq_true_eq, not_le] at hchunk
            simp only [decide_eq_true_eq]
            exact hchunk
        have hwrite : w.Write (data.take 32768) =
            ({ w with written := w.written + (data.take 32768).length },
              some ErrContentLength) := by
          simp only [response.Write, hw, if_true, htake, if_false, hs, Bool.not_true,
            Bool.false_eq_true, hover]
        rw [hwrite]
        refine ⟨rfl, [], ?_, List.nil_prefix, hpos⟩
        simp

theorem serverBlockerLoop_pass (rp : ReverseProxy) (bs : List Blocker) (w : response)
    (r : Request) (h : ∀ b ∈ bs, b.fires r = false) :
    Server.blockerLoop rp bs w r = Server.ServeHTTP rp w r := by
  induction bs with
  | nil => rfl
  | cons b bs ih =>
    have hb := h b (List.mem_cons_self _ _)
    rcases hblock : b.Block r with ⟨ok, e⟩
    simp only [Blocker.fires, hblock, Bool.or_eq_false_iff] at hb
    cases e with
    | some e => simp at hb
    | none =>
      cases ok with
      | true => simp at hb
      | false =>
        simp only [Server.blockerLoop, hblock]
        exact ih (fun b hb => h b (List.mem_cons_of_mem _ hb))

theorem serverHandle_pass (rp : ReverseProxy) (r : Request)
    (h : ∀ b ∈ rp.Blockers, b.fires (forwarded rp r) = false) :
    Server.handle rp r = Server.ServeHTTP rp (response.new r.Method) (forwarded rp r) :=
  serverBlockerLoop_pass rp rp.Blockers (response.new r.Method) (forwarded rp r) h

/-- C2: for a GET request that no blocker stops, whose upstream call returns a
response with a readable body and a final status that allows a body, and on
which no masker returns an error, `ModifyResponse` returns nil with the left
fold of the maskers over the upstream body, `mn(...m2(m1(body))...)`, as the
body of the response, and the handler writes that body to the writer of the
server. The writer accepts a prefix of it. When the fold fits the length the
upstream's `Content-Length` declares, or none is declared, the writer accepts
all of it and the handler returns. When the fold is longer than the declared
length, the writer refuses a write, accepts fewer bytes than the fold has, and
the handler panics with `http.ErrAbortHandler`: the client does not get the
fold. -/
theorem C2_masked_body_delivered_within_declared_length (rp : ReverseProxy) (r : Request)
    (res : Response)
    (hget : r.Method = MethodGet)
    (hpass : ∀ b ∈ rp.Blockers, b.fires (forwarded rp r) = false)
    (hup : rp.Transport (forwarded rp r) = .ok res)
    (hread : res.Body.err = none)
    (hmask : chainPasses rp.Maskers res.Body.data = true)
    (hcode : checkWriteHeaderCode res.StatusCode = true)
    (hstatus : bodyAllowedForStatus res.StatusCode = true) :
    (∀ st : Run,
      (ModifyResponse rp st (forwarded rp r) res).2 =
        ({ res with
            Body := ⟨rp.Maskers.foldl (fun acc m => (m.Mask acc).1) res.Body.data, none⟩ },
          none)) ∧
    (Server.handle rp r).rw.body <+:
      rp.Maskers.foldl (fun acc m => (m.Mask acc).1) res.Body.data ∧
    (fits (declaredLength res)
        (rp.Maskers.foldl (fun acc m => (m.Mask acc).1) res.Body.data).length = true →
      (Server.handle rp r).rw.body =
        rp.Maskers.foldl (fun acc m => (m.Mask acc).1) res.Body.data ∧
      (Server.handle rp r).outcome = Outcome.returned) ∧
    (fits (declaredLength res)
        (rp.Maskers.foldl (fun acc m => (m.Mask acc).1) res.Body.data).length = false →
      (Server.handle rp r).rw.body.length <
        (rp.Maskers.foldl (fun acc m => (m.Mask acc).1) res.Body.data).length ∧
      (Server.handle rp r).outcome = Outcome.aborted) := by
  have hg : (forwarded rp r).Method = MethodGet := hget
  have hmr : ∀ st : Run,
      (ModifyResponse rp st (forwarded rp r) res).2 =
        ({ res with
            Body := ⟨rp.Maskers.foldl (fun acc m => (m.Mask acc).1) res.Body.data, none⟩ },
          none) := by
    intro st
    simp [ModifyResponse, hg, hread, maskLoop_passes _ _ _ hmask, chain]
  have hhead : r.Method ≠ "HEAD" := by
    rw [hget]
    decide
  obtain ⟨hw, hs, hm, hwr, hb, hcl⟩ := response_WriteHeader_fresh r.Method
    (copyHeader Header.empty res.Header) res.StatusCode
  have hserve : Server.handle rp r =
      (match Server.copyBuffer
          (rp.Maskers.foldl (fun acc m => (m.Mask acc).1) res.Body.data).length
          (response.WriteHeader
            ⟨r.Method, copyHeader Header.empty res.Header, false, 0, none, 0, []⟩
            res.StatusCode)
          (rp.Maskers.foldl (fun acc m => (m.Mask acc).1) res.Body.data) with
        | (w2, some _) => ⟨w2, Outcome.aborted⟩
        | (w2, none) => ⟨w2, Outcome.returned⟩) := by
    rw [serverHandle_pass rp r hpass]
    simp only [Server.ServeHTTP, hup, hmr, hcode, Bool.not_true, Bool.false_eq_true, if_false,
      response.new]
  have hfold : ∀ x : Bool,
      fits (declaredLength res)
        (rp.Maskers.foldl (fun acc m => (m.Mask acc).1) res.Body.data).length = x →
      fits (response.WriteHeader
            ⟨r.Method, copyHeader Header.empty res.Header, false, 0, none, 0, []⟩
            res.StatusCode).contentLength
        ((response.WriteHeader
            ⟨r.Method, copyHeader Header.empty res.Header, false, 0, none, 0, []⟩
            res.StatusCode).written +
          (rp.Maskers.foldl (fun acc m => (m.Mask acc).1) res.Body.data).length) = x := by
    intro x hx
    rw [hcl, hwr, Nat.zero_add]
    exact hx
  have hyes : fits (declaredLength res)
        (rp.Maskers.foldl (fun acc m => (m.Mask acc).1) res.Body.data).length = true →
      (Server.handle rp r).rw.body =
        rp.Maskers.foldl (fun acc m => (m.Mask acc).1) res.Body.data ∧
      (Server.handle rp r).outcome = Outcome.returned := by
    intro hfit
    rw [hserve, serverCopyBuffer_fits _ _ _ (le_refl _) hw (by rw [hs]; exact hstatus)
      (by rw [hm]; exact hhead) (hfold true hfit)]
    simp only [hb, List.nil_append, and_self]
  have hno : fits (declaredLength res)
        (rp.Maskers.foldl (fun acc m => (m.Mask acc).1) res.Body.data).length = false →
      (Server.handle rp r).rw.body <+:
        rp.Maskers.foldl (fun acc m => (m.Mask acc).1) res.Body.data ∧
      (Server.handle rp r).rw.body.length <
        (rp.Maskers.foldl (fun acc m => (m.Mask acc).1) res.Body.data).length ∧
      (Server.handle rp r).outcome = Outcome.aborted := by
    intro hfit
    have hin : fits (response.WriteHeader
            ⟨r.Method, copyHeader Header.empty res.Header, false, 0, none, 0, []⟩
            res.StatusCode).contentLength
        (response.WriteHeader
            ⟨r.Method, copyHeader Header.empty res.Header, false, 0, none, 0, []⟩
            res.StatusCode).written = true := by
      rw [hwr]
      cases (response.WriteHeader
            ⟨r.Method, copyHeader Header.empty res.Header, false, 0, none, 0, []⟩
            res.StatusCode).contentLength <;> simp [fits]
    obtain ⟨herr, p, hp, hpre, hplen⟩ := serverCopyBuffer_over _ _ _ (le_refl _) hw
      (by rw [hs]; exact hstatus) (by rw [hm]; exact hhead) hin (hfold false hfit)
    rw [hserve]
    rcases hcopy : Server.copyBuffer
        (rp.Maskers.foldl (fun acc m => (m.Mask acc).1) res.Body.data).length
        (response.WriteHeader
          ⟨r.Method, copyHeader Header.empty res.Header, false, 0, none, 0, []⟩
          res.StatusCode)
        (rp.Maskers.foldl (fun acc m => (m.Mask acc).1) res.Body.data) with ⟨w2, e⟩
    rw [hcopy] at herr hp
    cases e with
    | none => simp at herr
    | some e =>
      rw [hb, List.nil_append] at hp
      rw [hcopy]
      show w2.body <+: _ ∧ w2.body.length < _ ∧ Outcome.aborted = Outcome.aborted
      rw [hp]
      exact ⟨hpre, hplen, rfl⟩
  refine ⟨hmr, ?_, hyes, fun h => (hno h).2⟩
  cases hfit : fits (declaredLength res)
      (rp.Maskers.foldl (fun acc m => (m.Mask acc).1) res.Body.data).length with
  | true =>
    rw [(hyes hfit).1]
  | false => exact (hno hfit).1

/-- Witness of C2. First the input on which the client does not get the
masked body: a GET through a proxy with the email masker, to an upstream that
answers 200 with `Content-Length: 13` and the body `a@example.com`; the masked
body `****@example.com` has 16 bytes, the writer of the server refuses the
write and accepts no byte, and the handler panics with `http.ErrAbortHandler`.
Then the input of `TestReverseProxy`: the body `Hello World` with
`Content-Length: 11` and a masker that returns `Masked`; the shorter body is
accepted whole and the handler returns. -/
theorem C2_masked_body_delivered_within_declared_length_witness :
    (EmailMasker.Mask (bytesOf "a@example.com") = (bytesOf "****@example.com", none) ∧
      (Server.handle
          ⟨"127.0.0.1:9000", 8080, [], [NewEmailMasker],
            upstreamWith "13" (bytesOf "a@example.com")⟩
          (newRequest "GET")).rw.body = [] ∧
      (Server.handle
          ⟨"127.0.0.1:9000", 8080, [], [NewEmailMasker],
            upstreamWith "13" (bytesOf "a@example.com")⟩
          (newRequest "GET")).rw.body.length <
        ([NewEmailMasker].foldl (fun acc m => (m.Mask acc).1)
          (bytesOf "a@example.com")).length ∧
      (Server.handle
          ⟨"127.0.0.1:9000", 8080, [], [NewEmailMasker],
            upstreamWith "13" (bytesOf "a@example.com")⟩
          (newRequest "GET")).outcome = Outcome.aborted) ∧
    ((Server.handle
          ⟨"127.0.0.1:9000", 8080, [MockBlocker (false, none)],
            [MockMasker (fun _ => (bytesOf "Masked", none))],
            upstreamWith "11" (bytesOf "Hello World")⟩
          (newRequest "GET")).rw.body = bytesOf "Masked" ∧
      (Server.handle
          ⟨"127.0.0.1:9000", 8080, [MockBlocker (false, none)],
            [MockMasker (fun _ => (bytesOf "Masked", none))],
            upstreamWith "11" (bytesOf "Hello World")⟩
          (newRequest "GET")).outcome = Outcome.returned) :=
  ⟨⟨by decide, by decide,
      (C2_masked_body_delivered_within_declared_length
        ⟨"127.0.0.1:9000", 8080, [], [NewEmailMasker],
          upstreamWith "13" (bytesOf "a@example.com")⟩
        (newRequest "GET")
        ⟨200, ⟨[("Content-Length", ["13"])]⟩, ⟨bytesOf "a@example.com", none⟩⟩
        (by decide) (by decide) rfl rfl (by decide) (by decide) (by decide)).2.2.2
        (by decide)⟩,
    (C2_masked_body_delivered_within_declared_length
      ⟨"127.0.0.1:9000", 8080, [MockBlocker (false, none)],
        [MockMasker (fun _ => (bytesOf "Masked", none))],
        upstreamWith "11" (bytesOf "Hello World")⟩
      (newRequest "GET")
      ⟨200, ⟨[("Content-Length", ["11"])]⟩, ⟨bytesOf "Hello World", none⟩⟩
      (by decide) (by decide) rfl rfl (by decide) (by decide) (by decide)).2.2.1
      (by decide)⟩

/-- C3: for a request whose method is not GET, `ModifyResponse` calls no masker
and returns the response as it got it, body included, with a nil error; when
no blocker stops the request and the upstream call succeeds, the handler calls
no masker and the client gets the upstream body byte for byte. -/
theorem C3_non_get_body_untouched (rp : ReverseProxy) (r : Request) (res : Response)
    (hmethod : r.Method ≠ MethodGet)
    (hpass : ∀ b ∈ rp.Blockers, b.fires (forwarded rp r) = false)
    (hup : rp.Transport (forwarded rp r) = .ok res) :
    (∀ st : Run,
      ModifyResponse rp st (forwarded rp r) res = (st, res, none)) ∧
    (handle rp r).maskerCalls = [] ∧
    (handle rp r).clientBody = res.Body.data := by
  have hg : ¬ (forwarded rp r).Method = MethodGet := hmethod
  have hmr : ∀ st : Run, ModifyResponse rp st (forwarded rp r) res = (st, res, none) := by
    intro st
    simp [ModifyResponse, hg]
  refine ⟨hmr, ?_, ?_⟩
  · rw [handle_pass rp r hpass]
    simp [ServeHTTP, hup, hmr, Run.start]
  · rw [handle_pass rp r hpass]
    simp only [ServeHTTP, hup, hmr, Run.clientBody]
    rw [copyBuffer_body _ _ _ (le_refl _)]
    simp [Run.start, loggingResponseWriter.WriteHeader, loggingResponseWriter.mapHeader,
      ResponseRecorder.WriteHeader, loggingResponseWriter.new, ResponseRecorder.new]

/-- Witness of C3: a POST through a proxy with the email masker leaves a body
that holds an email address as the upstream sent it. -/
theorem C3_non_get_body_untouched_witness :
    (handle
        ⟨"127.0.0.1:9000", 8080, [], [NewEmailMasker],
          fun _ => .ok ⟨200, Header.empty, ⟨bytesOf "test@example.com", none⟩⟩⟩
        (newRequest "POST")).clientBody = bytesOf "test@example.com" :=
  (C3_non_get_body_untouched
      ⟨"127.0.0.1:9000", 8080, [], [NewEmailMasker],
        fun _ => .ok ⟨200, Header.empty, ⟨bytesOf "test@example.com", none⟩⟩⟩
      (newRequest "POST") ⟨200, Header.empty, ⟨bytesOf "test@example.com", none⟩⟩
      (by decide) (by decide) rfl).2.2

/-- C4: masking fails closed. For a GET response with a readable body, when
masker `m` is the first of the list to return an error (the maskers before it
pass), `ModifyResponse` returns that error, the maskers called are exactly
those up to and including `m`, each on the output of the one before, so no
masker after `m` is called, and the body the client gets is empty. -/
theorem C4_masking_fails_closed (rp : ReverseProxy) (r : Request) (res : Response)
    (pre post : List Masker) (m : Masker) (out : Bytes) (err : GoError)
    (hget : r.Method = MethodGet)
    (hpass : ∀ b ∈ rp.Blockers, b.fires (forwarded rp r) = false)
    (hup : rp.Transport (forwarded rp r) = .ok res)
    (hread : res.Body.err = none)
    (hms : rp.Maskers = pre ++ m :: post)
    (hpre : chainPasses pre res.Body.data = true)
    (hm : m.Mask (chain pre res.Body.data) = (out, some err)) :
    (∀ st : Run,
      (ModifyResponse rp st (forwarded rp r) res).2.2 = some err ∧
      (ModifyResponse rp st (forwarded rp r) res).1.maskerCalls =
        st.maskerCalls ++ (pre ++ [m]).zip (chainInputs (pre ++ [m]) res.Body.data)) ∧
    (handle rp r).maskerCalls = (pre ++ [m]).zip (chainInputs (pre ++ [m]) res.Body.data) ∧
    (handle rp r).clientBody = [] := by
  have hg : (forwarded rp r).Method = MethodGet := hget
  refine ⟨?_, ?_, ?_⟩
  · intro st
    simp [ModifyResponse, hg, hread, hms, maskLoop_fails pre post m _ _ out err hpre hm]
  · rw [handle_pass rp r hpass,
      ServeHTTP_mask_error rp _ _ res pre post m out err hg hup hread hms hpre hm,
      (ErrorHandler_calls _ _ _).2.1]
    simp [Run.start]
  · rw [handle_pass rp r hpass,
      ServeHTTP_mask_error rp _ _ res pre post m out err hg hup hread hms hpre hm,
      ErrorHandler_body]
    rfl

/-- Witness of C4 on the test `Test masker return error`, with a masker
before and a masker after the failing one. -/
theorem C4_masking_fails_closed_witness :
    (handle
        (testProxy
          [MockMasker (fun t => (t, none)),
           MockMasker (fun _ => ([], some ⟨ErrorType.other, "masker error"⟩)),
           MockMasker (fun t => (t, none))]
          [])
        (newRequest "GET")).clientBody = [] :=
  (C4_masking_fails_closed
      (testProxy
        [MockMasker (fun t => (t, none)),
         MockMasker (fun _ => ([], some ⟨ErrorType.other, "masker error"⟩)),
         MockMasker (fun t => (t, none))]
        [])
      (newRequest "GET") ⟨200, Header.empty, ⟨bytesOf "Hello World", none⟩⟩
      [MockMasker (fun t => (t, none))] [MockMasker (fun t => (t, none))]
      (MockMasker (fun _ => ([], some ⟨ErrorType.other, "masker error"⟩)))
      [] ⟨ErrorType.other, "masker error"⟩
      (by decide) (by decide) rfl rfl rfl (by decide) rfl).2.2

/-- C8: on a response writer on which nothing was written, the error handler
answers 502 when the error is a `*net.OpError` or a `*url.Error` and 500 for
any other error; it adds no byte to the body, which stays empty; and the
response is the same for any request and any error text, so it shows nothing
of the error but its type. -/
theorem C8_error_handler_status_and_empty_body (st : Run) (h : Header) (code sc : Nat)
    (b : Option Bytes) (r r2 : Request) (err : GoError) (text2 : String) :
    (ErrorHandler { st with w := unwritten h code sc b } r err).status =
      (if err.dynType = ErrorType.netOpError ∨ err.dynType = ErrorType.urlError
        then 502 else 500) ∧
    (ErrorHandler { st with w := unwritten h code sc b } r err).clientBody = [] ∧
    (ErrorHandler { st with w := unwritten h code sc b } r2 ⟨err.dynType, text2⟩).w =
      (ErrorHandler { st with w := unwritten h code sc b } r err).w := by
  refine ⟨?_, ?_, ?_⟩
  · rw [ErrorHandler_status _ _ _ rfl]
    rfl
  · rw [ErrorHandler_body]
    rfl
  · simp only [ErrorHandler]
    split_ifs <;> rfl

/-- Counterexample to C9: with the masker of `Test masker return error`, whose
error text is `masker error`, the client gets an empty body, not the text; and
when the masker's error is a `*net.OpError` the status is 502, not 500. -/
theorem C9_counterexample :
    (handle
        (testProxy [MockMasker (fun _ => ([], some ⟨ErrorType.other, "masker error"⟩))] [])
        (newRequest "GET")).clientBody ≠ bytesOf "masker error" ∧
    (handle
        (testProxy [MockMasker (fun _ => ([], some ⟨ErrorType.netOpError, "dial tcp"⟩))] [])
        (newRequest "GET")).status ≠ 500 := by
  decide

/-- C9 as amended: when a masker returns an error while a GET response is
being masked, the client gets an empty body, with status 502 when the error is
a `*net.OpError` or a `*url.Error` and status 500 for any other error. -/
theorem C9_masker_error_response (rp : ReverseProxy) (r : Request) (res : Response)
    (pre post : List Masker) (m : Masker) (out : Bytes) (err : GoError)
    (hget : r.Method = MethodGet)
    (hpass : ∀ b ∈ rp.Blockers, b.fires (forwarded rp r) = false)
    (hup : rp.Transport (forwarded rp r) = .ok res)
    (hread : res.Body.err = none)
    (hms : rp.Maskers = pre ++ m :: post)
    (hpre : chainPasses pre res.Body.data = true)
    (hm : m.Mask (chain pre res.Body.data) = (out, some err)) :
    (handle rp r).clientBody = [] ∧
    (handle rp r).status =
      (if err.dynType = ErrorType.netOpError ∨ err.dynType = ErrorType.urlError
        then 502 else 500) := by
  have hg : (forwarded rp r).Method = MethodGet := hget
  rw [handle_pass rp r hpass,
    ServeHTTP_mask_error rp _ _ res pre post m out err hg hup hread hms hpre hm]
  refine ⟨?_, ?_⟩
  · rw [ErrorHandler_body]
    rfl
  · rw [ErrorHandler_status _ _ _ rfl]
    rfl

/-- Witness of the amended C9 on the test `Test masker return error`. -/
theorem C9_masker_error_response_witness :
    (handle
        (testProxy [MockMasker (fun _ => ([], some ⟨ErrorType.other, "masker error"⟩))] [])
        (newRequest "GET")).clientBody = [] ∧
    (handle
        (testProxy [MockMasker (fun _ => ([], some ⟨ErrorType.other, "masker error"⟩))] [])
        (newRequest "GET")).status = 500 :=
  C9_masker_error_response
    (testProxy [MockMasker (fun _ => ([], some ⟨ErrorType.other, "masker error"⟩))] [])
    (newRequest "GET") ⟨200, Header.empty, ⟨bytesOf "Hello World", none⟩⟩
    [] [] (MockMasker (fun _ => ([], some ⟨ErrorType.other, "masker error"⟩)))
    [] ⟨ErrorType.other, "masker error"⟩
    (by decide) (by decide) rfl rfl rfl (by decide) rfl

/-! ## The Luhn check -/

theorem luhnLoop_eq (s : Bytes) (hd : ∀ b ∈ s, 48 ≤ b ∧ b ≤ 57) :
    ∀ (k : Nat) (alternate : Bool) (sum n : Nat), k ≤ s.length →
      (n % 2 = 1 ↔ alternate = true) →
      luhnLoop s k alternate sum =
        sum + (((s.take k).reverse.enumFrom n).map
          (fun p => specLuhnTerm p.1 (p.2 - 48))).sum := by
  intro k
  induction k with
  | zero => intro alternate sum n _ _; simp [luhnLoop]
  | succ k ih =>
    intro alternate sum n hk hn
    have hlt : k < s.length := hk
    have hb := hd (s[k]) (List.getElem_mem hlt)
    have hpar : ((n + 1) % 2 = 1 ↔ (!alternate) = true) := by
      cases alternate <;> simp at hn ⊢ <;> omega
    rw [luhnLoop, ih (!alternate) _ (n + 1) (Nat.le_of_lt hlt) hpar]
    rw [List.take_succ, List.getElem?_eq_getElem hlt]
    simp only [Option.toList, List.reverse_append, List.reverse_cons, List.reverse_nil,
      List.nil_append, List.singleton_append, List.enumFrom_cons, List.map_cons, List.sum_cons]
    rw [List.getD_eq_getElem _ _ hlt]
    have hterm : (if alternate = true then
          (if atoiByte s[k] * 2 > 9 then atoiByte s[k] * 2 % 10 + 1 else atoiByte s[k] * 2)
        else atoiByte s[k]) = specLuhnTerm n (s[k] - 48) := by
      have ha : atoiByte s[k] = s[k] - 48 := by simp [atoiByte, hb]
      rw [ha]
      unfold specLuhnTerm
      cases alternate
      · have : ¬ n % 2 = 1 := by simpa using hn
        simp [this]
      · have : n % 2 = 1 := by simpa using hn
        simp only [this, if_true]
        split_ifs <;> omega
    rw [hterm]
    omega

/-- C5: on a string of decimal digits, `luhn` is true exactly when the length
is between 13 and 19 and the Luhn sum, as the specification words it (digits
from right to left, every second one doubled, 9 subtracted from a doubled
value above 9), is divisible by 10; and on every doubled digit the reduction
of the code, `(d mod 10) + 1`, is `d - 9`. -/
theorem C5_luhn_is_the_luhn_check (s : Bytes) (hd : ∀ b ∈ s, 48 ≤ b ∧ b ≤ 57) :
    (luhn s = true ↔ 13 ≤ s.length ∧ s.length ≤ 19 ∧ specLuhnSum s % 10 = 0) ∧
    (∀ d : Nat, d ≤ 9 → 2 * d > 9 → (2 * d) % 10 + 1 = 2 * d - 9) := by
  refine ⟨?_, fun d h1 h2 => by omega⟩
  have h := luhnLoop_eq s hd s.length false 0 0 (le_refl _) (by simp)
  simp only [List.take_length, Nat.zero_add] at h
  unfold luhn
  simp only [specLuhnSum, List.enum]
  by_cases hlen : s.length < 13 ∨ s.length > 19
  · simp only [hlen, if_true]
    constructor
    · intro hf; cases hf
    · intro ⟨h1, h2, _⟩; omega
  · simp only [hlen, if_false, h, beq_iff_eq]
    constructor
    · intro hs; exact ⟨by omega, by omega, hs⟩
    · intro hs; exact hs.2.2

/-- Witness of C5 on the digits of the card number of the tests. -/
theorem C5_luhn_is_the_luhn_check_witness :
    luhn (bytesOf "4012888888881881") = true ↔
      13 ≤ (bytesOf "4012888888881881").length ∧ (bytesOf "4012888888881881").length ≤ 19 ∧
        specLuhnSum (bytesOf "4012888888881881") % 10 = 0 :=
  (C5_luhn_is_the_luhn_check (bytesOf "4012888888881881") (by decide)).1

/-! ## The header blocker -/

theorem HeaderBlocker.blockLoop_spec (r : Request) (l : List (String × String)) :
    ((HeaderBlocker.blockLoop r l).1 = true ↔ ∃ kv ∈ l, r.Header.Get kv.1 = kv.2) ∧
    (HeaderBlocker.blockLoop r l).2 = none := by
  induction l with
  | nil => simp [HeaderBlocker.blockLoop]
  | cons kv l ih =>
    rcases kv with ⟨k, v⟩
    by_cases h : r.Header.Get k = v
    · simp [HeaderBlocker.blockLoop, h]
    · simp [HeaderBlocker.blockLoop, h, ih]

theorem headD_eq_iff_head? (l : List String) (v : String) (hv : v ≠ "") :
    l.headD "" = v ↔ l.head? = some v := by
  cases l with
  | nil => simp [hv, eq_comm]
  | cons a l => simp

/-- Counterexample to C10. A request that carries no headers is blocked when
the value configured for a key is the empty string; and a request that carries
the configured value as the second value of the configured header is not
blocked. -/
theorem C10_counterexample :
    (newRequest "GET").Header.entries = [] ∧
    (HeaderBlocker.Block ⟨[("X-Header", "")]⟩ (newRequest "GET")).1 = true ∧
    "Value" ∈ Header.values ⟨[("X-Header", ["Other", "Value"])]⟩ "X-Header" ∧
    (HeaderBlocker.Block ⟨[("X-Header", "Value")]⟩
      { newRequest "GET" with Header := ⟨[("X-Header", ["Other", "Value"])]⟩ }).1 = false := by
  decide

/-- C10 as amended: for a `HeaderMap` whose configured values are all
non-empty, `HeaderBlocker.Block` returns `true` exactly when, for some key of
`HeaderMap`, the first value the request holds under the canonical form of
that key is the value configured for it, and `false` otherwise; such a
`HeaderMap` never blocks a request that carries no headers. Whatever the
`HeaderMap`, the error is nil, and an empty `HeaderMap` blocks no request. -/
theorem C10_header_blocker_first_value (hb : HeaderBlocker) (r : Request)
    (hne : ∀ kv ∈ hb.HeaderMap, kv.2 ≠ "") :
    ((hb.Block r).1 = true ↔
      ∃ kv ∈ hb.HeaderMap,
        (r.Header.values (CanonicalMIMEHeaderKey kv.1)).head? = some kv.2) ∧
    (r.Header.entries = [] → (hb.Block r).1 = false) ∧
    (hb.Block r).2 = none ∧
    (∀ (hb2 : HeaderBlocker) (r2 : Request), (hb2.Block r2).2 = none) ∧
    (∀ r2 : Request, HeaderBlocker.Block ⟨[]⟩ r2 = (false, none)) := by
  have hs := HeaderBlocker.blockLoop_spec r hb.HeaderMap
  have hiff : ((hb.Block r).1 = true ↔
      ∃ kv ∈ hb.HeaderMap,
        (r.Header.values (CanonicalMIMEHeaderKey kv.1)).head? = some kv.2) := by
    rw [HeaderBlocker.Block, hs.1]
    constructor
    · rintro ⟨kv, hkv, hg⟩
      exact ⟨kv, hkv, (headD_eq_iff_head? _ _ (hne kv hkv)).mp hg⟩
    · rintro ⟨kv, hkv, hg⟩
      exact ⟨kv, hkv, (headD_eq_iff_head? _ _ (hne kv hkv)).mpr hg⟩
  refine ⟨hiff, ?_, hs.2, fun hb2 r2 => (HeaderBlocker.blockLoop_spec r2 hb2.HeaderMap).2, ?_⟩
  · intro hempty
    cases hval : (hb.Block r).1 with
    | false => rfl
    | true =>
      exfalso
      obtain ⟨kv, _, hg⟩ := hiff.mp hval
      simp [Header.values, hempty] at hg
  · intro r2
    rfl

/-- Witness of the amended C10 on the case `MatchingHeader` of
`TestHeaderBlocker_Block`. -/
theorem C10_header_blocker_first_value_witness :
    (HeaderBlocker.Block ⟨[("X-Header", "Value")]⟩
      { newRequest "GET" with Header := ⟨[("X-Header", ["Value"])]⟩ }).1 = true :=
  (C10_header_blocker_first_value ⟨[("X-Header", "Value")]⟩
    { newRequest "GET" with Header := ⟨[("X-Header", ["Value"])]⟩ }
    (by decide)).1.mpr ⟨("X-Header", "Value"), by decide, by decide⟩

/-! ## Runes and patterns on ASCII text -/

theorem decodeRune_ascii (b : Nat) (s : Bytes) (h : b < 128) : decodeRune (b :: s) = (b, 1) := by
  simp [decodeRune, h]

theorem encodeRune_ascii (b : Nat) (h : b < 128) : encodeRune b = [b] := by
  simp [encodeRune, h]

theorem isDigit_lt (b : Nat) (h : isDigit b = true) : b < 128 := by
  simp [isDigit] at h
  omega

theorem isSeparator_lt (b : Nat) (h : isSeparator b = true) : b < 128 := by
  simp [isSeparator] at h
  omega

theorem isSeparator_not_isDigit (b : Nat) (h : isSeparator b = true) : isDigit b = false := by
  simp [isSeparator] at h
  rcases h with h | h <;> simp [isDigit, h]

theorem run_cls_nil (p : Nat → Bool) : Regex.run (.cls p) [] = [] := by
  simp [Regex.run, decodeRune]

theorem run_cls_ascii (p : Nat → Bool) (b : Nat) (s : Bytes) (h : b < 128) :
    Regex.run (.cls p) (b :: s) = if p b then [s] else [] := by
  simp [Regex.run, decodeRune_ascii b s h]

theorem runes_ascii (s : Bytes) (n : Nat) (hn : s.length ≤ n) (h : ∀ b ∈ s, b < 128) :
    runes n s = s := by
  induction n generalizing s with
  | zero =>
    have : s = [] := List.length_eq_zero.mp (Nat.le_zero.mp hn)
    simp [this, runes]
  | succ n ih =>
    cases s with
    | nil => simp [runes, decodeRune]
    | cons b s =>
      have hb : b < 128 := h b (List.mem_cons_self _ _)
      simp only [runes, decodeRune_ascii b s hb, List.drop_succ_cons, List.drop_zero]
      rw [ih s (by simpa using hn) (fun x hx => h x (List.mem_cons_of_mem _ hx))]

theorem flatMap_encodeRune_ascii (s : Bytes) (h : ∀ b ∈ s, b < 128) :
    s.flatMap encodeRune = s := by
  induction s with
  | nil => rfl
  | cons b s ih =>
    rw [List.flatMap_cons, encodeRune_ascii b (h b (List.mem_cons_self _ _)),
      ih (fun x hx => h x (List.mem_cons_of_mem _ hx))]
    rfl

theorem onlyDigits_ascii (s : Bytes) (h : ∀ b ∈ s, b < 128) :
    onlyDigits s = s.filter isDigit := by
  unfold onlyDigits
  rw [runes_ascii s s.length (le_refl _) h]
  exact flatMap_encodeRune_ascii _ (fun b hb => h b (List.mem_of_mem_filter hb))

theorem maskCreditCard_ascii (s : Bytes) (h : ∀ b ∈ s, b < 128) :
    maskCreditCard s = starDigits s := by
  induction s with
  | nil => rfl
  | cons b s ih =>
    have hb : b < 128 := h b (List.mem_cons_self _ _)
    have ih2 := ih (fun x hx => h x (List.mem_cons_of_mem _ hx))
    simp only [maskCreditCard, starDigits] at ih2 ⊢
    rw [List.flatMap_cons, ih2, List.map_cons]
    by_cases hd : isDigit b = true
    · have : ¬ (b < 48 ∨ b > 57) := by
        simp [isDigit] at hd
        omega
      simp [this, hd]
    · have : b < 48 ∨ b > 57 := by
        simp [isDigit] at hd
        omega
      simp [this, hd, encodeRune_ascii b hb]

theorem decodeRune_lt (c : Nat) (s : Bytes) (r w : Nat) (h : decodeRune (c :: s) = (r, w))
    (hr : r < 128) : r = c := by
  by_cases hc : c < 128
  · rw [decodeRune_ascii c s hc] at h
    simp only [Prod.mk.injEq] at h
    exact h.1.symm
  · exfalso
    simp only [decodeRune, hc, if_false] at h
    revert h
    simp only [RuneError]
    split_ifs <;> (try split) <;> (try split_ifs) <;>
      simp only [Prod.mk.injEq] <;> intro h <;> omega

/-- A class of ASCII runes does not match at a byte that is not in it. -/
theorem run_cls_reject (p : Nat → Bool) (hp : ∀ r, p r = true → r < 128) (c : Nat)
    (s : Bytes) (hc : p c = false) : Regex.run (.cls p) (c :: s) = [] := by
  simp only [Regex.run]
  split
  · rfl
  · rename_i r w hw hdec
    by_cases hr : p r = true
    · have := decodeRune_lt c s r w hdec (hp r hr)
      rw [this, hc] at hr
      cases hr
    · simp [hr]

/-! ## The credit card pattern -/

/-- Lazy repetition of the separator class, followed by a match that rejects
a leading separator: only the stop after all the separators goes on. -/
theorem lazySeparators_flatMap (K : Bytes → List Bytes)
    (hK : ∀ c s, isSeparator c = true → K (c :: s) = []) :
    ∀ (n : Nat) (s : Bytes), s.length ≤ n →
      (Regex.lazyStarLoop (fun t => Regex.run (.cls isSeparator) t) n s).flatMap K =
        K (s.dropWhile isSeparator) := by
  intro n
  induction n with
  | zero =>
    intro s hs
    have : s = [] := List.length_eq_zero.mp (Nat.le_zero.mp hs)
    simp [this, Regex.lazyStarLoop]
  | succ n ih =>
    intro s hs
    cases s with
    | nil => simp [Regex.lazyStarLoop, run_cls_nil]
    | cons c s =>
      by_cases hc : isSeparator c = true
      · have hlt := isSeparator_lt c hc
        simp only [Regex.lazyStarLoop, run_cls_ascii _ c s hlt, hc, if_true,
          List.flatMap_cons, List.flatMap_nil, List.append_nil, hK c s hc, List.nil_append,
          List.dropWhile_cons]
        exact ih s (by simpa using hs)
      · have hstep : Regex.run (.cls isSeparator) (c :: s) = [] :=
          run_cls_reject _ isSeparator_lt c s (by simpa using hc)
        simp [Regex.lazyStarLoop, hstep, hc]

/-- One group of the credit card pattern, `\d[ -]*?`. -/
theorem creditCardGroup_eq :
    creditCardBaseRegexp =
      Regex.power (.cat (.cls isDigit) (.lazyStar (.cls isSeparator))) 13
        (Regex.nest (.cat (.cls isDigit) (.lazyStar (.cls isSeparator))) 3) := rfl

theorem run_group_nil (tail : Regex) :
    Regex.run (.cat (.cat (.cls isDigit) (.lazyStar (.cls isSeparator))) tail) [] = [] := by
  simp [Regex.run, decodeRune]

theorem run_group_separator (tail : Regex) (c : Nat) (s : Bytes)
    (hc : isSeparator c = true) :
    Regex.run (.cat (.cat (.cls isDigit) (.lazyStar (.cls isSeparator))) tail) (c :: s) = [] := by
  have h1 : Regex.run (.cls isDigit) (c :: s) = [] := by
    rw [run_cls_ascii _ c s (isSeparator_lt c hc), isSeparator_not_isDigit c hc]
    rfl
  simp only [Regex.run] at h1 ⊢
  simp [h1]

/-- A group followed by a pattern that rejects a leading separator: the group
takes the digit and all the separators after it. -/
theorem run_group_then (tail : Regex) (d : Nat) (s : Bytes) (hd : isDigit d = true)
    (hK : ∀ c t, isSeparator c = true → Regex.run tail (c :: t) = []) :
    Regex.run (.cat (.cat (.cls isDigit) (.lazyStar (.cls isSeparator))) tail) (d :: s) =
      Regex.run tail (s.dropWhile isSeparator) := by
  have h1 : Regex.run (.cls isDigit) (d :: s) = [s] := by
    rw [run_cls_ascii _ d s (isDigit_lt d hd), hd]
    rfl
  have h2 := lazySeparators_flatMap (fun t => Regex.run tail t) hK s.length s (le_refl _)
  simp only [Regex.run] at h1 h2 ⊢
  simp only [h1, List.flatMap_cons, List.flatMap_nil, List.append_nil]
  exact h2

/-- A group followed by any pattern, on a text in which no separator follows
the digit: the group takes the digit alone. -/
theorem run_group_tight (tail : Regex) (d : Nat) (s : Bytes) (hd : isDigit d = true)
    (hs : s.head?.any isSeparator = false) :
    Regex.run (.cat (.cat (.cls isDigit) (.lazyStar (.cls isSeparator))) tail) (d :: s) =
      Regex.run tail s := by
  have h1 : Regex.run (.cls isDigit) (d :: s) = [s] := by
    rw [run_cls_ascii _ d s (isDigit_lt d hd), hd]
    rfl
  have h2 : Regex.lazyStarLoop (fun t => Regex.run (.cls isSeparator) t) s.length s = [s] := by
    cases s with
    | nil => simp [Regex.lazyStarLoop]
    | cons c s =>
      have hc : isSeparator c = false := by simpa using hs
      have hrun : Regex.run (.cls isSeparator) (c :: s) = [] :=
        run_cls_reject _ isSeparator_lt c s hc
      simp only [Regex.lazyStarLoop, List.length_cons]
      simp [hrun]
  simp only [Regex.run] at h1 h2 ⊢
  simp [h1, h2]

/-- The mandatory groups of the pattern, followed by a pattern that rejects
a leading separator, take `k` groups of the text. -/
theorem run_power_groups (tail : Regex)
    (hK : ∀ c t, isSeparator c = true → Regex.run tail (c :: t) = []) :
    ∀ (k : Nat) (s : Bytes),
      Regex.run (Regex.power (.cat (.cls isDigit) (.lazyStar (.cls isSeparator))) k tail) s =
        match afterGroups k s with
        | some rest => Regex.run tail rest
        | none => [] := by
  intro k
  induction k with
  | zero => intro s; simp [Regex.power, afterGroups]
  | succ k ih =>
    intro s
    have hKk : ∀ c t, isSeparator c = true →
        Regex.run (Regex.power (.cat (.cls isDigit) (.lazyStar (.cls isSeparator))) k tail)
          (c :: t) = [] := by
      intro c t hc
      cases k with
      | zero => exact hK c t hc
      | succ k => exact run_group_separator _ c t hc
    cases s with
    | nil => simp only [Regex.power, afterGroups]; exact run_group_nil _
    | cons d s =>
      by_cases hd : isDigit d = true
      · simp only [Regex.power, afterGroups, hd, if_true]
        rw [run_group_then _ d s hd hKk, ih]
      · simp only [Regex.power, afterGroups, hd]
        have h1 : Regex.run (.cls isDigit) (d :: s) = [] :=
          run_cls_reject _ isDigit_lt d s (by simpa using hd)
        simp only [Regex.run] at h1 ⊢
        simp [h1]

/-- The optional groups of the pattern on a run of at most `k` digits: the
preferred match takes them all. -/
theorem run_nest_digits :
    ∀ (k : Nat) (u : Bytes), u.length ≤ k → u.all isDigit = true →
      (Regex.run (Regex.nest (.cat (.cls isDigit) (.lazyStar (.cls isSeparator))) k) u).head? =
        some [] := by
  intro k
  induction k with
  | zero =>
    intro u hu _
    have : u = [] := List.length_eq_zero.mp (Nat.le_zero.mp hu)
    simp [this, Regex.nest, Regex.run]
  | succ k ih =>
    intro u hu hall
    cases u with
    | nil =>
      simp only [Regex.nest, Regex.run.eq_4]
      rw [run_group_nil]
      rfl
    | cons d u =>
      simp only [List.all_cons, Bool.and_eq_true] at hall
      have hsep : u.head?.any isSeparator = false := by
        cases u with
        | nil => rfl
        | cons c u =>
          simp only [List.all_cons, Bool.and_eq_true] at hall
          cases hc : isSeparator c with
          | false => simp [hc]
          | true =>
            have := isSeparator_not_isDigit c hc
            rw [hall.2.1] at this
            cases this
      simp only [Regex.nest, Regex.run.eq_4]
      rw [run_group_tight _ d u hall.1 hsep, List.head?_append,
        ih u (by simpa using hu) hall.2]
      rfl

theorem afterDigits_dropWhile (n : Nat) (s : Bytes) :
    afterDigits (n + 1) (s.dropWhile isSeparator) = afterDigits (n + 1) s := by
  induction s with
  | nil => rfl
  | cons c s ih =>
    by_cases hc : isSeparator c = true
    · simp only [List.dropWhile_cons, hc, if_true, afterDigits, isSeparator_not_isDigit c hc]
      simpa using ih
    · simp [List.dropWhile_cons, hc]

theorem filter_isDigit_dropWhile (s : Bytes) :
    (s.dropWhile isSeparator).filter isDigit = s.filter isDigit := by
  induction s with
  | nil => rfl
  | cons c s ih =>
    by_cases hc : isSeparator c = true
    · simp [List.dropWhile_cons, hc, List.filter_cons, isSeparator_not_isDigit c hc, ih]
    · simp [List.dropWhile_cons, hc]

theorem head_dropWhile_isDigit (s : Bytes)
    (hall : s.all (fun b => isDigit b || isSeparator b) = true)
    (hcount : 1 ≤ (s.filter isDigit).length) :
    (s.dropWhile isSeparator).head?.any isDigit = true := by
  induction s with
  | nil => simp at hcount
  | cons c s ih =>
    simp only [List.all_cons, Bool.and_eq_true, Bool.or_eq_true] at hall
    by_cases hc : isSeparator c = true
    · simp only [List.dropWhile_cons, hc, if_true]
      apply ih hall.2
      simpa [List.filter_cons, isSeparator_not_isDigit c hc] using hcount
    · have hd : isDigit c = true := by
        rcases hall.1 with h | h
        · exact h
        · exact absurd h hc
      simp [List.dropWhile_cons, hc, hd]

theorem all_dropWhile (p : Nat → Bool) (s : Bytes) (h : s.all p = true) :
    (s.dropWhile isSeparator).all p = true := by
  rw [List.all_eq_true] at h ⊢
  intro x hx
  exact h x ((List.dropWhile_sublist _).subset hx)

/-- The text after twelve groups, for a text of digits and separators that
starts with a digit: it starts at the digit number `k + 1`. -/
theorem afterGroups_spec :
    ∀ (k : Nat) (s : Bytes), s.all (fun b => isDigit b || isSeparator b) = true →
      s.head?.any isDigit = true → k + 1 ≤ (s.filter isDigit).length →
      ∃ d u, afterGroups k s = some (d :: u) ∧ isDigit d = true ∧
        afterDigits (k + 1) s = u ∧
        (u.filter isDigit).length + k + 1 = (s.filter isDigit).length := by
  intro k
  induction k with
  | zero =>
    intro s _ hhead _
    cases s with
    | nil => simp at hhead
    | cons d u =>
      have hd : isDigit d = true := by simpa using hhead
      exact ⟨d, u, rfl, hd, by simp [afterDigits, hd], by simp [List.filter_cons, hd]⟩
  | succ k ih =>
    intro s hall hhead hcount
    cases s with
    | nil => simp at hhead
    | cons d s1 =>
      have hd : isDigit d = true := by simpa using hhead
      simp only [List.all_cons, Bool.and_eq_true] at hall
      have hc1 : k + 1 ≤ (s1.filter isDigit).length := by
        simpa [List.filter_cons, hd] using hcount
      obtain ⟨d2, u, h1, h2, h3, h4⟩ := ih (s1.dropWhile isSeparator)
        (all_dropWhile _ s1 hall.2)
        (head_dropWhile_isDigit s1 hall.2 (by omega))
        (by rw [filter_isDigit_dropWhile]; exact hc1)
      refine ⟨d2, u, ?_, h2, ?_, ?_⟩
      · simp [afterGroups, hd, h1]
      · rw [afterDigits_dropWhile] at h3
        simp [afterDigits, hd, h3]
      · rw [filter_isDigit_dropWhile] at h4
        simp only [List.filter_cons, hd, if_true, List.length_cons]
        omega

theorem creditCard_run_nil : Regex.run creditCardBaseRegexp [] = [] := by
  rw [creditCardGroup_eq]
  exact run_group_nil _

/-- On a candidate span with no separator after its 13th digit the pattern
matches the whole text. -/
theorem creditCard_matchAt_span (text : Bytes) (hspan : isCandidateSpan text = true)
    (htight : (afterDigits 13 text).all isDigit = true) :
    creditCardBaseRegexp.matchAt text = some [] := by
  simp only [isCandidateSpan, Bool.and_eq_true, decide_eq_true_eq] at hspan
  obtain ⟨⟨⟨⟨hhead, _⟩, hall⟩, hmin⟩, hmax⟩ := hspan
  obtain ⟨d, u, h1, h2, h3, h4⟩ := afterGroups_spec 12 text hall hhead hmin
  rw [h3] at htight
  have hlen : u.length ≤ 3 := by
    have : u.filter isDigit = u := List.filter_eq_self.mpr (by simpa using htight)
    rw [this] at h4
    omega
  have hsep : u.head?.any isSeparator = false := by
    cases u with
    | nil => rfl
    | cons c u =>
      simp only [List.all_cons, Bool.and_eq_true] at htight
      cases hc : isSeparator c with
      | false => simp [hc]
      | true =>
        have := isSeparator_not_isDigit c hc
        rw [htight.1] at this
        cases this
  have hpow : creditCardBaseRegexp =
      Regex.power (.cat (.cls isDigit) (.lazyStar (.cls isSeparator))) 12
        (.cat (.cat (.cls isDigit) (.lazyStar (.cls isSeparator)))
          (Regex.nest (.cat (.cls isDigit) (.lazyStar (.cls isSeparator))) 3)) := rfl
  rw [Regex.matchAt, hpow,
    run_power_groups _ (fun c t hc => run_group_separator _ c t hc) 12 text, h1]
  simp only []
  rw [run_group_tight _ d u h2 hsep]
  exact run_nest_digits 3 u hlen htight

theorem ReplaceAllStringFunc_nil (re : Regex) (repl : Bytes → Bytes) (n : Nat)
    (h : Regex.run re [] = []) : ReplaceAllStringFunc re repl n [] = [] := by
  cases n with
  | zero => rfl
  | succ n => simp [ReplaceAllStringFunc, Regex.matchAt, h, decodeRune]

/-- The text is one match of the pattern: it is replaced as a whole. -/
theorem ReplaceAllStringFunc_whole (re : Regex) (repl : Bytes → Bytes) (text : Bytes)
    (hne : text ≠ []) (hnil : Regex.run re [] = []) (h : re.matchAt text = some []) :
    ReplaceAllStringFunc re repl text.length text = repl text := by
  cases text with
  | nil => exact absurd rfl hne
  | cons b s =>
    simp only [List.length_cons, ReplaceAllStringFunc, h, List.length_nil, Nat.zero_lt_succ,
      if_true, Nat.sub_zero]
    rw [ReplaceAllStringFunc_nil re repl _ hnil]
    rw [← List.length_cons b s, List.take_length, List.append_nil]

/-- Counterexample to C6. The text `4012-8888-8888-1-881` is one candidate
span whose digit string passes the Luhn check, yet `Mask` replaces only the
digits up to the 13th: the pattern stops before the hyphen after it. -/
theorem C6_counterexample :
    isCandidateSpan (bytesOf "4012-8888-8888-1-881") = true ∧
    luhn ((bytesOf "4012-8888-8888-1-881").filter isDigit) = true ∧
    CreditCardMasker.Mask (bytesOf "4012-8888-8888-1-881") =
      (bytesOf "****-****-****-*-881", none) ∧
    (CreditCardMasker.Mask (bytesOf "4012-8888-8888-1-881")).1 ≠
      starDigits (bytesOf "4012-8888-8888-1-881") := by
  decide

/-- C6 as amended: for a text that is one candidate span (it starts and ends
with a digit, holds 13 to 16 digits, and has only spaces or hyphens between
them) in which no space or hyphen comes after the 13th digit, `Mask` returns a
nil error and, when the digits of the span pass the Luhn check, the text with
every digit replaced by `*` and every separator in its place, and when they
fail it, the text unchanged. -/
theorem C6_candidate_span_masked (text : Bytes) (hspan : isCandidateSpan text = true)
    (htight : (afterDigits 13 text).all isDigit = true) :
    CreditCardMasker.Mask text =
      (if luhn (text.filter isDigit) = true then starDigits text else text, none) := by
  have hm := creditCard_matchAt_span text hspan htight
  simp only [isCandidateSpan, Bool.and_eq_true, decide_eq_true_eq] at hspan
  obtain ⟨⟨⟨⟨hhead, _⟩, hall⟩, _⟩, _⟩ := hspan
  have hne : text ≠ [] := by
    intro h
    simp [h] at hhead
  have hascii : ∀ b ∈ text, b < 128 := by
    intro b hb
    have := List.all_eq_true.mp hall b hb
    simp only [Bool.or_eq_true] at this
    rcases this with h | h
    · exact isDigit_lt b h
    · exact isSeparator_lt b h
  rw [CreditCardMasker.Mask, ReplaceAllStringFunc_whole _ _ text hne creditCard_run_nil hm,
    maskCandidate, onlyDigits_ascii text hascii, maskCreditCard_ascii text hascii]

/-- Witness of the amended C6 on the two texts of the specification:
`4012-8888-8888-1881` becomes `****-****-****-****`, and `1234-5678-9012-3454`
is returned unchanged. -/
theorem C6_candidate_span_masked_witness :
    CreditCardMasker.Mask (bytesOf "4012-8888-8888-1881") =
      (bytesOf "****-****-****-****", none) ∧
    CreditCardMasker.Mask (bytesOf "1234-5678-9012-3454") =
      (bytesOf "1234-5678-9012-3454", none) :=
  ⟨(C6_candidate_span_masked (bytesOf "4012-8888-8888-1881") (by decide) (by decide)).trans
      (by decide),
   (C6_candidate_span_masked (bytesOf "1234-5678-9012-3454") (by decide) (by decide)).trans
      (by decide)⟩

/-! ## The email pattern -/

theorem head?_flatMap_of_head? {α β : Type} (xs : List α) (f : α → List β) (x : α) (y : β)
    (hx : xs.head? = some x) (hy : (f x).head? = some y) : (xs.flatMap f).head? = some y := by
  cases xs with
  | nil => simp at hx
  | cons a xs =>
    simp only [List.head?_cons, Option.some.injEq] at hx
    rw [List.flatMap_cons, List.head?_append, hx, hy]
    rfl

theorem starLoop_suffix (step : Bytes → List Bytes)
    (hstep : ∀ s t, t ∈ step s → t <:+ s) :
    ∀ (n : Nat) (s t : Bytes), t ∈ Regex.starLoop step n s → t <:+ s := by
  intro n
  induction n with
  | zero =>
    intro s t ht
    simp only [Regex.starLoop, List.mem_singleton] at ht
    rw [ht]
  | succ n ih =>
    intro s t ht
    simp only [Regex.starLoop, List.mem_append, List.mem_flatMap, List.mem_singleton] at ht
    rcases ht with ⟨m, hm, htm⟩ | ht
    · exact (ih m t htm).trans (hstep s m hm)
    · rw [ht]

theorem lazyStarLoop_suffix (step : Bytes → List Bytes)
    (hstep : ∀ s t, t ∈ step s → t <:+ s) :
    ∀ (n : Nat) (s t : Bytes), t ∈ Regex.lazyStarLoop step n s → t <:+ s := by
  intro n
  induction n with
  | zero =>
    intro s t ht
    simp only [Regex.lazyStarLoop, List.mem_singleton] at ht
    rw [ht]
  | succ n ih =>
    intro s t ht
    simp only [Regex.lazyStarLoop, List.mem_cons, List.mem_flatMap] at ht
    rcases ht with ht | ⟨m, hm, htm⟩
    · rw [ht]
    · exact (ih m t htm).trans (hstep s m hm)

/-- Every way a pattern matches at the start of a string leaves a suffix of
the string. -/
theorem run_suffix : ∀ (re : Regex) (s t : Bytes), t ∈ Regex.run re s → t <:+ s := by
  intro re
  induction re with
  | empty =>
    intro s t ht
    simp only [Regex.run, List.mem_singleton] at ht
    rw [ht]
  | cls p =>
    intro s t ht
    simp only [Regex.run] at ht
    split at ht
    · simp at ht
    · split at ht
      · simp only [List.mem_singleton] at ht
        rw [ht]
        exact List.drop_suffix _ _
      · simp at ht
  | cat a b iha ihb =>
    intro s t ht
    simp only [Regex.run, List.mem_flatMap] at ht
    obtain ⟨m, hm, htm⟩ := ht
    exact (ihb m t htm).trans (iha s m hm)
  | quest a iha =>
    intro s t ht
    simp only [Regex.run, List.mem_append, List.mem_singleton] at ht
    rcases ht with ht | ht
    · exact iha s t ht
    · rw [ht]
  | star a iha =>
    intro s t ht
    simp only [Regex.run] at ht
    exact starLoop_suffix _ iha _ s t ht
  | lazyStar a iha =>
    intro s t ht
    simp only [Regex.run] at ht
    exact lazyStarLoop_suffix _ iha _ s t ht

/-- Greedy repetition of a class over a run `u` of bytes of the class, up to
a point `v` where the class does not match, followed by a match `K` that
rejects a string starting in the class: only the stop at `v` goes on. -/
theorem starLoop_class_flatMap (p : Nat → Bool) (K : Bytes → List Bytes) (v : Bytes)
    (hv : Regex.run (.cls p) v = []) :
    ∀ (u : Bytes) (n : Nat), u.length ≤ n → (∀ c ∈ u, c < 128 ∧ p c = true) →
      (∀ c ∈ u, ∀ s, K (c :: s) = []) →
      (Regex.starLoop (fun t => Regex.run (.cls p) t) n (u ++ v)).flatMap K = K v := by
  intro u
  induction u with
  | nil =>
    intro n _ _ _
    cases n with
    | zero => simp [Regex.starLoop]
    | succ n => simp [Regex.starLoop, hv]
  | cons c u ih =>
    intro n hn hu hK
    cases n with
    | zero => simp at hn
    | succ n =>
      have hc := hu c (List.mem_cons_self _ _)
      simp only [List.cons_append, Regex.starLoop, run_cls_ascii p c (u ++ v) hc.1, hc.2,
        if_true, List.flatMap_cons, List.flatMap_nil, List.append_nil, List.flatMap_append,
        hK c (List.mem_cons_self _ _)]
      exact ih n (by simpa using hn) (fun x hx => hu x (List.mem_cons_of_mem _ hx))
        (fun x hx => hK x (List.mem_cons_of_mem _ hx))

theorem isLocalByte_lt (c : Nat) (h : isLocalByte c = true) : c < 128 := by
  by_contra hc
  have h1 : isLetter c = false := by simp [isLetter]; omega
  have h2 : isDigit c = false := by simp [isDigit]; omega
  simp only [isLocalByte, h1, h2, Bool.false_or] at h
  have hmem : c ∈ bytesOf "!#$%&'*+/=?^_\x7b|.\x7d~-" := by simpa using h
  have hall : ∀ x ∈ bytesOf "!#$%&'*+/=?^_\x7b|.\x7d~-", x < 128 := by decide
  exact hc (hall c hmem)

theorem isLabelByte_lt (c : Nat) (h : isLabelByte c = true) : c < 128 := by
  simp [isLabelByte, isLabelEdge, isLetter, isDigit] at h
  omega

theorem local_class_ascii :
    ∀ c < 128, isLocalByte c = true → foldCase isLocalRune c = true ∧ c ≠ 64 := by
  decide

theorem label_class_ascii :
    ∀ c < 128, isLabelByte c = true →
      foldCase isLowerAlnumHyphen c = true ∧ foldCase (fun r => r == 46) c = false ∧
        (isLabelEdge c = true → foldCase isLowerAlnum c = true) := by
  decide

theorem run_localRegexp (c : Nat) (s : Bytes) (h : isLocalByte c = true) :
    Regex.run localRegexp (c :: s) = [s] := by
  have hc := isLocalByte_lt c h
  rw [localRegexp, run_cls_ascii _ c s hc, (local_class_ascii c hc h).1]
  rfl

theorem run_atRegexp_local (c : Nat) (s : Bytes) (h : isLocalByte c = true) :
    Regex.run atRegexp (c :: s) = [] := by
  have hc := isLocalByte_lt c h
  have hne := (local_class_ascii c hc h).2
  rw [atRegexp, run_cls_ascii _ c s hc]
  have : foldCase (fun r => r == 64) c = false := by
    revert hne
    revert c
    have : ∀ c < 128, c ≠ 64 → foldCase (fun r => r == 64) c = false := by decide
    intro c _ hc hne
    exact this c hc hne
  rw [this]
  rfl

theorem run_dotRegexp_label (c : Nat) (s : Bytes) (h : isLabelByte c = true) :
    Regex.run dotRegexp (c :: s) = [] := by
  have hc := isLabelByte_lt c h
  rw [dotRegexp, run_cls_ascii _ c s hc, (label_class_ascii c hc h).2.1]
  rfl

theorem run_innerRegexp (c : Nat) (s : Bytes) (h : isLabelByte c = true) :
    Regex.run innerRegexp (c :: s) = [s] := by
  have hc := isLabelByte_lt c h
  rw [innerRegexp, run_cls_ascii _ c s hc, (label_class_ascii c hc h).1]
  rfl

theorem run_edgeRegexp (c : Nat) (s : Bytes) (h : isLabelEdge c = true) :
    Regex.run edgeRegexp (c :: s) = [s] := by
  have hb : isLabelByte c = true := by simp [isLabelByte, h]
  have hc := isLabelByte_lt c hb
  rw [edgeRegexp, run_cls_ascii _ c s hc, (label_class_ascii c hc hb).2.2 h]
  rfl

/-- At the end of the text and at a dot, the classes of a label do not match. -/
theorem run_label_classes_stop (v : Bytes) (hv : v = [] ∨ ∃ w, v = 46 :: w) :
    Regex.run innerRegexp v = [] ∧ Regex.run edgeRegexp v = [] := by
  rcases hv with hv | ⟨w, hv⟩
  · subst hv
    exact ⟨run_cls_nil _, run_cls_nil _⟩
  · subst hv
    constructor
    · rw [innerRegexp, run_cls_ascii _ 46 w (by decide)]
      rfl
    · rw [edgeRegexp, run_cls_ascii _ 46 w (by decide)]
      rfl

/-- The local part and the `@` of the pattern take `local@` of the text. -/
theorem run_email_local (loc domain : Bytes) (hne : loc ≠ [])
    (hl : loc.all isLocalByte = true) :
    Regex.run emailRegexp (loc ++ 64 :: domain) = Regex.run domainRegexp domain := by
  cases loc with
  | nil => exact absurd rfl hne
  | cons c u =>
    simp only [List.all_cons, Bool.and_eq_true] at hl
    have hu : ∀ x ∈ u, isLocalByte x = true := fun x hx => List.all_eq_true.mp hl.2 x hx
    have hat : Regex.run atRegexp (64 :: domain) = [domain] := by
      rw [atRegexp, run_cls_ascii _ 64 domain (by decide)]
      rfl
    have hstop : Regex.run (.cls (foldCase isLocalRune)) (64 :: domain) = [] := by
      rw [run_cls_ascii _ 64 domain (by decide)]
      rfl
    have hstar := starLoop_class_flatMap (foldCase isLocalRune)
      (fun t => (Regex.run atRegexp t).flatMap (fun t => Regex.run domainRegexp t))
      (64 :: domain) hstop u (u ++ 64 :: domain).length (by simp)
      (fun x hx => ⟨isLocalByte_lt x (hu x hx),
        (local_class_ascii x (isLocalByte_lt x (hu x hx)) (hu x hx)).1⟩)
      (fun x hx s => by simp [run_atRegexp_local x s (hu x hx)])
    simp only [hat, List.flatMap_cons, List.flatMap_nil, List.append_nil] at hstar
    have h1 := run_localRegexp c (u ++ 64 :: domain) hl.1
    simp only [emailRegexp, Regex.plus, Regex.run, List.cons_append] at h1 ⊢
    rw [h1]
    simp only [List.flatMap_cons, List.flatMap_nil, List.append_nil]
    simp only [localRegexp, Regex.run] at hstar ⊢
    exact hstar

theorem run_cat (a b : Regex) (s : Bytes) :
    Regex.run (.cat a b) s = (Regex.run a s).flatMap (fun t => Regex.run b t) := by
  simp only [Regex.run]

theorem run_quest (a : Regex) (s : Bytes) : Regex.run (.quest a) s = Regex.run a s ++ [s] := by
  simp only [Regex.run]

theorem run_star (a : Regex) (s : Bytes) :
    Regex.run (.star a) s = Regex.starLoop (fun t => Regex.run a t) s.length s := by
  simp only [Regex.run]

theorem starLoop_stop (step : Bytes → List Bytes) (n : Nat) (v : Bytes) (hv : step v = []) :
    Regex.starLoop step n v = [v] := by
  cases n with
  | zero => rfl
  | succ n => simp [Regex.starLoop, hv]

/-- Inside a label: the greedy inner class followed by the closing class gives
back the last byte, so the preferred match ends at the end of the label. -/
theorem run_label_inner (e : Nat) (v : Bytes) (he : isLabelEdge e = true)
    (hv : v = [] ∨ ∃ w, v = 46 :: w) :
    ∀ (u : Bytes) (n : Nat), u.length + 1 ≤ n → u.all isLabelByte = true →
      ((Regex.starLoop (fun t => Regex.run innerRegexp t) n (u ++ e :: v)).flatMap
        (fun t => Regex.run edgeRegexp t)).head? = some v := by
  have hstop := run_label_classes_stop v hv
  have heb : isLabelByte e = true := by simp [isLabelByte, he]
  intro u
  induction u with
  | nil =>
    intro n hn _
    cases n with
    | zero => simp at hn
    | succ n =>
      simp [Regex.starLoop, run_innerRegexp e v heb, starLoop_stop _ n v hstop.1, hstop.2,
        run_edgeRegexp e v he]
  | cons c u ih =>
    intro n hn hall
    simp only [List.all_cons, Bool.and_eq_true] at hall
    cases n with
    | zero => simp at hn
    | succ n =>
      simp only [List.cons_append, Regex.starLoop, run_innerRegexp c _ hall.1,
        List.flatMap_cons, List.flatMap_nil, List.append_nil, List.flatMap_append,
        List.head?_append]
      rw [ih n (by simpa using hn) hall.2]
      rfl

/-- The preferred match of a label at the start of `l ++ v`, where `l` is a
label and `v` is empty or starts with a dot, is `l`. -/
theorem run_label_head (l v : Bytes) (hl : isLabel l = true)
    (hv : v = [] ∨ ∃ w, v = 46 :: w) :
    (Regex.run labelRegexp (l ++ v)).head? = some v := by
  have hstop := run_label_classes_stop v hv
  simp only [isLabel, Bool.and_eq_true] at hl
  obtain ⟨⟨hhead, hlast⟩, hall⟩ := hl
  cases l with
  | nil => simp at hhead
  | cons c t =>
    have hc : isLabelEdge c = true := by simpa using hhead
    simp only [List.all_cons, Bool.and_eq_true] at hall
    rw [labelRegexp, List.cons_append, run_cat, run_edgeRegexp c (t ++ v) hc]
    simp only [List.flatMap_cons, List.flatMap_nil, List.append_nil]
    rw [run_quest, run_cat, run_star, List.head?_append]
    rcases List.eq_nil_or_concat t with ht | ⟨u, e, ht⟩
    · subst ht
      simp [starLoop_stop _ _ v hstop.1, hstop.2]
    · rw [List.concat_eq_append] at ht
      subst ht
      have he : isLabelEdge e = true := by
        have : (c :: (u ++ [e])).getLast? = some e := by
          rw [← List.cons_append, List.getLast?_append]
          simp
        rw [this] at hlast
        simpa using hlast
      have hu : u.all isLabelByte = true := by
        rw [List.all_append] at hall
        simp only [Bool.and_eq_true] at hall
        exact hall.2.1
      have happ : u ++ [e] ++ v = u ++ e :: v := by simp
      rw [happ, run_label_inner e v he hv u (u ++ e :: v).length (by simp) hu]
      rfl

/-- A label followed by its dot. -/
theorem run_labelDot_head (l rest : Bytes) (hl : isLabel l = true) :
    (Regex.run (.cat labelRegexp dotRegexp) (l ++ 46 :: rest)).head? = some rest := by
  have h1 := run_label_head l (46 :: rest) hl (Or.inr ⟨rest, rfl⟩)
  have h2 : (Regex.run dotRegexp (46 :: rest)).head? = some rest := by
    rw [dotRegexp, run_cls_ascii _ 46 rest (by decide)]
    rfl
  rw [run_cat]
  exact head?_flatMap_of_head? _ _ _ _ h1 h2

/-- A label that no dot follows is no label followed by a dot. -/
theorem run_labelDot_last (l : Bytes) (hl : isLabel l = true) :
    Regex.run (.cat labelRegexp dotRegexp) l = [] := by
  simp only [isLabel, Bool.and_eq_true] at hl
  have hall : ∀ x ∈ l, isLabelByte x = true := fun x hx => List.all_eq_true.mp hl.2 x hx
  rw [run_cat, List.flatMap_eq_nil_iff]
  intro t ht
  have hsuf := run_suffix labelRegexp l t ht
  cases t with
  | nil => exact run_cls_nil _
  | cons c t =>
    have hc : c ∈ l := hsuf.subset (List.mem_cons_self _ _)
    exact run_dotRegexp_label c t (hall c hc)

/-- After the first label and its dot: the greedy repetition of labels with
dots, then the last label, prefers to take all the labels that are left. -/
theorem run_star_labels :
    ∀ (labels : List Bytes), labels ≠ [] → (∀ l ∈ labels, isLabel l = true) →
      ∀ n, (joinDots labels).length ≤ n →
        ((Regex.starLoop (fun t => Regex.run (.cat labelRegexp dotRegexp) t) n
            (joinDots labels)).flatMap (fun t => Regex.run labelRegexp t)).head? = some [] := by
  intro labels
  induction labels with
  | nil => intro h; exact absurd rfl h
  | cons l ls ih =>
    intro _ hall n hn
    have hl := hall l (List.mem_cons_self _ _)
    cases ls with
    | nil =>
      simp only [joinDots]
      rw [starLoop_stop _ n l (run_labelDot_last l hl)]
      simp only [List.flatMap_cons, List.flatMap_nil, List.append_nil]
      have := run_label_head l [] hl (Or.inl rfl)
      simpa using this
    | cons l2 ls =>
      have hls : ∀ x ∈ l2 :: ls, isLabel x = true :=
        fun x hx => hall x (List.mem_cons_of_mem _ hx)
      simp only [joinDots] at hn ⊢
      cases n with
      | zero => simp at hn
      | succ n =>
        have hlen : (joinDots (l2 :: ls)).length ≤ n := by
          simp only [List.length_append, List.length_cons] at hn
          omega
        simp only [Regex.starLoop, List.flatMap_append, List.flatMap_assoc, List.head?_append]
        rw [head?_flatMap_of_head? _ _ _ _ (run_labelDot_head l _ hl)
          (ih (by simp) hls n hlen)]
        rfl

/-- On two or more labels joined by dots the preferred match of the domain
pattern is the whole text. -/
theorem run_domain_head (l l2 : Bytes) (ls : List Bytes)
    (hall : ∀ x ∈ l :: l2 :: ls, isLabel x = true) :
    (Regex.run domainRegexp (joinDots (l :: l2 :: ls))).head? = some [] := by
  have hl := hall l (List.mem_cons_self _ _)
  have hls : ∀ x ∈ l2 :: ls, isLabel x = true :=
    fun x hx => hall x (List.mem_cons_of_mem _ hx)
  have h1 := run_labelDot_head l (joinDots (l2 :: ls)) hl
  have h2 := run_star_labels (l2 :: ls) (by simp) hls (joinDots (l2 :: ls)).length (le_refl _)
  simp only [joinDots]
  rw [domainRegexp, run_cat, Regex.plus, run_cat, List.flatMap_assoc]
  simp only [run_star]
  exact head?_flatMap_of_head? _ _ _ _ h1 h2

theorem run_email_nil : Regex.run emailRegexp [] = [] := by
  rw [emailRegexp, run_cat, Regex.plus, run_cat, localRegexp, run_cls_nil]
  rfl

theorem indexOfAt_local (rest : Bytes) :
    ∀ (loc : Bytes) (n i : Nat), loc.length + 1 ≤ n → loc.all isLocalByte = true →
      indexOfAt n (loc ++ 64 :: rest) i = some (i + loc.length) := by
  intro loc
  induction loc with
  | nil =>
    intro n i hn _
    cases n with
    | zero => simp at hn
    | succ n => simp [indexOfAt, decodeRune_ascii 64 rest (by decide)]
  | cons c u ih =>
    intro n i hn hall
    simp only [List.all_cons, Bool.and_eq_true] at hall
    cases n with
    | zero => simp at hn
    | succ n =>
      have hc := isLocalByte_lt c hall.1
      have hne := (local_class_ascii c hc hall.1).2
      simp only [List.cons_append, indexOfAt, decodeRune_ascii c _ hc, hne, if_false,
        List.drop_succ_cons, List.drop_zero]
      rw [ih n (i + 1) (by simpa using hn) hall.2]
      simp only [List.length_cons, Option.some.injEq]
      omega

theorem getDomainFromEmail_local (loc domain : Bytes) (hall : loc.all isLocalByte = true)
    (hd : domain ≠ []) : getDomainFromEmail (loc ++ 64 :: domain) = domain := by
  have hlen : 0 < domain.length := List.length_pos.mpr hd
  have hi := indexOfAt_local domain loc (loc ++ 64 :: domain).length 0 (by simp) hall
  simp only [getDomainFromEmail, hi, Nat.zero_add]
  have hne : ¬ (loc.length + 1 = (loc ++ 64 :: domain).length) := by
    simp only [List.length_append, List.length_cons]
    omega
  simp only [hne, if_false]
  rw [List.drop_append_eq_append_drop]
  simp

/-- C7: for a text that is exactly `local@domain`, with `local` a non-empty
string of ASCII letters, digits and the characters of the local class, and
`domain` two or more labels joined by dots, each label a non-empty string of
ASCII letters, digits and hyphens that begins and ends with a letter or a
digit, `EmailMasker.Mask` returns a nil error and `****@` followed by the
domain unchanged. -/
theorem C7_email_local_part_masked (loc : Bytes) (labels : List Bytes)
    (hne : loc ≠ []) (hloc : loc.all isLocalByte = true)
    (hcount : 2 ≤ labels.length) (hlabels : ∀ l ∈ labels, isLabel l = true) :
    EmailMasker.Mask (loc ++ 64 :: joinDots labels) =
      (bytesOf "****@" ++ joinDots labels, none) := by
  match labels, hcount, hlabels with
  | l :: l2 :: ls, _, hlabels =>
    have hm : emailRegexp.matchAt (loc ++ 64 :: joinDots (l :: l2 :: ls)) = some [] := by
      rw [Regex.matchAt, run_email_local loc _ hne hloc]
      exact run_domain_head l l2 ls hlabels
    have hd : joinDots (l :: l2 :: ls) ≠ [] := by simp [joinDots]
    rw [EmailMasker.Mask, ReplaceAllStringFunc_whole _ _ _ (by simp) run_email_nil hm,
      maskEmail, getDomainFromEmail_local loc _ hloc hd]

/-- Witness of C7 on the text of the specification: `test@example.com`
becomes `****@example.com`. -/
theorem C7_email_local_part_masked_witness :
    EmailMasker.Mask (bytesOf "test@example.com") = (bytesOf "****@example.com", none) :=
  C7_email_local_part_masked (bytesOf "test") [bytesOf "example", bytesOf "com"]
    (by decide) (by decide) (by decide) (by decide)

/-! ## The blocker loop: calls, log and body -/

/-- The log entry the handler writes for the blocker that fires. -/
theorem blockerLoop_calls (rp : ReverseProxy) (bs : List Blocker) (st : Run) (r : Request) :
    match bs.find? (fun b => b.fires r) with
    | none => (blockerLoop rp bs st r).blockerCalls = st.blockerCalls ++ bs
    | some b =>
      (blockerLoop rp bs st r).blockerCalls =
        st.blockerCalls ++ bs.takeWhile (fun x => !x.fires r) ++ [b] ∧
      (blockerLoop rp bs st r).log = st.log ++
        [match (b.Block r).2 with
         | some err =>
           LogEntry.mk "info" "blocker error" [("error", err.text), ("blocker_name", b.Name)]
         | none => LogEntry.mk "info" "request blocked" [("blocker_name", b.Name)]] := by
  induction bs generalizing st with
  | nil =>
    simp only [List.find?_nil, blockerLoop, List.append_nil]
    simp only [ServeHTTP]
    split
    · simp [(ErrorHandler_calls _ _ _).2.2]
    · have hf := ModifyResponse_frame rp
        { st with upstreamCalls := st.upstreamCalls ++ [r] } r ‹Response›
      split
      · rw [(ErrorHandler_calls _ _ _).2.2]
        simp_all
      · simp_all
  | cons b bs ih =>
    rcases hb : b.Block r with ⟨ok, e⟩
    cases e with
    | some e =>
      have hf : b.fires r = true := by simp [Blocker.fires, hb]
      simp [List.find?, hf, hb, blockerLoop, List.takeWhile]
    | none =>
      cases ok with
      | true =>
        have hf : b.fires r = true := by simp [Blocker.fires, hb]
        simp [List.find?, hf, hb, blockerLoop, List.takeWhile]
      | false =>
        have hf : b.fires r = false := by simp [Blocker.fires, hb]
        have := ih { st with blockerCalls := st.blockerCalls ++ [b] }
        simp only [List.find?, hf, hb, blockerLoop, List.takeWhile, Bool.not_false]
        simpa using this

theorem takeWhile_append_find_prefix (bs : List Blocker) (p : Blocker → Bool) (b : Blocker)
    (h : bs.find? p = some b) : bs.takeWhile (fun x => !p x) ++ [b] <+: bs := by
  induction bs with
  | nil => simp at h
  | cons x xs ih =>
    by_cases hx : p x = true
    · simp only [List.find?, hx, Option.some.injEq] at h
      subst h
      simp [List.takeWhile, hx]
    · simp only [Bool.not_eq_true] at hx
      simp only [List.find?, hx] at h
      simp only [List.takeWhile, hx, Bool.not_false, List.cons_append]
      exact List.prefix_cons_inj x |>.mpr (ih h)

/-- C14: the blockers the handler calls are exactly the blockers of the list
up to and including the first one that returns an error or `true`, in order
and each once (the whole list when none fires); no blocker after it is called;
and the one log entry the handler writes for the decision carries the name of
that first firing blocker. -/
theorem C14_blockers_called_up_to_first_firing (rp : ReverseProxy) (r : Request) :
    match rp.Blockers.find? (fun b => b.fires (forwarded rp r)) with
    | none => (handle rp r).blockerCalls = rp.Blockers
    | some b =>
      (handle rp r).blockerCalls =
        rp.Blockers.takeWhile (fun x => !x.fires (forwarded rp r)) ++ [b] ∧
      rp.Blockers.takeWhile (fun x => !x.fires (forwarded rp r)) ++ [b] <+: rp.Blockers ∧
      (handle rp r).log =
        [match (b.Block (forwarded rp r)).2 with
         | some err =>
           LogEntry.mk "info" "blocker error" [("error", err.text), ("blocker_name", b.Name)]
         | none => LogEntry.mk "info" "request blocked" [("blocker_name", b.Name)]] := by
  have hs := blockerLoop_calls rp rp.Blockers
    (Run.start (loggingResponseWriter.new ResponseRecorder.new)) (forwarded rp r)
  have hh : handle rp r = blockerLoop rp rp.Blockers
      (Run.start (loggingResponseWriter.new ResponseRecorder.new)) (forwarded rp r) := rfl
  split
  · rename_i hnone
    rw [hnone] at hs
    rw [hh, hs]
    simp [Run.start]
  · rename_i b hsome
    rw [hsome] at hs
    refine ⟨?_, takeWhile_append_find_prefix _ _ b hsome, ?_⟩
    · rw [hh, hs.1]
      simp [Run.start]
    · rw [hh, hs.2]
      simp [Run.start]

/-- Counterexample to C20: when the blocker of the test `Test blocker` fires,
the body is `blocked` followed by a newline, not `blocked` alone; and for the
blocker of `Test return error` it is the error text followed by a newline. -/
theorem C20_counterexample :
    (handle (testProxy [] [MockBlocker (true, none)]) (newRequest "GET")).clientBody ≠
      bytesOf "blocked" ∧
    (handle (testProxy [] [MockBlocker (true, none)]) (newRequest "GET")).clientBody =
      bytesOf "blocked\n" ∧
    (handle (testProxy [] [MockBlocker (true, some ⟨ErrorType.other, "blocker error"⟩)])
      (newRequest "GET")).clientBody ≠ bytesOf "blocker error" := by
  decide

/-- C20 as amended: when a blocker fires, the body the handler writes is the
literal `blocked` followed by a newline in the 403 case and the text of the
blocker's error followed by a newline in the 500 case, and nothing else. -/
theorem C20_blocked_body_ends_with_newline (rp : ReverseProxy) (r : Request) :
    match rp.Blockers.find? (fun b => b.fires (forwarded rp r)) with
    | none => True
    | some b =>
      (handle rp r).clientBody =
        (match (b.Block (forwarded rp r)).2 with
         | some err => bytesOf err.text
         | none => bytesOf "blocked") ++ [10] ∧
      (handle rp r).status = if (b.Block (forwarded rp r)).2.isSome then 500 else 403 := by
  have hs := blockerLoop_spec rp rp.Blockers
    (Run.start (loggingResponseWriter.new ResponseRecorder.new)) (forwarded rp r)
  have hh : handle rp r = blockerLoop rp rp.Blockers
      (Run.start (loggingResponseWriter.new ResponseRecorder.new)) (forwarded rp r) := rfl
  split
  · trivial
  · rename_i b hsome
    rw [hsome] at hs
    constructor
    · rw [Run.clientBody, hh, hs.2.2, httpError_body]
      cases (b.Block (forwarded rp r)).2 <;> rfl
    · rw [Run.status, hh, hs.2.2, httpError_code _ _ _ rfl]
      simp [StatusInternalServerError, StatusForbidden]

/-! ## Method, path and query blockers -/

theorem methodBlockLoop_spec (r : Request) (l : List String) :
    MethodBlocker.blockLoop r l = (decide (r.Method ∈ l), none) := by
  induction l with
  | nil => simp [MethodBlocker.blockLoop]
  | cons m l ih =>
    by_cases h : r.Method = m
    · simp [MethodBlocker.blockLoop, h]
    · simp [MethodBlocker.blockLoop, h, ih]

theorem pathBlockLoop_spec (r : Request) (u : URL) (hu : r.URL = some u)
    (l : List String) : PathBlocker.blockLoop r l = some (decide (u.Path ∈ l), none) := by
  induction l with
  | nil => simp [PathBlocker.blockLoop]
  | cons p l ih =>
    by_cases h : u.Path = p
    · simp [PathBlocker.blockLoop, hu, h]
    · simp [PathBlocker.blockLoop, hu, h, ih]

/-- C18: `MethodBlocker.Block` returns `true` exactly when the method of the
request is an element of `Method`, and `PathBlocker.Block`, on a request that
has a URL, returns `true` exactly when the path of the URL is an element of
`Path`, by equality of strings; otherwise each returns `false`; the error is
nil; and an empty list blocks no request. -/
theorem C18_method_and_path_blockers (mb : MethodBlocker) (pb : PathBlocker) (r : Request)
    (u : URL) :
    mb.Block r = (decide (r.Method ∈ mb.Method), none) ∧
    pb.Block { r with URL := some u } = some (decide (u.Path ∈ pb.Path), none) ∧
    MethodBlocker.Block ⟨[]⟩ r = (false, none) ∧
    PathBlocker.Block ⟨[]⟩ r = some (false, none) := by
  refine ⟨methodBlockLoop_spec r mb.Method, ?_, rfl, rfl⟩
  exact pathBlockLoop_spec _ u rfl pb.Path

theorem bytesOf_ne_nil (s : String) (h : s ≠ "") : bytesOf s ≠ [] := by
  intro hb
  apply h
  have hl : s.toList = [] := by
    cases hd : s.toList with
    | nil => rfl
    | cons c cs =>
      exfalso
      simp only [bytesOf, hd, List.flatMap_cons, List.append_eq_nil] at hb
      have : encodeRune c.toNat ≠ [] := by
        unfold encodeRune
        split_ifs <;> simp
      exact this hb.1
  exact String.ext (by simpa using hl)

theorem queryBlockLoop_spec (r : Request) (u : URL) (hu : r.URL = some u)
    (l : List (String × String)) :
    ∃ b, QueryParamBlocker.blockLoop r l = some (b, none) ∧
      (b = true ↔ ∃ kv ∈ l, Values.Get u.Query (bytesOf kv.1) = bytesOf kv.2) := by
  induction l with
  | nil => exact ⟨false, rfl, by simp⟩
  | cons kv l ih =>
    rcases kv with ⟨k, v⟩
    by_cases h : Values.Get u.Query (bytesOf k) = bytesOf v
    · exact ⟨true, by simp [QueryParamBlocker.blockLoop, hu, h], by simp [h]⟩
    · obtain ⟨b, hb1, hb2⟩ := ih
      exact ⟨b, by simp [QueryParamBlocker.blockLoop, hu, h, hb1], by simp [h, hb2]⟩

/-- Counterexample to C19. A request whose query is empty is blocked when the
value configured for a name is the empty string; and a request whose query
holds the configured value as the second value of the configured name is not
blocked. -/
theorem C19_counterexample :
    URL.Query ⟨"", ""⟩ = [] ∧
    QueryParamBlocker.Block ⟨[("debug", "")]⟩ { newRequest "GET" with URL := some ⟨"", ""⟩ } =
      some (true, none) ∧
    (bytesOf "key", bytesOf "value") ∈ URL.Query ⟨"", "key=other&key=value"⟩ ∧
    QueryParamBlocker.Block ⟨[("key", "value")]⟩
      { newRequest "GET" with URL := some ⟨"", "key=other&key=value"⟩ } = some (false, none) := by
  decide

/-- C19 as amended: for a `ParamsMap` whose configured values are all
non-empty and a request that has a URL, `QueryParamBlocker.Block` returns
`true` exactly when, for some name of `ParamsMap`, the first value of that
name in the parsed query of the URL is the value configured for it, and
`false` otherwise, with a nil error. With an empty `ParamsMap` it returns
`false` and a nil error for every request, also one that has no URL. -/
theorem C19_query_blocker_first_value (qpb : QueryParamBlocker) (r : Request) (u : URL)
    (hne : ∀ kv ∈ qpb.ParamsMap, kv.2 ≠ "") :
    (∃ b, qpb.Block { r with URL := some u } = some (b, none) ∧
      (b = true ↔
        ∃ kv ∈ qpb.ParamsMap, u.Query.lookup (bytesOf kv.1) = some (bytesOf kv.2))) ∧
    (∀ r2 : Request, QueryParamBlocker.Block ⟨[]⟩ r2 = some (false, none)) := by
  refine ⟨?_, fun r2 => rfl⟩
  obtain ⟨b, hb1, hb2⟩ :=
    queryBlockLoop_spec { r with URL := some u } u rfl qpb.ParamsMap
  refine ⟨b, hb1, hb2.trans ?_⟩
  have key : ∀ kv ∈ qpb.ParamsMap,
      (Values.Get u.Query (bytesOf kv.1) = bytesOf kv.2 ↔
        u.Query.lookup (bytesOf kv.1) = some (bytesOf kv.2)) := by
    intro kv hkv
    have hv := bytesOf_ne_nil kv.2 (hne kv hkv)
    unfold Values.Get
    cases hl : List.lookup (bytesOf kv.1) u.Query with
    | none =>
      simp only [Option.getD_none]
      constructor
      · intro h
        exact absurd h.symm hv
      · intro h
        cases h
    | some x => simp
  constructor
  · rintro ⟨kv, hkv, h⟩
    exact ⟨kv, hkv, (key kv hkv).mp h⟩
  · rintro ⟨kv, hkv, h⟩
    exact ⟨kv, hkv, (key kv hkv).mpr h⟩

/-- Witness of the amended C19 on the case `MatchingQueryParam` of
`TestQueryParamBlocker`: the request is blocked. -/
theorem C19_query_blocker_first_value_witness :
    QueryParamBlocker.Block ⟨[("key", "value")]⟩
        { newRequest "GET" with URL := some ⟨"", "key=value"⟩ } = some (true, none) := by
  obtain ⟨b, hb, hiff⟩ :=
    (C19_query_blocker_first_value ⟨[("key", "value")]⟩ (newRequest "GET") ⟨"", "key=value"⟩
      (by decide)).1
  rw [hb, hiff.mpr ⟨("key", "value"), by decide, by decide⟩]

/-! ## The logging handler -/

theorem copyBuffer_nil (n : Nat) (w : loggingResponseWriter) : copyBuffer n w [] = w := by
  cases n <;> simp [copyBuffer]

/-- A body of more than one and at most two buffers is copied in two writes. -/
theorem copyBuffer_two_writes (n : Nat) (w : loggingResponseWriter) (data : Bytes)
    (hn : 2 ≤ n) (h1 : 32768 < data.length) (h2 : data.length ≤ 65536) :
    copyBuffer n w data = (w.Write (data.take 32768)).Write (data.drop 32768) := by
  obtain ⟨k, rfl⟩ : ∃ k, n = k + 2 := ⟨n - 2, by omega⟩
  have hd : data ≠ [] := by
    intro h
    simp [h] at h1
  have hd2 : data.drop 32768 ≠ [] := by
    intro h
    have := congrArg List.length h
    simp only [List.length_drop, List.length_nil] at this
    omega
  have hd3 : (data.drop 32768).drop 32768 = [] := by
    apply List.eq_nil_of_length_eq_zero
    simp only [List.length_drop]
    omega
  have ht : (data.drop 32768).take 32768 = data.drop 32768 := by
    apply List.take_of_length_le
    simp only [List.length_drop]
    omega
  rw [copyBuffer, if_neg hd, copyBuffer, if_neg hd2, hd3, copyBuffer_nil, ht]

/-- The logging writer keeps the slice of the last `Write` only, while the
client gets the bytes of all of them. -/
theorem Write_sequence (lrw : loggingResponseWriter) (ws : List Bytes) (w : Bytes) :
    ((ws ++ [w]).foldl loggingResponseWriter.Write lrw).body = some w ∧
    ((ws ++ [w]).foldl loggingResponseWriter.Write lrw).ResponseWriter.Body =
      lrw.ResponseWriter.Body ++ (ws ++ [w]).flatten := by
  induction ws generalizing lrw with
  | nil =>
    simp only [List.nil_append, List.foldl_cons, List.foldl_nil, loggingResponseWriter.Write,
      ResponseRecorder.Write, ResponseRecorder.WriteHeader]
    split <;> simp_all
  | cons a ws ih =>
    have h := ih (lrw.Write a)
    simp only [List.cons_append, List.foldl_cons]
    refine ⟨h.1, ?_⟩
    rw [h.2]
    have ha : (lrw.Write a).ResponseWriter.Body = lrw.ResponseWriter.Body ++ a := by
      simp only [loggingResponseWriter.Write, ResponseRecorder.Write,
        ResponseRecorder.WriteHeader]
      split <;> simp_all
    rw [ha]
    simp

theorem ServeHTTP_w_no_maskers (rp : ReverseProxy) (st : Run) (r : Request) (res : Response)
    (hmaskers : rp.Maskers = []) (hup : rp.Transport r = .ok res)
    (hread : res.Body.err = none) :
    (ServeHTTP rp st r).w =
      copyBuffer res.Body.data.length
        ((st.w.mapHeader (fun h => copyHeader h res.Header)).WriteHeader res.StatusCode)
        res.Body.data := by
  by_cases hg : r.Method = MethodGet
  · simp [ServeHTTP, hup, ModifyResponse, hg, hread, hmaskers, maskLoop]
  · simp [ServeHTTP, hup, ModifyResponse, hg]

/-- C11, the code on a response copied in two writes: for a request that no
blocker stops, through a proxy without maskers, whose upstream answers with a
readable body of more than 32768 and at most 65536 bytes, the client gets the
whole body, and the log record holds only what follows its first 32768 bytes,
the slice of the last `Write`. -/
theorem C11_log_record_keeps_last_write_only (rp : ReverseProxy) (rw : ResponseRecorder)
    (r : Request) (u : URL) (res : Response) (reqBodyBuffer : Bytes)
    (hurl : r.URL = some u)
    (hpass : ∀ b ∈ rp.Blockers, b.fires (forwarded rp r) = false)
    (hmaskers : rp.Maskers = [])
    (hup : rp.Transport (forwarded rp r) = .ok res)
    (hread : res.Body.err = none)
    (h1 : 32768 < res.Body.data.length) (h2 : res.Body.data.length ≤ 65536) :
    (loggingFn rp rw r reqBodyBuffer).1.clientBody = rw.Body ++ res.Body.data ∧
    (loggingFn rp rw r reqBodyBuffer).2.responseBody = some (res.Body.data.drop 32768) := by
  have hs := blockerLoop_spec rp rp.Blockers (Run.start (loggingResponseWriter.new rw))
    (forwarded rp r)
  rw [find_none_of_pass _ _ hpass] at hs
  have hrun : (loggingFn rp rw r reqBodyBuffer).1 =
      ServeHTTP rp ⟨loggingResponseWriter.new rw, [], rp.Blockers, [], []⟩
        (forwarded rp r) := by
    simpa [loggingFn, proxyHandlerFunc, forwarded, Run.start] using hs
  have hserve : (loggingFn rp rw r reqBodyBuffer).1.w =
      loggingResponseWriter.Write
        (loggingResponseWriter.Write
          (((loggingResponseWriter.new rw).mapHeader
            (fun h => copyHeader h res.Header)).WriteHeader res.StatusCode)
          (res.Body.data.take 32768))
        (res.Body.data.drop 32768) := by
    rw [hrun, ServeHTTP_w_no_maskers rp _ _ res hmaskers hup hread,
      copyBuffer_two_writes _ _ _ (by omega) h1 h2]
  constructor
  · rw [Run.clientBody, hserve]
    have := (Write_sequence
      (((loggingResponseWriter.new rw).mapHeader
        (fun h => copyHeader h res.Header)).WriteHeader res.StatusCode)
      [res.Body.data.take 32768] (res.Body.data.drop 32768)).2
    simp only [List.cons_append, List.nil_append, List.foldl_cons, List.foldl_nil] at this
    rw [this]
    have hb : (((loggingResponseWriter.new rw).mapHeader
        (fun h => copyHeader h res.Header)).WriteHeader res.StatusCode).ResponseWriter.Body =
        rw.Body := by
      simp only [loggingResponseWriter.WriteHeader, loggingResponseWriter.mapHeader,
        loggingResponseWriter.new, ResponseRecorder.WriteHeader]
      split <;> rfl
    rw [hb]
    simp
  · have hlog : (loggingFn rp rw r reqBodyBuffer).2 =
        logGoroutine (loggingFn rp rw r reqBodyBuffer).1.w (forwarded rp r) reqBodyBuffer := rfl
    rw [hlog, hserve]
    have hu : (forwarded rp r).URL = some u := hurl
    simp [logGoroutine, loggingResponseWriter.Write, hu, Logged.responseBody]

/-- Witness of C11: an upstream body of 32769 bytes. -/
theorem C11_log_record_keeps_last_write_only_witness :
    (loggingFn
        ⟨"127.0.0.1:9000", 8080, [], [],
          fun _ => .ok ⟨200, Header.empty, ⟨List.replicate 32769 120, none⟩⟩⟩
        ResponseRecorder.new (newRequest "GET") []).2.responseBody =
      some ((List.replicate 32769 120).drop 32768) :=
  (C11_log_record_keeps_last_write_only
    ⟨"127.0.0.1:9000", 8080, [], [],
      fun _ => .ok ⟨200, Header.empty, ⟨List.replicate 32769 120, none⟩⟩⟩
    ResponseRecorder.new (newRequest "GET") ⟨"", ""⟩
    ⟨200, Header.empty, ⟨List.replicate 32769 120, none⟩⟩ []
    rfl (fun _ hb => absurd hb (List.not_mem_nil _)) rfl rfl rfl
    (by rw [List.length_replicate]; decide) (by rw [List.length_replicate]; decide)).2

/-- C12, the code at a failing input: a GET request through a proxy without
blockers and maskers whose upstream answers 200 with an empty body. The
handler writes the status and calls `Write` not once, `lrw.body` stays nil,
and the logging goroutine stops in a panic without a record. -/
theorem C12_log_goroutine_panics_without_write :
    (loggingFn
        ⟨"127.0.0.1:9000", 8080, [], [], fun _ => .ok ⟨200, Header.empty, ⟨[], none⟩⟩⟩
        ResponseRecorder.new (newRequest "GET") []).1.w.body = none ∧
    (loggingFn
        ⟨"127.0.0.1:9000", 8080, [], [], fun _ => .ok ⟨200, Header.empty, ⟨[], none⟩⟩⟩
        ResponseRecorder.new (newRequest "GET") []).1.status = 200 ∧
    (loggingFn
        ⟨"127.0.0.1:9000", 8080, [], [], fun _ => .ok ⟨200, Header.empty, ⟨[], none⟩⟩⟩
        ResponseRecorder.new (newRequest "GET") []).2 =
      Logged.panic "invalid memory address or nil pointer dereference" := by
  decide

/-! ## Start -/

/-- Counterexample to C13: when `ListenAndServe` fails to bind the port,
`Start` has returned a nil error. -/
theorem C13_counterexample :
    (Start (testProxy [] [])
      (some ⟨ErrorType.netOpError, "listen tcp :8080: bind: address already in use"⟩)).err =
      none := by
  decide

/-- C13 as amended: `Start` returns a nil error whatever `ListenAndServe`
does; when the port cannot be bound, the failure is reported by the serving
goroutine, which logs it at the fatal level, and that ends the process. -/
theorem C13_start_returns_nil_and_logs_fatal (rp : ReverseProxy) (e : GoError)
    (hbind : e ≠ ErrServerClosed) :
    (∀ listenErr, (Start rp listenErr).err = none) ∧
    (Start rp (some e)).serverLog = [LogEntry.mk "fatal" "server error" [("error", e.text)]] ∧
    (Start rp (some e)).exits = true := by
  refine ⟨fun _ => rfl, ?_, ?_⟩ <;> simp [Start, serveGoroutine, hbind]

/-- Witness of the amended C13 on a bind failure. -/
theorem C13_start_returns_nil_and_logs_fatal_witness :
    (Start (testProxy [] [])
      (some ⟨ErrorType.netOpError, "listen tcp :8080: bind: address already in use"⟩)).exits =
      true :=
  (C13_start_returns_nil_and_logs_fatal (testProxy [] [])
    ⟨ErrorType.netOpError, "listen tcp :8080: bind: address already in use"⟩
    (by decide)).2.2

/-! ## What a match of the credit card pattern is made of -/

theorem decodeRune_ascii_inv (c : Nat) (s : Bytes) (r w : Nat)
    (h : decodeRune (c :: s) = (r, w)) (hr : r < 128) : r = c ∧ w = 1 := by
  by_cases hc : c < 128
  · rw [decodeRune_ascii c s hc] at h
    simp only [Prod.mk.injEq] at h
    exact ⟨h.1.symm, h.2.symm⟩
  · exfalso
    simp only [decodeRune, hc, if_false] at h
    revert h
    simp only [RuneError]
    split_ifs <;> (try split) <;> (try split_ifs) <;>
      simp only [Prod.mk.injEq] <;> intro h <;> omega

theorem decodeRune_width_zero (s : Bytes) (r : Nat) (h : decodeRune s = (r, 0)) : s = [] := by
  cases s with
  | nil => rfl
  | cons c s =>
    exfalso
    simp only [decodeRune] at h
    revert h
    split_ifs <;> (try split) <;> (try split_ifs) <;>
      simp only [Prod.mk.injEq] <;> intro h <;> omega

theorem starLoop_consumes (q : Nat → Bool) (step : Bytes → List Bytes)
    (hstep : ∀ s t, t ∈ step s → ∃ m, s = m ++ t ∧ m.all q = true) :
    ∀ (n : Nat) (s t : Bytes), t ∈ Regex.starLoop step n s →
      ∃ m, s = m ++ t ∧ m.all q = true := by
  intro n
  induction n with
  | zero =>
    intro s t ht
    simp only [Regex.starLoop, List.mem_singleton] at ht
    exact ⟨[], by simp [ht], rfl⟩
  | succ n ih =>
    intro s t ht
    simp only [Regex.starLoop, List.mem_append, List.mem_flatMap, List.mem_singleton] at ht
    rcases ht with ⟨u, hu, htu⟩ | ht
    · obtain ⟨m1, h1, hq1⟩ := hstep s u hu
      obtain ⟨m2, h2, hq2⟩ := ih u t htu
      exact ⟨m1 ++ m2, by rw [h1, h2, List.append_assoc], by simp [List.all_append, hq1, hq2]⟩
    · exact ⟨[], by simp [ht], rfl⟩

theorem lazyStarLoop_consumes (q : Nat → Bool) (step : Bytes → List Bytes)
    (hstep : ∀ s t, t ∈ step s → ∃ m, s = m ++ t ∧ m.all q = true) :
    ∀ (n : Nat) (s t : Bytes), t ∈ Regex.lazyStarLoop step n s →
      ∃ m, s = m ++ t ∧ m.all q = true := by
  intro n
  induction n with
  | zero =>
    intro s t ht
    simp only [Regex.lazyStarLoop, List.mem_singleton] at ht
    exact ⟨[], by simp [ht], rfl⟩
  | succ n ih =>
    intro s t ht
    simp only [Regex.lazyStarLoop, List.mem_cons, List.mem_flatMap] at ht
    rcases ht with ht | ⟨u, hu, htu⟩
    · exact ⟨[], by simp [ht], rfl⟩
    · obtain ⟨m1, h1, hq1⟩ := hstep s u hu
      obtain ⟨m2, h2, hq2⟩ := ih u t htu
      exact ⟨m1 ++ m2, by rw [h1, h2, List.append_assoc], by simp [List.all_append, hq1, hq2]⟩

/-- A pattern whose classes hold only of ASCII runes of the class `q` matches
only strings of bytes of `q`. -/
theorem run_consumes (q : Nat → Bool) (hq : ∀ r, q r = true → r < 128) :
    ∀ (re : Regex), re.classesIn q → ∀ (s t : Bytes), t ∈ Regex.run re s →
      ∃ m, s = m ++ t ∧ m.all q = true := by
  intro re
  induction re with
  | empty =>
    intro _ s t ht
    simp only [Regex.run, List.mem_singleton] at ht
    exact ⟨[], by simp [ht], rfl⟩
  | cls p =>
    intro hp s t ht
    simp only [Regex.classesIn] at hp
    cases s with
    | nil => simp [Regex.run, decodeRune] at ht
    | cons c s =>
      simp only [Regex.run] at ht
      split at ht
      · simp at ht
      · rename_i r w hw hdec
        split at ht
        · rename_i hpr
          have hqr := hp r hpr
          obtain ⟨hrc, hw1⟩ := decodeRune_ascii_inv c s r w hdec (hq r hqr)
          simp only [List.mem_singleton] at ht
          subst hrc hw1
          exact ⟨[r], by simp [ht], by simp [hqr]⟩
        · simp at ht
  | cat a b iha ihb =>
    intro hc s t ht
    simp only [Regex.classesIn] at hc
    simp only [Regex.run, List.mem_flatMap] at ht
    obtain ⟨u, hu, htu⟩ := ht
    obtain ⟨m1, h1, hq1⟩ := iha hc.1 s u hu
    obtain ⟨m2, h2, hq2⟩ := ihb hc.2 u t htu
    exact ⟨m1 ++ m2, by rw [h1, h2, List.append_assoc], by simp [List.all_append, hq1, hq2]⟩
  | quest a iha =>
    intro hc s t ht
    simp only [Regex.classesIn] at hc
    simp only [Regex.run, List.mem_append, List.mem_singleton] at ht
    rcases ht with ht | ht
    · exact iha hc s t ht
    · exact ⟨[], by simp [ht], rfl⟩
  | star a iha =>
    intro hc s t ht
    simp only [Regex.classesIn] at hc
    simp only [Regex.run] at ht
    exact starLoop_consumes q _ (iha hc) _ s t ht
  | lazyStar a iha =>
    intro hc s t ht
    simp only [Regex.classesIn] at hc
    simp only [Regex.run] at ht
    exact lazyStarLoop_consumes q _ (iha hc) _ s t ht

theorem classesIn_nest (q : Nat → Bool) (a : Regex) (ha : a.classesIn q) :
    ∀ k, (Regex.nest a k).classesIn q := by
  intro k
  induction k with
  | zero => simp [Regex.nest, Regex.classesIn]
  | succ k ih => exact ⟨ha, ih⟩

theorem classesIn_power (q : Nat → Bool) (a tail : Regex) (ha : a.classesIn q)
    (ht : tail.classesIn q) : ∀ k, (Regex.power a k tail).classesIn q := by
  intro k
  induction k with
  | zero => exact ht
  | succ k ih => exact ⟨ha, ih⟩

theorem creditCard_classesIn :
    creditCardBaseRegexp.classesIn (fun b => isDigit b || isSeparator b) := by
  have ha : Regex.classesIn (fun b => isDigit b || isSeparator b)
      (.cat (.cls isDigit) (.lazyStar (.cls isSeparator))) := by
    constructor
    · intro r hr
      simp [hr]
    · intro r hr
      simp [hr]
  exact classesIn_power _ _ _ ha (classesIn_nest _ _ ha _) _

/-- Every match of the credit card pattern is a string of digits, spaces and
hyphens. -/
theorem creditCard_match_bytes (s t : Bytes) (ht : creditCardBaseRegexp.matchAt s = some t) :
    ∃ m, s = m ++ t ∧ m.all (fun b => isDigit b || isSeparator b) = true := by
  apply run_consumes (fun b => isDigit b || isSeparator b) _ _ creditCard_classesIn s t
  · exact List.mem_of_mem_head? ht
  · intro r hr
    simp only [Bool.or_eq_true] at hr
    rcases hr with h | h
    · exact isDigit_lt r h
    · exact isSeparator_lt r h

/-! ## Masking keeps the length and the bytes that are no digits -/

theorem maskedFrom_refl (s : Bytes) : maskedFrom s s := by
  induction s with
  | nil => exact List.Forall₂.nil
  | cons a s ih => exact List.Forall₂.cons (Or.inl rfl) ih

theorem maskedFrom_append (a b c d : Bytes) (h1 : maskedFrom a b) (h2 : maskedFrom c d) :
    maskedFrom (a ++ c) (b ++ d) := by
  induction h1 with
  | nil => exact h2
  | cons hab _ ih => exact List.Forall₂.cons hab ih

theorem maskedFrom_starDigits (s : Bytes) : maskedFrom s (starDigits s) := by
  induction s with
  | nil => exact List.Forall₂.nil
  | cons a s ih =>
    refine List.Forall₂.cons ?_ ih
    by_cases ha : isDigit a = true
    · right
      simp [ha]
    · left
      simp [ha]

theorem maskedFrom_maskCandidate (m : Bytes)
    (hm : m.all (fun b => isDigit b || isSeparator b) = true) :
    maskedFrom m (maskCandidate m) := by
  unfold maskCandidate
  split
  · have hascii : ∀ b ∈ m, b < 128 := by
      intro b hb
      have := List.all_eq_true.mp hm b hb
      simp only [Bool.or_eq_true] at this
      rcases this with h | h
      · exact isDigit_lt b h
      · exact isSeparator_lt b h
    rw [maskCreditCard_ascii m hascii]
    exact maskedFrom_starDigits m
  · exact maskedFrom_refl m

theorem maskedFrom_copy_rune (re : Regex) (repl : Bytes → Bytes) (n : Nat) (src : Bytes)
    (ih : ∀ s, maskedFrom s (ReplaceAllStringFunc re repl n s)) :
    maskedFrom src
      (match decodeRune src with
       | (_, 0) => []
       | (_, w) => src.take w ++ ReplaceAllStringFunc re repl n (src.drop w)) := by
  split
  · rename_i r hdec
    rw [decodeRune_width_zero src r hdec]
    exact List.Forall₂.nil
  · rename_i r w _ _
    have := maskedFrom_append _ _ _ _ (maskedFrom_refl (src.take w)) (ih (src.drop w))
    rwa [List.take_append_drop] at this

theorem maskedFrom_ReplaceAll (n : Nat) :
    ∀ src, maskedFrom src
      (ReplaceAllStringFunc creditCardBaseRegexp maskCandidate n src) := by
  induction n with
  | zero => intro src; exact maskedFrom_refl src
  | succ n ih =>
    intro src
    unfold ReplaceAllStringFunc
    split
    · rename_i rest hrest
      split
      · rename_i hlt
        obtain ⟨m, hsrc, hm⟩ := creditCard_match_bytes src rest hrest
        have htake : src.take (src.length - rest.length) = m := by
          rw [hsrc]
          simp
        rw [htake]
        have := maskedFrom_append _ _ _ _ (maskedFrom_maskCandidate m hm) (ih rest)
        rwa [← hsrc] at this
      · exact maskedFrom_copy_rune _ _ n src ih
    · exact maskedFrom_copy_rune _ _ n src ih

theorem maskedFrom_getD (src out : Bytes) (h : maskedFrom src out) :
    ∀ i, out.getD i 0 = src.getD i 0 ∨ (isDigit (src.getD i 0) = true ∧ out.getD i 0 = 42) := by
  induction h with
  | nil => intro i; left; rfl
  | cons hab _ ih =>
    intro i
    cases i with
    | zero => simpa using hab
    | succ i => simpa using ih i

/-- C15: for every input text, `CreditCardMasker.Mask` returns a nil error and
an output of the same length as the input in which each position holds the
byte of the input, or `*` where the input holds an ASCII digit; a byte that is
no digit, such as a space or a hyphen, is never altered. -/
theorem C15_mask_keeps_length_and_non_digits (text : Bytes) :
    (CreditCardMasker.Mask text).2 = none ∧
    (CreditCardMasker.Mask text).1.length = text.length ∧
    maskedFrom text (CreditCardMasker.Mask text).1 ∧
    (∀ i, (CreditCardMasker.Mask text).1.getD i 0 = text.getD i 0 ∨
      (isDigit (text.getD i 0) = true ∧ (CreditCardMasker.Mask text).1.getD i 0 = 42)) := by
  have h := maskedFrom_ReplaceAll text.length text
  exact ⟨rfl, (List.Forall₂.length_eq h).symm, h, maskedFrom_getD _ _ h⟩

/-! ## Texts the email pattern does not match -/

theorem foldCase_isLowerAlnum (r : Nat) : foldCase isLowerAlnum r = isEdgeRune r := by
  by_cases hr : r < 128
  · have : ∀ r < 128, foldCase isLowerAlnum r = isEdgeRune r := by decide
    exact this r hr
  · have h1 : isLetter r = false := by simp [isLetter]; omega
    have h2 : isDigit r = false := by simp [isDigit]; omega
    simp only [isEdgeRune, h1, h2, Bool.false_or, foldCase, foldOrbit]
    by_cases hk : r = 0x212A
    · subst hk
      decide
    · by_cases hs : r = 0x17F
      · subst hs
        decide
      · have e1 : ¬ (r = 75 ∨ r = 107 ∨ r = 0x212A) := by omega
        have e2 : ¬ (r = 83 ∨ r = 115 ∨ r = 0x17F) := by omega
        have e3 : ¬ (65 ≤ r ∧ r ≤ 90) := by omega
        have e4 : ¬ (97 ≤ r ∧ r ≤ 122) := by omega
        simp only [e1, e2, e3, e4, if_false, List.any_cons, List.any_nil, Bool.or_false]
        have h3 : isLowerAlnum r = false := by simp [isLowerAlnum]; omega
        simp [h3, hk, hs]

theorem foldCase_at (r : Nat) (h : foldCase (fun x => x == 64) r = true) : r = 64 := by
  simp only [foldCase, foldOrbit] at h
  split_ifs at h <;> simp at h <;> omega

theorem run_cls_of_false (p : Nat → Bool) (s : Bytes) (h : p (decodeRune s).1 = false) :
    Regex.run (.cls p) s = [] := by
  simp only [Regex.run]
  split
  · rfl
  · rename_i r w _ hdec
    rw [hdec] at h
    simp only at h
    simp [h]

theorem run_domain_of_edge_nil (t : Bytes) (h : Regex.run edgeRegexp t = []) :
    Regex.run domainRegexp t = [] := by
  rw [domainRegexp, run_cat, Regex.plus, run_cat, run_cat, labelRegexp, run_cat, h]
  rfl

theorem run_domain_of_labelDot_nil (t : Bytes)
    (h : Regex.run (.cat labelRegexp dotRegexp) t = []) :
    Regex.run domainRegexp t = [] := by
  rw [domainRegexp, run_cat, Regex.plus, run_cat, h]
  rfl

/-- The email pattern matches at the start of `s` only if some `@` of `s` is
followed by a match of the domain pattern. -/
theorem run_email_nil_of (s : Bytes)
    (h : ∀ t, (64 :: t) <:+ s → Regex.run domainRegexp t = []) :
    Regex.run emailRegexp s = [] := by
  rw [emailRegexp, run_cat, List.flatMap_eq_nil_iff]
  intro u hu
  have hsuf := run_suffix _ s u hu
  rw [run_cat, List.flatMap_eq_nil_iff]
  intro v hv
  cases u with
  | nil => simp [atRegexp, run_cls_nil] at hv
  | cons c u =>
    simp only [atRegexp, Regex.run] at hv
    split at hv
    · simp at hv
    · rename_i r w _ hdec
      split at hv
      · rename_i hr
        have h64 := foldCase_at r hr
        obtain ⟨hc, hw⟩ := decodeRune_ascii_inv c u r w hdec (by omega)
        simp only [List.mem_singleton] at hv
        subst hw
        rw [hv]
        simp only [List.drop_succ_cons, List.drop_zero]
        apply h
        rw [← h64, hc]
        exact hsuf
      · simp at hv

/-- Where the pattern matches at no place of the text, the text is returned
as it is. -/
theorem ReplaceAllStringFunc_no_match (re : Regex) (repl : Bytes → Bytes) :
    ∀ (n : Nat) (src : Bytes), (∀ t, t <:+ src → Regex.run re t = []) →
      ReplaceAllStringFunc re repl n src = src := by
  intro n
  induction n with
  | zero => intro src _; rfl
  | succ n ih =>
    intro src h
    have hm : re.matchAt src = none := by
      rw [Regex.matchAt, h src (List.suffix_refl _)]
      rfl
    simp only [ReplaceAllStringFunc, hm]
    split
    · rename_i r hdec
      exact (decodeRune_width_zero src r hdec).symm
    · rename_i r w _ _
      rw [ih (src.drop w) (fun t ht => h t (ht.trans (List.drop_suffix _ _))),
        List.take_append_drop]

theorem atBeforeRune_suffix (p : Nat → Bool) :
    ∀ (s t : Bytes), atBeforeRune p s = false → (64 :: t) <:+ s →
      p (decodeRune t).1 = false := by
  intro s
  induction s with
  | nil =>
    intro t _ ht
    simp at ht
  | cons b s ih =>
    intro t h ht
    simp only [atBeforeRune, Bool.or_eq_false_iff, Bool.and_eq_false_iff] at h
    rcases List.suffix_cons_iff.mp ht with heq | hsuf
    · simp only [List.cons.injEq] at heq
      rcases h.1 with hb | hp
      · simp [← heq.1] at hb
      · rw [heq.2]
        exact hp
    · exact ih t h.2 hsuf

/-- Counterexample to C16: in `x@ſ.com` the `@` is followed by the long s
(U+017F), which is no ASCII letter or digit, yet `Mask` rewrites the text:
under `(?i)` the class `[a-z0-9]` takes the long s. -/
theorem C16_counterexample :
    atBeforeRune (fun r => isLetter r || isDigit r) (bytesOf "x@ſ.com") = false ∧
    EmailMasker.Mask (bytesOf "x@ſ.com") = (bytesOf "****@ſ.com", none) ∧
    (EmailMasker.Mask (bytesOf "x@ſ.com")).1 ≠ bytesOf "x@ſ.com" := by
  decide

/-- C16 as amended: for every text in which no `@` is immediately followed by
an ASCII letter or digit, by the long s (U+017F) or by the Kelvin sign
(U+212A), `EmailMasker.Mask` returns a nil error and the text unchanged. -/
theorem C16_text_without_address_unchanged (text : Bytes)
    (h : atBeforeRune isEdgeRune text = false) :
    EmailMasker.Mask text = (text, none) := by
  rw [EmailMasker.Mask, ReplaceAllStringFunc_no_match]
  intro t ht
  apply run_email_nil_of
  intro u hu
  apply run_domain_of_edge_nil
  rw [edgeRegexp]
  apply run_cls_of_false
  rw [foldCase_isLowerAlnum]
  exact atBeforeRune_suffix isEdgeRune text u h (hu.trans ht)

/-- Witness of the amended C16 on the texts of the tests: a text that ends in
`test@`, a text without `@`, and the empty text. -/
theorem C16_text_without_address_unchanged_witness :
    EmailMasker.Mask (bytesOf "This is not a valid email address: test@") =
      (bytesOf "This is not a valid email address: test@", none) ∧
    EmailMasker.Mask (bytesOf "This is a sample text without any email addresses.") =
      (bytesOf "This is a sample text without any email addresses.", none) ∧
    EmailMasker.Mask [] = ([], none) :=
  ⟨C16_text_without_address_unchanged _ (by decide),
   C16_text_without_address_unchanged _ (by decide),
   C16_text_without_address_unchanged [] (by decide)⟩

/-! ## A domain of one label -/

theorem run_labelDot_none (l : Bytes) (hall : ∀ x ∈ l, isLabelByte x = true) :
    Regex.run (.cat labelRegexp dotRegexp) l = [] := by
  rw [run_cat, List.flatMap_eq_nil_iff]
  intro t ht
  have hsuf := run_suffix labelRegexp l t ht
  cases t with
  | nil => exact run_cls_nil _
  | cons c t =>
    have hc : c ∈ l := hsuf.subset (List.mem_cons_self _ _)
    exact run_dotRegexp_label c t (hall c hc)

theorem suffix_at_unique (label : Bytes) (hlabel : ∀ x ∈ label, x ≠ 64) :
    ∀ (loc t : Bytes), (∀ x ∈ loc, x ≠ 64) → (64 :: t) <:+ loc ++ 64 :: label → t = label := by
  intro loc
  induction loc with
  | nil =>
    intro t _ ht
    rcases List.suffix_cons_iff.mp ht with heq | hsuf
    · simp only [List.cons.injEq, true_and] at heq
      exact heq
    · exact absurd rfl (hlabel 64 (hsuf.subset (List.mem_cons_self _ _)))
  | cons c loc ih =>
    intro t hloc ht
    rcases List.suffix_cons_iff.mp ht with heq | hsuf
    · simp only [List.cons_append, List.cons.injEq] at heq
      exact absurd heq.1.symm (hloc c (List.mem_cons_self _ _))
    · exact ih t (fun x hx => hloc x (List.mem_cons_of_mem _ hx)) hsuf

/-- Counterexample to C17: `user@localhost` is returned unchanged, not as
`****@localhost`. -/
theorem C17_counterexample :
    EmailMasker.Mask (bytesOf "user@localhost") = (bytesOf "user@localhost", none) ∧
    (EmailMasker.Mask (bytesOf "user@localhost")).1 ≠ bytesOf "****@localhost" := by
  decide

/-- C17 as amended: the email masker takes only a domain of two or more
labels joined by dots as a match. For a text that is exactly `local@label`,
with `local` a string of the bytes of the local class and `label` one label of
ASCII letters and digits without a dot, `EmailMasker.Mask` returns a nil error
and the text unchanged. -/
theorem C17_single_label_domain_unchanged (loc label : Bytes)
    (hloc : loc.all isLocalByte = true) (hlabel : label.all isLabelEdge = true) :
    EmailMasker.Mask (loc ++ 64 :: label) = (loc ++ 64 :: label, none) := by
  have hl1 : ∀ x ∈ label, isLabelByte x = true := by
    intro x hx
    simp [isLabelByte, List.all_eq_true.mp hlabel x hx]
  have hl2 : ∀ x ∈ label, x ≠ 64 := by
    intro x hx h64
    have := List.all_eq_true.mp hlabel x hx
    rw [h64] at this
    exact absurd this (by decide)
  have hloc2 : ∀ x ∈ loc, x ≠ 64 := by
    intro x hx
    have hb := List.all_eq_true.mp hloc x hx
    exact (local_class_ascii x (isLocalByte_lt x hb) hb).2
  rw [EmailMasker.Mask, ReplaceAllStringFunc_no_match]
  intro t ht
  apply run_email_nil_of
  intro u hu
  rw [suffix_at_unique label hl2 loc u hloc2 (hu.trans ht)]
  exact run_domain_of_labelDot_nil label (run_labelDot_none label hl1)

/-- Witness of the amended C17 on `user@localhost`. -/
theorem C17_single_label_domain_unchanged_witness :
    EmailMasker.Mask (bytesOf "user@localhost") = (bytesOf "user@localhost", none) :=
  C17_single_label_domain_unchanged (bytesOf "user") (bytesOf "localhost")
    (by decide) (by decide)

/-! ## Shutdown, construction, and what masking leaves alone -/

theorem cancelTimes_stopped (n : Nat) (k : Nat) :
    cancelTimes n ⟨false, k⟩ = (List.replicate n Call.blocked, ⟨false, k⟩) := by
  induction n with
  | zero => rfl
  | succ n ih => simp [cancelTimes, cancel, ih, List.replicate_succ]

/-- Counterexample to C21: the second call of `cancel` does not return. -/
theorem C21_counterexample :
    (cancelTimes 2 ShutdownGoroutine.started).1 = [Call.returned, Call.blocked] ∧
    (cancel (cancel ShutdownGoroutine.started).2).1 ≠ Call.returned := by
  decide

/-- C21 as amended: after `Start`, the first call of `cancel` returns and sets
the shutdown going, once; no later call sets anything going, but a later call
does not return to its caller: it blocks on the send to the channel, whose one
receive has been done. -/
theorem C21_only_first_cancel_shuts_down (n : Nat) :
    cancelTimes (n + 1) ShutdownGoroutine.started =
      (Call.returned :: List.replicate n Call.blocked, ⟨false, 1⟩) := by
  simp [cancelTimes, cancel, ShutdownGoroutine.started, cancelTimes_stopped]

/-- Counterexample to C22: a proxy built by `New`, which no argument asks to
skip the verification, does not verify the certificate of the upstream. -/
theorem C22_counterexample :
    (New "https://upstream.example" 8080 [] [] (fun _ => .ok "upstream.example")
      targetServer).map (fun p => p.2.verifiesCertificates) = .ok false := by
  rfl

/-- C22 as amended: skipping the verification of the upstream certificate is
not an option but what every proxy does: whatever the arguments of `New`, when
`New` returns a proxy its transport has `InsecureSkipVerify` set (and
compression disabled), so it does not verify the certificate. -/
theorem C22_new_always_skips_verification (targetURL : String) (reverseProxyPort : Nat)
    (m : List Masker) (b : List Blocker) (parse : String → Except GoError String)
    (upstream : Request → Except GoError Response) :
    match New targetURL reverseProxyPort m b parse upstream with
    | .error err => parse targetURL = .error err
    | .ok p =>
      p.2.TLSClientConfig = some ⟨true⟩ ∧ p.2.DisableCompression = true ∧
      p.2.verifiesCertificates = false := by
  unfold New
  cases parse targetURL with
  | error err => rfl
  | ok host => exact ⟨rfl, rfl, rfl⟩

theorem ModifyResponse_keeps_status_and_header (rp : ReverseProxy) (st : Run) (req : Request)
    (r : Response) :
    (ModifyResponse rp st req r).2.1.StatusCode = r.StatusCode ∧
    (ModifyResponse rp st req r).2.1.Header = r.Header := by
  unfold ModifyResponse
  split
  · split
    · exact ⟨rfl, rfl⟩
    · split <;> exact ⟨rfl, rfl⟩
  · exact ⟨rfl, rfl⟩

/-- C24: for a GET request, `ModifyResponse` leaves the status code and every
header of the response, `Content-Length` included, as the upstream sent them,
whatever the maskers do to the body; when the maskers pass, the body is their
chain on the upstream body, of whatever length. -/
theorem C24_masking_changes_only_the_body (rp : ReverseProxy) (st : Run) (req : Request)
    (r : Response) (hget : req.Method = MethodGet) (hread : r.Body.err = none)
    (hmask : chainPasses rp.Maskers r.Body.data = true) :
    (ModifyResponse rp st req r).2.1.StatusCode = r.StatusCode ∧
    (ModifyResponse rp st req r).2.1.Header = r.Header ∧
    (ModifyResponse rp st req r).2.1.Header.Get "Content-Length" =
      r.Header.Get "Content-Length" ∧
    (ModifyResponse rp st req r).2.1.Body.data = chain rp.Maskers r.Body.data := by
  have h := ModifyResponse_keeps_status_and_header rp st req r
  refine ⟨h.1, h.2, by rw [h.2], ?_⟩
  simp [ModifyResponse, hget, hread, maskLoop_passes _ _ _ hmask]

/-- Witness of C24 on the test `Test Masker`: the upstream sends `Hello World`
with `Content-Length: 11`, the masker returns `Masked`; the header stays `11`
next to a body of 6 bytes. -/
theorem C24_masking_changes_only_the_body_witness :
    (ModifyResponse (testProxy [MockMasker (fun _ => (bytesOf "Masked", none))] [])
        (Run.start (loggingResponseWriter.new ResponseRecorder.new)) (newRequest "GET")
        ⟨200, ⟨[("Content-Length", ["11"])]⟩, ⟨bytesOf "Hello World", none⟩⟩).2.1.Header.Get
        "Content-Length" = "11" ∧
    (ModifyResponse (testProxy [MockMasker (fun _ => (bytesOf "Masked", none))] [])
        (Run.start (loggingResponseWriter.new ResponseRecorder.new)) (newRequest "GET")
        ⟨200, ⟨[("Content-Length", ["11"])]⟩, ⟨bytesOf "Hello World", none⟩⟩).2.1.Body.data.length
        = 6 :=
  have h := C24_masking_changes_only_the_body
    (testProxy [MockMasker (fun _ => (bytesOf "Masked", none))] [])
    (Run.start (loggingResponseWriter.new ResponseRecorder.new)) (newRequest "GET")
    ⟨200, ⟨[("Content-Length", ["11"])]⟩, ⟨bytesOf "Hello World", none⟩⟩
    (by decide) rfl (by decide)
  ⟨h.2.2.1.trans (by decide), (congrArg List.length h.2.2.2).trans (by decide)⟩

/-! ## The domain of an email, for any local part -/

/-- A rune that starts before the first `@` of a string ends before it and is
no `@`: the bytes a rune takes after its first are continuation bytes. -/
theorem decodeRune_before_at (c : Nat) (l rest : Bytes) (hc : c ≠ 64) (hl : 64 ∉ l) :
    (decodeRune (c :: l ++ 64 :: rest)).1 ≠ 64 ∧
    1 ≤ (decodeRune (c :: l ++ 64 :: rest)).2 ∧
    (decodeRune (c :: l ++ 64 :: rest)).2 ≤ l.length + 1 := by
  have h64 : isCont 64 = false := by decide
  by_cases hc128 : c < 0x80
  · simp [decodeRune, hc128, hc]
  · rcases l with _ | ⟨b1, _ | ⟨b2, _ | ⟨b3, l⟩⟩⟩
    · simp only [List.cons_append, List.nil_append, decodeRune, hc128, if_false, h64,
        List.length_nil, RuneError]
      split_ifs <;> (try split) <;> (try split_ifs) <;> simp_all <;> omega
    · simp only [List.cons_append, List.nil_append, decodeRune, hc128, if_false, h64,
        List.length_cons, List.length_nil, RuneError]
      split_ifs <;> (try split) <;> (try split_ifs) <;> simp_all <;> omega
    · simp only [List.cons_append, List.nil_append, decodeRune, hc128, if_false, h64,
        List.length_cons, List.length_nil, RuneError]
      split_ifs <;> simp_all <;> omega
    · simp only [List.cons_append, decodeRune, hc128, if_false,
        List.length_cons, RuneError]
      split_ifs <;> simp_all <;> omega

theorem indexOfAt_no_at (rest : Bytes) :
    ∀ (n : Nat) (loc : Bytes) (i : Nat), loc.length + 1 ≤ n → 64 ∉ loc →
      indexOfAt n (loc ++ 64 :: rest) i = some (i + loc.length) := by
  intro n
  induction n with
  | zero => intro loc i hn; simp at hn
  | succ n ih =>
    intro loc i hn hloc
    cases loc with
    | nil => simp [indexOfAt, decodeRune_ascii 64 rest (by decide)]
    | cons c l =>
      have hc : c ≠ 64 := fun h => hloc (by simp [h])
      have hl : 64 ∉ l := fun h => hloc (List.mem_cons_of_mem _ h)
      obtain ⟨h1, h2, h3⟩ := decodeRune_before_at c l rest hc hl
      rcases hdec : decodeRune (c :: l ++ 64 :: rest) with ⟨r, w⟩
      rw [hdec] at h1 h2 h3
      simp only at h1 h2 h3
      obtain ⟨k, rfl⟩ : ∃ k, w = k + 1 := ⟨w - 1, by omega⟩
      have hdrop : List.drop (k + 1) (c :: l ++ 64 :: rest) = l.drop k ++ 64 :: rest := by
        rw [List.cons_append, List.drop_succ_cons, List.drop_append_of_le_length (by omega)]
      simp only [List.cons_append] at hdec
      simp only [List.cons_append, indexOfAt, hdec, h1, if_false]
      simp only [List.cons_append] at hdrop
      rw [hdrop, ih (l.drop k) (i + (k + 1))
        (by simp only [List.length_drop, List.length_cons] at hn ⊢; omega)
        (fun h => hl (List.mem_of_mem_drop h))]
      simp only [List.length_drop, List.length_cons, Option.some.injEq]
      omega

theorem getDomainFromEmail_no_at (loc domain : Bytes) (hloc : 64 ∉ loc) :
    getDomainFromEmail (loc ++ 64 :: domain) = domain := by
  have hi := indexOfAt_no_at domain (loc ++ 64 :: domain).length loc 0 (by simp) hloc
  simp only [getDomainFromEmail, hi, Nat.zero_add]
  by_cases hd : domain = []
  · simp [hd]
  · have hlen : 0 < domain.length := List.length_pos.mpr hd
    have hne : ¬ (loc.length + 1 = (loc ++ 64 :: domain).length) := by
      simp only [List.length_append, List.length_cons]
      omega
    simp only [hne, if_false]
    rw [List.drop_append_eq_append_drop]
    simp

/-- C23: for every string `local` that holds no `@` and every string `domain`,
`maskEmail(local + "@" + domain)` is `****@` followed by `domain`; so two
emails with the same domain have the same masked form, which shows neither
the content nor the length of the local part. -/
theorem C23_masked_email_hides_local_part (loc1 loc2 domain : Bytes)
    (h1 : 64 ∉ loc1) (h2 : 64 ∉ loc2) :
    maskEmail (loc1 ++ 64 :: domain) = bytesOf "****@" ++ domain ∧
    maskEmail (loc1 ++ 64 :: domain) = maskEmail (loc2 ++ 64 :: domain) := by
  simp only [maskEmail, getDomainFromEmail_no_at _ _ h1, getDomainFromEmail_no_at _ _ h2,
    and_self]

/-- Witness of C23: `john@example.com` and `a@example.com` have the same
masked form, `****@example.com`. -/
theorem C23_masked_email_hides_local_part_witness :
    maskEmail (bytesOf "john@example.com") = bytesOf "****@example.com" ∧
    maskEmail (bytesOf "john@example.com") = maskEmail (bytesOf "a@example.com") :=
  C23_masked_email_hides_local_part (bytesOf "john") (bytesOf "a") (bytesOf "example.com")
    (by decide) (by decide)

/-! ## The digits of a match of the credit card pattern -/

/-- `ReplaceAllStringFunc` uses its callback on the matched spans only. -/
theorem ReplaceAllStringFunc_congr (re : Regex) (f g : Bytes → Bytes) :
    ∀ (n : Nat) (src : Bytes), (∀ cc ∈ matchedSpans re n src, f cc = g cc) →
      ReplaceAllStringFunc re f n src = ReplaceAllStringFunc re g n src := by
  intro n
  induction n with
  | zero => intro src _; rfl
  | succ n ih =>
    intro src h
    unfold ReplaceAllStringFunc
    unfold matchedSpans at h
    split
    · rename_i rest hrest
      simp only [hrest] at h
      split
      · rename_i hlt
        simp only [hlt, if_true, List.mem_cons, forall_eq_or_imp] at h
        rw [h.1, ih rest h.2]
      · rename_i hlt
        simp only [hlt, if_false] at h
        split
        · rfl
        · rename_i r w hw hdec
          rw [ih (src.drop w) (by simpa [hdec] using h)]
    · rename_i hnone
      simp only [hnone] at h
      split
      · rfl
      · rename_i r w hw hdec
        rw [ih (src.drop w) (by simpa [hdec] using h)]

theorem matchedSpans_mem (re : Regex) :
    ∀ (n : Nat) (src cc : Bytes), cc ∈ matchedSpans re n src →
      ∃ s t, re.matchAt s = some t ∧ cc = s.take (s.length - t.length) := by
  intro n
  induction n with
  | zero => intro src cc h; simp [matchedSpans] at h
  | succ n ih =>
    intro src cc h
    unfold matchedSpans at h
    split at h
    · rename_i rest hrest
      split at h
      · simp only [List.mem_cons] at h
        rcases h with h | h
        · exact ⟨src, rest, hrest, h⟩
        · exact ih rest cc h
      · split at h
        · simp at h
        · exact ih _ cc h
    · split at h
      · simp at h
      · exact ih _ cc h

theorem run_cls_mem (p : Nat → Bool) (hp : ∀ r, p r = true → r < 128) (s t : Bytes)
    (h : t ∈ Regex.run (.cls p) s) : ∃ r, p r = true ∧ s = r :: t := by
  cases s with
  | nil => simp [Regex.run, decodeRune] at h
  | cons c s =>
    simp only [Regex.run] at h
    split at h
    · simp at h
    · rename_i r w _ hdec
      split at h
      · rename_i hpr
        obtain ⟨hrc, hw1⟩ := decodeRune_ascii_inv c s r w hdec (hp r hpr)
        simp only [List.mem_singleton] at h
        subst hrc hw1
        exact ⟨r, hpr, by simp [h]⟩
      · simp at h

/-- A match of one group `\d[ -]*?` holds one digit. -/
theorem run_group_count (s t : Bytes)
    (h : t ∈ Regex.run (.cat (.cls isDigit) (.lazyStar (.cls isSeparator))) s) :
    ∃ m, s = m ++ t ∧ (m.filter isDigit).length = 1 := by
  rw [run_cat, List.mem_flatMap] at h
  obtain ⟨u, hu, htu⟩ := h
  obtain ⟨d, hd, hs⟩ := run_cls_mem isDigit isDigit_lt s u hu
  obtain ⟨m, hm, hsep⟩ := run_consumes isSeparator isSeparator_lt
    (.lazyStar (.cls isSeparator)) (fun r hr => hr) u t htu
  refine ⟨d :: m, by rw [hs, hm]; rfl, ?_⟩
  have : m.filter isDigit = [] := by
    rw [List.filter_eq_nil_iff]
    intro x hx
    simp [isSeparator_not_isDigit x (List.all_eq_true.mp hsep x hx)]
  simp [List.filter_cons, hd, this]

/-- A match of `k` groups followed by a pattern `tail` is `k` digits (with
their separators) followed by a match of `tail`. -/
theorem run_power_count (tail : Regex) :
    ∀ (k : Nat) (s t : Bytes),
      t ∈ Regex.run (Regex.power (.cat (.cls isDigit) (.lazyStar (.cls isSeparator))) k tail) s →
      ∃ m u, s = m ++ u ∧ (m.filter isDigit).length = k ∧ t ∈ Regex.run tail u := by
  intro k
  induction k with
  | zero => intro s t h; exact ⟨[], s, rfl, rfl, h⟩
  | succ k ih =>
    intro s t h
    simp only [Regex.power] at h
    rw [run_cat, List.mem_flatMap] at h
    obtain ⟨u, hu, htu⟩ := h
    obtain ⟨m1, h1, c1⟩ := run_group_count s u hu
    obtain ⟨m2, v, h2, c2, hv⟩ := ih u t htu
    refine ⟨m1 ++ m2, v, by rw [h1, h2, List.append_assoc], ?_, hv⟩
    rw [List.filter_append, List.length_append, c1, c2]
    omega

/-- A match of the `j` nested optional groups holds at most `j` digits. -/
theorem run_nest_count :
    ∀ (j : Nat) (s t : Bytes),
      t ∈ Regex.run (Regex.nest (.cat (.cls isDigit) (.lazyStar (.cls isSeparator))) j) s →
      ∃ m, s = m ++ t ∧ (m.filter isDigit).length ≤ j := by
  intro j
  induction j with
  | zero =>
    intro s t h
    simp only [Regex.nest, Regex.run, List.mem_singleton] at h
    exact ⟨[], by simp [h], by simp⟩
  | succ j ih =>
    intro s t h
    simp only [Regex.nest] at h
    rw [run_quest, List.mem_append, List.mem_singleton] at h
    rcases h with h | h
    · rw [run_cat, List.mem_flatMap] at h
      obtain ⟨u, hu, htu⟩ := h
      obtain ⟨m1, h1, c1⟩ := run_group_count s u hu
      obtain ⟨m2, h2, c2⟩ := ih u t htu
      refine ⟨m1 ++ m2, by rw [h1, h2, List.append_assoc], ?_⟩
      rw [List.filter_append, List.length_append, c1]
      omega
    · exact ⟨[], by simp [h], by simp⟩

/-- Every match of the credit card pattern is a string of digits, spaces and
hyphens that holds 13 to 16 digits. -/
theorem creditCard_match_digits (s t : Bytes) (h : creditCardBaseRegexp.matchAt s = some t) :
    ∃ m, s = m ++ t ∧ m.all (fun b => isDigit b || isSeparator b) = true ∧
      13 ≤ (m.filter isDigit).length ∧ (m.filter isDigit).length ≤ 16 := by
  obtain ⟨m, hm, hall⟩ := creditCard_match_bytes s t h
  have hmem : t ∈ Regex.run creditCardBaseRegexp s := List.mem_of_mem_head? h
  rw [creditCardGroup_eq] at hmem
  obtain ⟨m1, u, h1, c1, hu⟩ := run_power_count _ 13 s t hmem
  obtain ⟨m2, h2, c2⟩ := run_nest_count 3 u t hu
  have heq : m = m1 ++ m2 := by
    have : m ++ t = (m1 ++ m2) ++ t := by rw [← hm, h1, h2, List.append_assoc]
    exact List.append_cancel_right this
  refine ⟨m, hm, hall, ?_, ?_⟩ <;>
    rw [heq, List.filter_append, List.length_append, c1] <;> omega

/-- C25: for every input text, every span on which `CreditCardMasker.Mask`
calls its callback is a match of the pattern, and the digit string the
callback hands to `luhn` has 13 to 16 digits; so the length check of `luhn`
never rejects it, the result of `luhn` being that of its checksum, and no
candidate has 17 to 19 digits. -/
theorem C25_matched_candidates_have_13_to_16_digits (text cc : Bytes)
    (hcc : cc ∈ matchedSpans creditCardBaseRegexp text.length text) :
    13 ≤ (onlyDigits cc).length ∧ (onlyDigits cc).length ≤ 16 ∧
    luhn (onlyDigits cc) =
      (luhnLoop (onlyDigits cc) (onlyDigits cc).length false 0 % 10 == 0) := by
  obtain ⟨s, t, hst, hcc2⟩ := matchedSpans_mem _ _ _ _ hcc
  obtain ⟨m, hm, hall, h13, h16⟩ := creditCard_match_digits s t hst
  have hcm : cc = m := by
    rw [hcc2, hm]
    simp
  have hascii : ∀ b ∈ m, b < 128 := by
    intro b hb
    have := List.all_eq_true.mp hall b hb
    simp only [Bool.or_eq_true] at this
    rcases this with h | h
    · exact isDigit_lt b h
    · exact isSeparator_lt b h
  rw [hcm, onlyDigits_ascii m hascii]
  refine ⟨h13, h16, ?_⟩
  have hlen : ¬ ((m.filter isDigit).length < 13 ∨ (m.filter isDigit).length > 19) := by omega
  simp only [luhn, hlen, if_false]

/-- Witness of C25 on a run of 19 digits: the callback gets its first 16
digits, not the run as a whole. -/
theorem C25_matched_candidates_have_13_to_16_digits_witness :
    bytesOf "1234567890123456" ∈
      matchedSpans creditCardBaseRegexp (bytesOf "1234567890123456789").length
        (bytesOf "1234567890123456789") ∧
    (onlyDigits (bytesOf "1234567890123456")).length ≤ 16 :=
  ⟨by decide,
   (C25_matched_candidates_have_13_to_16_digits (bytesOf "1234567890123456789")
    (bytesOf "1234567890123456") (by decide)).2.1⟩

end GoProxy
